import Mathlib

/-!
Verification of an intrusive red-black-tree ordered-set container
(`rbtree.cpp`).  The C++ class `Set<ValueType>` is shallowly embedded at
`ValueType = Nat`: the heap of `Node` objects becomes an arena
(`List Node`) addressed by indices, with index `0` playing the role of
the shared sentinel `terminal_` (the constructor allocates the sentinel
first, so it is the first arena slot).  `new` allocates at the end of
the arena; `delete` leaves a stale, unreferenced slot behind, which is
faithful because no live pointer refers to a deleted node.  Every C++
loop becomes fuel-based recursion returning `Option` (`none` = fuel
exhausted, which never happens on well-formed states with the fuel the
wrappers supply).  All pointer reads re-read the current state in
source order, so aliasing behaves exactly as in the C++.
-/

namespace RB

/-- `enum class NodeColor { BLACK, RED }`. -/
inductive NodeColor where
  | BLACK : NodeColor
  | RED : NodeColor
deriving DecidableEq

/-- `Node<ValueType>` at `ValueType = Nat`: payload, color and the three
links, stored as arena indices (`0` = `terminal_`). -/
structure Node where
  data : Nat
  color : NodeColor
  left : Nat
  right : Nat
  parent : Nat
deriving DecidableEq

/-- The default node used for out-of-range arena reads (never read on
well-formed states). -/
def emptyNode : Node := ⟨0, NodeColor.BLACK, 0, 0, 0⟩

/-- The state of a `Set<Nat>` object: the node arena plus the five data
members `root_`, `size_`, `head_`, `tail_` (`terminal_` is arena slot 0). -/
structure Set where
  nodes : List Node
  root_ : Nat
  size_ : Nat
  head_ : Nat
  tail_ : Nat
deriving DecidableEq

/-- Dereference a node pointer: read arena slot `i`. -/
def getN (s : Set) (i : Nat) : Node := s.nodes.getD i emptyNode

/-- Overwrite arena slot `i`. -/
def setN (s : Set) (i : Nat) (n : Node) : Set :=
  { s with nodes := s.nodes.set i n }

/-- `i->color = c`. -/
def setColor (s : Set) (i : Nat) (c : NodeColor) : Set :=
  setN s i { getN s i with color := c }

/-- `i->left = v`. -/
def setLeft (s : Set) (i : Nat) (v : Nat) : Set :=
  setN s i { getN s i with left := v }

/-- `i->right = v`. -/
def setRight (s : Set) (i : Nat) (v : Nat) : Set :=
  setN s i { getN s i with right := v }

/-- `i->parent = v`. -/
def setParent (s : Set) (i : Nat) (v : Nat) : Set :=
  setN s i { getN s i with parent := v }

/-- `Set::Set()`: allocate the sentinel (slot 0), make its three links
point to itself, and let `root_`, `head_`, `tail_` be the sentinel. -/
def init : Set :=
  { nodes := [⟨0, NodeColor.BLACK, 0, 0, 0⟩]
    root_ := 0
    size_ := 0
    head_ := 0
    tail_ := 0 }

/-! ### Node navigation (`Node::minimum/maximum/next/prev`) -/

/-- `Node::minimum(terminal)`: `while (x->left != terminal) x = x->left`. -/
def minimumF (s : Set) : Nat → Nat → Option Nat
  | 0, _ => none
  | fuel + 1, x =>
    if (getN s x).left = 0 then some x else minimumF s fuel (getN s x).left

/-- `Node::maximum(terminal)`: `while (x->right != terminal) x = x->right`. -/
def maximumF (s : Set) : Nat → Nat → Option Nat
  | 0, _ => none
  | fuel + 1, x =>
    if (getN s x).right = 0 then some x else maximumF s fuel (getN s x).right

/-- The climbing loop of `Node::next`:
`while (x != terminal && y == x->right) { y = x; x = x->parent; } return x`. -/
def climbNext (s : Set) : Nat → Nat → Nat → Option Nat
  | 0, _, _ => none
  | fuel + 1, x, y =>
    if x ≠ 0 ∧ y = (getN s x).right then climbNext s fuel (getN s x).parent x
    else some x

/-- The climbing loop of `Node::prev` (mirror of `climbNext`). -/
def climbPrev (s : Set) : Nat → Nat → Nat → Option Nat
  | 0, _, _ => none
  | fuel + 1, x, y =>
    if x ≠ 0 ∧ y = (getN s x).left then climbPrev s fuel (getN s x).parent x
    else some x

/-- `Node::next(terminal)`: the in-order successor. -/
def nextF (s : Set) (fuel i : Nat) : Option Nat :=
  if (getN s i).right ≠ 0 then minimumF s fuel (getN s i).right
  else climbNext s fuel (getN s i).parent i

/-- `Node::prev(terminal)`: the in-order predecessor. -/
def prevF (s : Set) (fuel i : Nat) : Option Nat :=
  if (getN s i).left ≠ 0 then maximumF s fuel (getN s i).left
  else climbPrev s fuel (getN s i).parent i

/-! ### Lookup (`Set::find`, `Set::lower_bound`) -/

/-- The descent loop of `Set::find`. -/
def findLoop (s : Set) (v : Nat) : Nat → Nat → Option Nat
  | 0, _ => none
  | fuel + 1, current =>
    if current = 0 then some current
    else if v < (getN s current).data then findLoop s v fuel (getN s current).left
    else if (getN s current).data < v then findLoop s v fuel (getN s current).right
    else some current

/-- `Set::find(value)`: returns the arena index the returned cursor
points at (`0` = the end cursor). -/
def find (s : Set) (v : Nat) : Option Nat :=
  findLoop s v s.nodes.length s.root_

/-- The descent loop of `Set::lower_bound`, carrying the best candidate
`res` (initially the sentinel). -/
def lowerBoundLoop (s : Set) (v : Nat) : Nat → Nat → Nat → Option Nat
  | 0, _, _ => none
  | fuel + 1, res, current =>
    if current = 0 then some res
    else if (getN s current).data < v then
      lowerBoundLoop s v fuel res (getN s current).right
    else if v < (getN s current).data then
      lowerBoundLoop s v fuel
        (if res = 0 ∨ (getN s current).data < (getN s res).data then current else res)
        (getN s current).left
    else some current

/-- `Set::lower_bound(value)`. -/
def lower_bound (s : Set) (v : Nat) : Option Nat :=
  lowerBoundLoop s v s.nodes.length 0 s.root_

/-! ### Rotations -/

/-- `Set::left_rotate(x)`, with every pointer read re-reading the
current state in source order. -/
def left_rotate (s0 : Set) (x : Nat) : Set :=
  let y := (getN s0 x).right
  let s1 := setRight s0 x (getN s0 y).left
  let s2 := if (getN s1 y).left ≠ 0 then setParent s1 (getN s1 y).left x else s1
  let s3 := if y ≠ 0 then setParent s2 y (getN s2 x).parent else s2
  let s4 :=
    if (getN s3 x).parent = 0 then { s3 with root_ := y }
    else if x = (getN s3 ((getN s3 x).parent)).left then
      setLeft s3 ((getN s3 x).parent) y
    else setRight s3 ((getN s3 x).parent) y
  let s5 := setLeft s4 y x
  if x ≠ 0 then setParent s5 x y else s5

/-- `Set::right_rotate(x)` (mirror of `left_rotate`). -/
def right_rotate (s0 : Set) (x : Nat) : Set :=
  let y := (getN s0 x).left
  let s1 := setLeft s0 x (getN s0 y).right
  let s2 := if (getN s1 y).right ≠ 0 then setParent s1 (getN s1 y).right x else s1
  let s3 := if y ≠ 0 then setParent s2 y (getN s2 x).parent else s2
  let s4 :=
    if (getN s3 x).parent = 0 then { s3 with root_ := y }
    else if x = (getN s3 ((getN s3 x).parent)).right then
      setRight s3 ((getN s3 x).parent) y
    else setLeft s3 ((getN s3 x).parent) y
  let s5 := setRight s4 y x
  if x ≠ 0 then setParent s5 x y else s5

/-! ### Insertion -/

/-- The descent loop of `Set::insert`: returns the last real node
visited `y` together with a flag telling whether the value was found
(in which case the C++ returns without inserting). -/
def insertLoop (s : Set) (v : Nat) : Nat → Nat → Nat → Option (Nat × Bool)
  | 0, _, _ => none
  | fuel + 1, y, x =>
    if x = 0 then some (y, false)
    else if v < (getN s x).data then insertLoop s v fuel x (getN s x).left
    else if (getN s x).data < v then insertLoop s v fuel x (getN s x).right
    else some (y, true)

/-- The `while (x->parent->color == RED)` loop of `Set::insert_fix_up`. -/
def insertFixUpLoop : Nat → Set → Nat → Option Set
  | 0, _, _ => none
  | fuel + 1, s, x =>
    if (getN s ((getN s x).parent)).color = NodeColor.RED then
      if (getN s x).parent = (getN s ((getN s ((getN s x).parent)).parent)).left then
        let y := (getN s ((getN s ((getN s x).parent)).parent)).right
        if (getN s y).color = NodeColor.RED then
          let s := setColor s ((getN s x).parent) NodeColor.BLACK
          let s := setColor s y NodeColor.BLACK
          let s := setColor s ((getN s ((getN s x).parent)).parent) NodeColor.RED
          insertFixUpLoop fuel s ((getN s ((getN s x).parent)).parent)
        else
          let p := if x = (getN s ((getN s x).parent)).right then
              ((getN s x).parent, left_rotate s ((getN s x).parent))
            else (x, s)
          let x := p.1
          let s := p.2
          let s := setColor s ((getN s x).parent) NodeColor.BLACK
          let s := setColor s ((getN s ((getN s x).parent)).parent) NodeColor.RED
          let s := right_rotate s ((getN s ((getN s x).parent)).parent)
          insertFixUpLoop fuel s x
      else
        let y := (getN s ((getN s ((getN s x).parent)).parent)).left
        if (getN s y).color = NodeColor.RED then
          let s := setColor s ((getN s x).parent) NodeColor.BLACK
          let s := setColor s y NodeColor.BLACK
          let s := setColor s ((getN s ((getN s x).parent)).parent) NodeColor.RED
          insertFixUpLoop fuel s ((getN s ((getN s x).parent)).parent)
        else
          let p := if x = (getN s ((getN s x).parent)).left then
              ((getN s x).parent, right_rotate s ((getN s x).parent))
            else (x, s)
          let x := p.1
          let s := p.2
          let s := setColor s ((getN s x).parent) NodeColor.BLACK
          let s := setColor s ((getN s ((getN s x).parent)).parent) NodeColor.RED
          let s := left_rotate s ((getN s ((getN s x).parent)).parent)
          insertFixUpLoop fuel s x
    else some s

/-- `Set::insert_fix_up(x)`: loop, then `root_->color = BLACK`. -/
def insert_fix_up (s : Set) (x fuel : Nat) : Option Set :=
  (insertFixUpLoop fuel s x).map fun s => setColor s s.root_ NodeColor.BLACK

/-- `Set::insert(value)`. -/
def insert (s : Set) (v : Nat) : Option Set :=
  match insertLoop s v s.nodes.length 0 s.root_ with
  | none => none
  | some (_, true) => some s
  | some (y, false) =>
    let zi := s.nodes.length
    let s1 : Set := { s with nodes := s.nodes ++ [⟨v, NodeColor.RED, 0, 0, y⟩] }
    let s2 := if s1.head_ = 0 ∨ v < (getN s1 s1.head_).data then { s1 with head_ := zi } else s1
    let s3 := if s2.tail_ = 0 ∨ (getN s2 s2.tail_).data < v then { s2 with tail_ := zi } else s2
    let s4 :=
      if y = 0 then { s3 with root_ := zi }
      else if v < (getN s3 y).data then setLeft s3 y zi
      else setRight s3 y zi
    let s5 : Set := { s4 with size_ := s4.size_ + 1 }
    insert_fix_up s5 zi s5.nodes.length

/-! ### Deletion -/

/-- `Set::transplant(x, y)`. -/
def transplant (s : Set) (x y : Nat) : Set :=
  let s1 :=
    if (getN s x).parent = 0 then { s with root_ := y }
    else if x = (getN s ((getN s x).parent)).left then
      setLeft s ((getN s x).parent) y
    else setRight s ((getN s x).parent) y
  setParent s1 y ((getN s1 x).parent)

/-- The `while (x != root_ && x->color == BLACK)` loop of
`Set::erase_fix_up`; returns the final state together with the final
value of the loop variable `x`. -/
def eraseFixUpLoop : Nat → Set → Nat → Option (Set × Nat)
  | 0, _, _ => none
  | fuel + 1, s, x =>
    if x ≠ s.root_ ∧ (getN s x).color = NodeColor.BLACK then
      if x = (getN s ((getN s x).parent)).left then
        let w := (getN s ((getN s x).parent)).right
        let p :=
          if (getN s w).color = NodeColor.RED then
            let s := setColor s w NodeColor.BLACK
            let s := setColor s ((getN s x).parent) NodeColor.RED
            let s := left_rotate s ((getN s x).parent)
            (s, (getN s ((getN s x).parent)).right)
          else (s, w)
        let s := p.1
        let w := p.2
        if (getN s ((getN s w).left)).color = NodeColor.BLACK ∧
            (getN s ((getN s w).right)).color = NodeColor.BLACK then
          let s := setColor s w NodeColor.RED
          eraseFixUpLoop fuel s ((getN s x).parent)
        else
          let q :=
            if (getN s ((getN s w).right)).color = NodeColor.BLACK then
              let s := setColor s ((getN s w).left) NodeColor.BLACK
              let s := setColor s w NodeColor.RED
              let s := right_rotate s w
              (s, (getN s ((getN s x).parent)).right)
            else (s, w)
          let s := q.1
          let w := q.2
          let s := setColor s w ((getN s ((getN s x).parent)).color)
          let s := setColor s ((getN s x).parent) NodeColor.BLACK
          let s := setColor s ((getN s w).right) NodeColor.BLACK
          let s := left_rotate s ((getN s x).parent)
          eraseFixUpLoop fuel s s.root_
      else
        let w := (getN s ((getN s x).parent)).left
        let p :=
          if (getN s w).color = NodeColor.RED then
            let s := setColor s w NodeColor.BLACK
            let s := setColor s ((getN s x).parent) NodeColor.RED
            let s := right_rotate s ((getN s x).parent)
            (s, (getN s ((getN s x).parent)).left)
          else (s, w)
        let s := p.1
        let w := p.2
        if (getN s ((getN s w).right)).color = NodeColor.BLACK ∧
            (getN s ((getN s w).left)).color = NodeColor.BLACK then
          let s := setColor s w NodeColor.RED
          eraseFixUpLoop fuel s ((getN s x).parent)
        else
          let q :=
            if (getN s ((getN s w).left)).color = NodeColor.BLACK then
              let s := setColor s ((getN s w).right) NodeColor.BLACK
              let s := setColor s w NodeColor.RED
              let s := left_rotate s w
              (s, (getN s ((getN s x).parent)).left)
            else (s, w)
          let s := q.1
          let w := q.2
          let s := setColor s w ((getN s ((getN s x).parent)).color)
          let s := setColor s ((getN s x).parent) NodeColor.BLACK
          let s := setColor s ((getN s w).left) NodeColor.BLACK
          let s := right_rotate s ((getN s x).parent)
          eraseFixUpLoop fuel s s.root_
    else some (s, x)

/-- `Set::erase_fix_up(x)`: loop, then `x->color = BLACK` on the final
loop variable. -/
def erase_fix_up (s : Set) (fuel x : Nat) : Option Set :=
  (eraseFixUpLoop fuel s x).map fun p => setColor p.1 p.2 NodeColor.BLACK

/-- The tail shared by all branches of `Set::erase(iterator)`: the
conditional fix-up call, then `--size_` (the node slot of `z` is simply
abandoned, modelling `delete(z)`). -/
def eraseFinish (s : Set) (fuel x : Nat) (original : NodeColor) : Option Set :=
  (if original = NodeColor.BLACK then erase_fix_up s fuel x else some s).map
    fun s => { s with size_ := s.size_ - 1 }

/-- `Set::erase(iterator)`, taking the cursor's node index `zi`
(`0` = the end cursor). -/
def eraseIt (s : Set) (zi : Nat) : Option Set :=
  if zi = 0 then some s
  else
    let fuel := s.nodes.length
    match (if s.head_ = zi then nextF s fuel s.head_ else some s.head_) with
    | none => none
    | some h =>
      let s : Set := { s with head_ := h }
      match (if s.tail_ = zi then prevF s fuel s.tail_ else some s.tail_) with
      | none => none
      | some t =>
        let s : Set := { s with tail_ := t }
        let original := (getN s zi).color
        if (getN s zi).left = 0 then
          eraseFinish (transplant s zi ((getN s zi).right)) fuel ((getN s zi).right) original
        else if (getN s zi).right = 0 then
          eraseFinish (transplant s zi ((getN s zi).left)) fuel ((getN s zi).left) original
        else
          match minimumF s fuel ((getN s zi).right) with
          | none => none
          | some y =>
            let original := (getN s y).color
            let x := (getN s y).right
            let s :=
              if (getN s y).parent = zi then setParent s x y
              else
                let s := transplant s y ((getN s y).right)
                let s := setRight s y ((getN s zi).right)
                setParent s ((getN s y).right) y
            let s := transplant s zi y
            let s := setLeft s y ((getN s zi).left)
            let s := setParent s ((getN s y).left) y
            let s := setColor s y ((getN s zi).color)
            eraseFinish s fuel x original

/-- `Set::erase(value)`: `erase(find(value))`. -/
def eraseVal (s : Set) (v : Nat) : Option Set :=
  match find s v with
  | none => none
  | some j => eraseIt s j

/-! ### Iterator operations and whole-set iteration -/

/-- `SetIterator::operator++`: `current = current->next(terminal_)`. -/
def iterInc (s : Set) (i : Nat) : Option Nat :=
  nextF s s.nodes.length i

/-- `SetIterator::operator--`: from the end cursor move to the cached
`tail_`, otherwise `current = current->prev(terminal_)`. -/
def iterDec (s : Set) (i : Nat) : Option Nat :=
  if i = 0 then some s.tail_ else prevF s s.nodes.length i

/-- Collect the payloads from cursor `i` to the end cursor by repeated
`operator++`. -/
def iterFrom (s : Set) : Nat → Nat → Option (List Nat)
  | 0, i => if i = 0 then some [] else none
  | fuel + 1, i =>
    if i = 0 then some []
    else
      match iterInc s i with
      | none => none
      | some j =>
        match iterFrom s fuel j with
        | none => none
        | some rest => some ((getN s i).data :: rest)

/-- The full `begin()`..`end()` iteration sequence. -/
def iteration (s : Set) : Option (List Nat) :=
  iterFrom s s.nodes.length s.head_

/-- `Set::size()`. -/
def size (s : Set) : Nat := s.size_

/-- `Set::empty()`: `size() == 0`. -/
def empty? (s : Set) : Bool := size s == 0

/-! ### Operation sequences -/

/-- A public mutating operation: `insert(v)` or `erase(v)`. -/
inductive Op where
  | insOp : Nat → Op
  | delOp : Nat → Op
deriving DecidableEq

/-- Apply one operation. -/
def applyOp (s : Set) (op : Op) : Option Set :=
  match op with
  | Op.insOp v => insert s v
  | Op.delOp v => eraseVal s v

/-- Run a sequence of operations from a given state. -/
def runFrom : Set → List Op → Option Set
  | s, [] => some s
  | s, op :: ops =>
    match applyOp s op with
    | none => none
    | some s1 => runFrom s1 ops

/-- Run a sequence of operations from the initially empty set. -/
def run (ops : List Op) : Option Set := runFrom init ops

/-! ### Specification side: reading the pointer structure back as a tree -/

/-- The shape of the node graph hanging off an index, with each real
node labelled by its arena index. -/
inductive ITree where
  | leaf : ITree
  | node : ITree → Nat → ITree → ITree
deriving DecidableEq

/-- Read the subtree rooted at index `i` out of the arena.  `none`
means the fuel did not cover the depth (on a well-formed state fuel
`s.nodes.length` always suffices). -/
def extract (s : Set) : Nat → Nat → Option ITree
  | 0, _ => none
  | fuel + 1, i =>
    if i = 0 then some ITree.leaf
    else
      match extract s fuel (getN s i).left, extract s fuel (getN s i).right with
      | some l, some r => some (ITree.node l i r)
      | _, _ => none

/-- In-order list of arena indices of a tree. -/
def inorderIdx : ITree → List Nat
  | ITree.leaf => []
  | ITree.node l i r => inorderIdx l ++ i :: inorderIdx r

/-- In-order list of payloads. -/
def valsOf (s : Set) (t : ITree) : List Nat :=
  (inorderIdx t).map fun i => (getN s i).data

/-- Every `parent` link agrees with the tree position (`p` = expected
parent of the root of `t`). -/
def parentOKb (s : Set) : ITree → Nat → Bool
  | ITree.leaf, _ => true
  | ITree.node l i r, p =>
    ((getN s i).parent == p) && parentOKb s l i && parentOKb s r i

/-- Every index is a real in-range arena slot. -/
def idxOKb (s : Set) (t : ITree) : Bool :=
  (inorderIdx t).all fun i => (i != 0) && decide (i < s.nodes.length)

/-- The color of the root of a subtree (a leaf is the BLACK sentinel). -/
def topColor (s : Set) : ITree → NodeColor
  | ITree.leaf => NodeColor.BLACK
  | ITree.node _ i _ => (getN s i).color

/-- Invariant 3: no RED node has a RED child. -/
def noRedRedb (s : Set) : ITree → Bool
  | ITree.leaf => true
  | ITree.node l i r =>
    (!((getN s i).color == NodeColor.RED) ||
      ((topColor s l == NodeColor.BLACK) && (topColor s r == NodeColor.BLACK))) &&
    noRedRedb s l && noRedRedb s r

/-- Executable strict-ascent check for payload lists (invariant 1). -/
def ascB : List Nat → Bool
  | [] => true
  | [_] => true
  | a :: b :: l => decide (a < b) && ascB (b :: l)

/-- Invariant 4: the black height, `none` if some two sentinel paths
disagree. -/
def bhOf (s : Set) : ITree → Option Nat
  | ITree.leaf => some 0
  | ITree.node l i r =>
    match bhOf s l, bhOf s r with
    | some a, some b =>
      if a = b then
        some (a + (if (getN s i).color = NodeColor.BLACK then 1 else 0))
      else none
    | _, _ => none

/-- The full well-formedness check: the tree extracts, its indices are
real, distinct and parent-coherent, the payloads are strictly
increasing in order (invariant 1), `size_`/`head_`/`tail_` are the
count and the cached minimum/maximum (invariant 5), the sentinel and
root are BLACK (invariant 2), no red-red edge (invariant 3) and the
black height is uniform (invariant 4). -/
def wfB (s : Set) : Bool :=
  match extract s s.nodes.length s.root_ with
  | none => false
  | some t =>
    decide (0 < s.nodes.length) &&
    idxOKb s t &&
    decide (inorderIdx t).Nodup &&
    parentOKb s t 0 &&
    ascB (valsOf s t) &&
    (s.size_ == (inorderIdx t).length) &&
    (s.head_ == (inorderIdx t).headD 0) &&
    (s.tail_ == (inorderIdx t).getLastD 0) &&
    ((getN s 0).color == NodeColor.BLACK) &&
    ((getN s s.root_).color == NodeColor.BLACK) &&
    noRedRedb s t &&
    (bhOf s t).isSome

/-- The extracted tree of a state (the leaf when extraction fails;
under `wfB` it never fails). -/
def treeOf (s : Set) : ITree :=
  (extract s s.nodes.length s.root_).getD ITree.leaf

/-- The in-order arena indices of the stored nodes. -/
def treeIdx (s : Set) : List Nat := inorderIdx (treeOf s)

/-- The stored elements in increasing order. -/
def contents (s : Set) : List Nat := valsOf s (treeOf s)

/-! ### Arena read/write lemmas -/

theorem getN_setN (s : Set) (i : Nat) (n : Node) (j : Nat) :
    getN (setN s i n) j = if i = j ∧ i < s.nodes.length then n else getN s j := by
  simp only [getN, setN, List.getD_eq_getElem?_getD, List.getElem?_set]
  by_cases h1 : i = j
  · by_cases h2 : i < s.nodes.length <;> subst h1 <;> simp [h2]
    rw [List.getElem?_eq_none (Nat.le_of_not_lt h2)]
    rfl
  · simp [h1]

theorem nodes_length_setN (s : Set) (i : Nat) (n : Node) :
    (setN s i n).nodes.length = s.nodes.length := by
  simp [setN]

@[simp] theorem root_setN (s : Set) (i : Nat) (n : Node) : (setN s i n).root_ = s.root_ := rfl
@[simp] theorem size_setN (s : Set) (i : Nat) (n : Node) : (setN s i n).size_ = s.size_ := rfl
@[simp] theorem head_setN (s : Set) (i : Nat) (n : Node) : (setN s i n).head_ = s.head_ := rfl
@[simp] theorem tail_setN (s : Set) (i : Nat) (n : Node) : (setN s i n).tail_ = s.tail_ := rfl

theorem getN_setColor (s : Set) (i : Nat) (c : NodeColor) (j : Nat) :
    getN (setColor s i c) j =
      if i = j ∧ i < s.nodes.length then { getN s j with color := c } else getN s j := by
  rw [setColor, getN_setN]
  by_cases h : i = j ∧ i < s.nodes.length
  · simp [h, h.1]
  · simp [h]

theorem getN_setLeft (s : Set) (i v j : Nat) :
    getN (setLeft s i v) j =
      if i = j ∧ i < s.nodes.length then { getN s j with left := v } else getN s j := by
  rw [setLeft, getN_setN]
  by_cases h : i = j ∧ i < s.nodes.length
  · simp [h, h.1]
  · simp [h]

theorem getN_setRight (s : Set) (i v j : Nat) :
    getN (setRight s i v) j =
      if i = j ∧ i < s.nodes.length then { getN s j with right := v } else getN s j := by
  rw [setRight, getN_setN]
  by_cases h : i = j ∧ i < s.nodes.length
  · simp [h, h.1]
  · simp [h]

theorem getN_setParent (s : Set) (i v j : Nat) :
    getN (setParent s i v) j =
      if i = j ∧ i < s.nodes.length then { getN s j with parent := v } else getN s j := by
  rw [setParent, getN_setN]
  by_cases h : i = j ∧ i < s.nodes.length
  · simp [h, h.1]
  · simp [h]

/-- `setColor` leaves every `left`, `right`, `data`, `parent` field alone. -/
theorem setColor_shape (s : Set) (i : Nat) (c : NodeColor) (j : Nat) :
    (getN (setColor s i c) j).left = (getN s j).left ∧
    (getN (setColor s i c) j).right = (getN s j).right ∧
    (getN (setColor s i c) j).data = (getN s j).data ∧
    (getN (setColor s i c) j).parent = (getN s j).parent := by
  rw [getN_setColor]; split <;> simp

/-- `setParent` leaves every `left`, `right`, `data`, `color` field alone. -/
theorem setParent_shape (s : Set) (i v j : Nat) :
    (getN (setParent s i v) j).left = (getN s j).left ∧
    (getN (setParent s i v) j).right = (getN s j).right ∧
    (getN (setParent s i v) j).data = (getN s j).data ∧
    (getN (setParent s i v) j).color = (getN s j).color := by
  rw [getN_setParent]; split <;> simp

/-- `setLeft` leaves every `right`, `data`, `color`, `parent` field alone. -/
theorem setLeft_shape (s : Set) (i v j : Nat) :
    (getN (setLeft s i v) j).right = (getN s j).right ∧
    (getN (setLeft s i v) j).data = (getN s j).data ∧
    (getN (setLeft s i v) j).color = (getN s j).color ∧
    (getN (setLeft s i v) j).parent = (getN s j).parent := by
  rw [getN_setLeft]; split <;> simp

/-- `setRight` leaves every `left`, `data`, `color`, `parent` field alone. -/
theorem setRight_shape (s : Set) (i v j : Nat) :
    (getN (setRight s i v) j).left = (getN s j).left ∧
    (getN (setRight s i v) j).data = (getN s j).data ∧
    (getN (setRight s i v) j).color = (getN s j).color ∧
    (getN (setRight s i v) j).parent = (getN s j).parent := by
  rw [getN_setRight]; split <;> simp

/-! ### Extraction lemmas -/

theorem extract_mono {s : Set} : ∀ {F i t}, extract s F i = some t →
    extract s (F + 1) i = some t := by
  intro F
  induction F with
  | zero => intro i t h; simp [extract] at h
  | succ F ih =>
    intro i t h
    rw [extract] at h ⊢
    by_cases hi : i = 0
    · simpa [hi] using h
    · simp only [hi, if_false] at h ⊢
      cases hl : extract s F (getN s i).left with
      | none => rw [hl] at h; cases h
      | some l =>
        cases hr : extract s F (getN s i).right with
        | none => rw [hl, hr] at h; cases h
        | some r =>
          rw [hl, hr] at h
          rw [ih hl, ih hr]
          exact h

theorem extract_le {s : Set} {F F' : Nat} (hle : F ≤ F') {i : Nat} {t : ITree}
    (h : extract s F i = some t) : extract s F' i = some t := by
  induction hle with
  | refl => exact h
  | step _ ih => exact extract_mono ih

theorem extract_zero {s : Set} {F : Nat} (hF : 0 < F) : extract s F 0 = some ITree.leaf := by
  cases F with
  | zero => cases hF
  | succ F => simp [extract]

theorem extract_node {s : Set} {F i : Nat} {l r : ITree} {j : Nat}
    (h : extract s F i = some (ITree.node l j r)) :
    j = i ∧ i ≠ 0 ∧ extract s F (getN s i).left = some l ∧
      extract s F (getN s i).right = some r := by
  cases F with
  | zero => simp [extract] at h
  | succ F =>
    rw [extract] at h
    by_cases hi : i = 0
    · simp [hi] at h
    · simp only [hi, if_false] at h
      cases hl : extract s F (getN s i).left with
      | none => rw [hl] at h; cases h
      | some l' =>
        cases hr : extract s F (getN s i).right with
        | none => rw [hl, hr] at h; cases h
        | some r' =>
          rw [hl, hr] at h
          injection h with h
          injection h with h1 h2 h3
          subst h1; subst h2; subst h3
          exact ⟨rfl, hi, extract_mono hl, extract_mono hr⟩

theorem extract_node_intro {s : Set} {F i : Nat} {l r : ITree} (hi : i ≠ 0)
    (hl : extract s F (getN s i).left = some l)
    (hr : extract s F (getN s i).right = some r) :
    extract s (F + 1) i = some (ITree.node l i r) := by
  rw [extract]
  simp only [hi, if_false]
  rw [hl, hr]

/-- Extraction only reads the `left`/`right` fields of the indices that
end up in the tree, so any state agreeing there extracts the same tree. -/
theorem extract_frame {s s' : Set} : ∀ {F i t}, extract s F i = some t →
    (∀ j ∈ inorderIdx t, (getN s' j).left = (getN s j).left ∧
      (getN s' j).right = (getN s j).right) →
    extract s' F i = some t := by
  intro F
  induction F with
  | zero => intro i t h; simp [extract] at h
  | succ F ih =>
    intro i t h hag
    rw [extract] at h ⊢
    by_cases hi : i = 0
    · simpa [hi] using h
    · simp only [hi, if_false] at h ⊢
      cases hl : extract s F (getN s i).left with
      | none => rw [hl] at h; cases h
      | some l =>
        cases hr : extract s F (getN s i).right with
        | none => rw [hl, hr] at h; cases h
        | some r =>
          rw [hl, hr] at h
          injection h with h
          subst h
          have hmem : i ∈ inorderIdx (ITree.node l i r) := by simp [inorderIdx]
          have hagL : ∀ j ∈ inorderIdx l, (getN s' j).left = (getN s j).left ∧
              (getN s' j).right = (getN s j).right := by
            intro j hj; exact hag j (by simp [inorderIdx, hj])
          have hagR : ∀ j ∈ inorderIdx r, (getN s' j).left = (getN s j).left ∧
              (getN s' j).right = (getN s j).right := by
            intro j hj; exact hag j (by simp [inorderIdx, hj])
          rw [(hag i hmem).1, (hag i hmem).2, ih hl hagL, ih hr hagR]

@[simp] theorem inorderIdx_leaf : inorderIdx ITree.leaf = [] := rfl

@[simp] theorem inorderIdx_node (l : ITree) (i : Nat) (r : ITree) :
    inorderIdx (ITree.node l i r) = inorderIdx l ++ i :: inorderIdx r := rfl

@[simp] theorem valsOf_leaf (s : Set) : valsOf s ITree.leaf = [] := rfl

theorem valsOf_node (s : Set) (l : ITree) (i : Nat) (r : ITree) :
    valsOf s (ITree.node l i r) =
      valsOf s l ++ (getN s i).data :: valsOf s r := by
  simp [valsOf]

/-- `valsOf` only reads the `data` fields of the tree's indices. -/
theorem valsOf_frame {s s' : Set} {t : ITree}
    (h : ∀ j ∈ inorderIdx t, (getN s' j).data = (getN s j).data) :
    valsOf s' t = valsOf s t := by
  unfold valsOf
  exact List.map_congr_left h

@[simp] theorem parentOKb_leaf (s : Set) (p : Nat) : parentOKb s ITree.leaf p = true := rfl

theorem parentOKb_node (s : Set) (l : ITree) (i : Nat) (r : ITree) (p : Nat) :
    parentOKb s (ITree.node l i r) p = true ↔
      (getN s i).parent = p ∧ parentOKb s l i = true ∧ parentOKb s r i = true := by
  simp [parentOKb, Bool.and_assoc]

/-! ### Well-formedness, unbundled -/

/-- The conjuncts of `wfB`, as propositions over the extracted tree. -/
structure WFData (s : Set) (t : ITree) : Prop where
  hlen : 0 < s.nodes.length
  hext : extract s s.nodes.length s.root_ = some t
  hidx : ∀ j ∈ inorderIdx t, j ≠ 0 ∧ j < s.nodes.length
  hnodup : (inorderIdx t).Nodup
  hparent : parentOKb s t 0 = true
  hsorted : List.Pairwise (· < ·) (valsOf s t)
  hsize : s.size_ = (inorderIdx t).length
  hhead : s.head_ = (inorderIdx t).headD 0
  htail : s.tail_ = (inorderIdx t).getLastD 0
  hsent : (getN s 0).color = NodeColor.BLACK
  hrootb : (getN s s.root_).color = NodeColor.BLACK
  hrr : noRedRedb s t = true
  hbh : (bhOf s t).isSome = true

theorem ascB_iff_chain : ∀ {l : List Nat}, ascB l = true ↔ List.Chain' (· < ·) l
  | [] => by simp [ascB]
  | [a] => by simp [ascB]
  | a :: b :: l => by
    rw [ascB, List.chain'_cons, Bool.and_eq_true, decide_eq_true_eq,
      ascB_iff_chain (l := b :: l)]

theorem ascB_iff_pairwise {l : List Nat} :
    ascB l = true ↔ List.Pairwise (· < ·) l := by
  rw [ascB_iff_chain, List.chain'_iff_pairwise]

theorem wfB_dest {s : Set} (h : wfB s = true) : WFData s (treeOf s) := by
  unfold wfB at h
  cases hext : extract s s.nodes.length s.root_ with
  | none => rw [hext] at h; cases h
  | some t =>
    rw [hext] at h
    have htree : treeOf s = t := by simp [treeOf, hext]
    rw [htree]
    simp only [idxOKb, Bool.and_eq_true, beq_iff_eq, decide_eq_true_eq, List.all_eq_true,
      bne_iff_ne] at h
    obtain ⟨⟨⟨⟨⟨⟨⟨⟨⟨⟨⟨h1, h2⟩, h3⟩, h4⟩, h5⟩, h6⟩, h7⟩, h8⟩, h9⟩, h10⟩, h11⟩, h12⟩ := h
    refine ⟨h1, hext, ?_, h3, h4, ?_, h6, h7, h8, h9, h10, h11, h12⟩
    · intro j hj
      have := h2 j hj
      simp only [Bool.and_eq_true, bne_iff_ne, decide_eq_true_eq] at this
      exact this
    · rw [← ascB_iff_pairwise]; exact h5

theorem wfB_intro {s : Set} {t : ITree} (h : WFData s t) : wfB s = true := by
  unfold wfB
  rw [h.hext]
  simp only [idxOKb, Bool.and_eq_true, beq_iff_eq, decide_eq_true_eq, List.all_eq_true]
  refine ⟨⟨⟨⟨⟨⟨⟨⟨⟨⟨⟨h.hlen, ?_⟩, h.hnodup⟩, h.hparent⟩, ?_⟩, h.hsize⟩, h.hhead⟩,
      h.htail⟩, h.hsent⟩, h.hrootb⟩, h.hrr⟩, h.hbh⟩
  · intro j hj
    have := h.hidx j hj
    simp only [Bool.and_eq_true, bne_iff_ne, decide_eq_true_eq]
    exact this
  · rw [ascB_iff_pairwise]; exact h.hsorted

/-- Splitting the sortedness of the in-order payload list at a node. -/
theorem sorted_node_dest {s : Set} {l : ITree} {i : Nat} {r : ITree}
    (h : List.Pairwise (· < ·) (valsOf s (ITree.node l i r))) :
    List.Pairwise (· < ·) (valsOf s l) ∧ List.Pairwise (· < ·) (valsOf s r) ∧
      (∀ x ∈ valsOf s l, x < (getN s i).data) ∧
      (∀ x ∈ valsOf s r, (getN s i).data < x) := by
  rw [valsOf_node, List.pairwise_append] at h
  obtain ⟨h1, h2, h3⟩ := h
  rw [List.pairwise_cons] at h2
  exact ⟨h1, h2.2, fun x hx => h3 x hx _ (by simp), h2.1⟩

/-! ### `find` against the extracted tree -/

/-- Structural counterpart of the `find` descent loop. -/
def fFind (s : Set) (v : Nat) : ITree → Nat
  | ITree.leaf => 0
  | ITree.node l i r =>
    if v < (getN s i).data then fFind s v l
    else if (getN s i).data < v then fFind s v r
    else i

/-- The fueled descent loop computes `fFind` whenever the same fuel
suffices to extract the subtree. -/
theorem findLoop_eq_fFind {s : Set} {v : Nat} : ∀ {F i t}, extract s F i = some t →
    findLoop s v F i = some (fFind s v t) := by
  intro F
  induction F with
  | zero => intro i t h; simp [extract] at h
  | succ F ih =>
    intro i t h
    rw [extract] at h
    by_cases hi : i = 0
    · subst hi
      simp only [if_pos rfl] at h
      injection h with h
      subst h
      simp [findLoop, fFind]
    · simp only [hi, if_false] at h
      cases hl : extract s F (getN s i).left with
      | none => rw [hl] at h; cases h
      | some l =>
        cases hr : extract s F (getN s i).right with
        | none => rw [hl, hr] at h; cases h
        | some r =>
          rw [hl, hr] at h
          injection h with h
          subst h
          rw [findLoop, fFind]
          simp only [hi, if_false]
          by_cases h1 : v < (getN s i).data
          · simp only [h1, if_true]; exact ih hl
          · simp only [h1, if_false]
            by_cases h2 : (getN s i).data < v
            · simp only [h2, if_true]; exact ih hr
            · simp [h2]

/-- `fFind` either reports absence or lands on a node carrying `v`. -/
theorem fFind_spec {s : Set} {v : Nat} : ∀ {t : ITree},
    List.Pairwise (· < ·) (valsOf s t) →
    (fFind s v t = 0 ∧ v ∉ valsOf s t) ∨
      (fFind s v t ∈ inorderIdx t ∧ (getN s (fFind s v t)).data = v) := by
  intro t
  induction t with
  | leaf => intro _; exact Or.inl ⟨rfl, by simp⟩
  | node l i r ihl ihr =>
    intro hs
    obtain ⟨hsl, hsr, hbl, hbr⟩ := sorted_node_dest hs
    rw [fFind]
    by_cases h1 : v < (getN s i).data
    · simp only [h1, if_true]
      rcases ihl hsl with ⟨hz, hnm⟩ | ⟨hm, hd⟩
      · refine Or.inl ⟨hz, ?_⟩
        rw [valsOf_node]
        simp only [List.mem_append, List.mem_cons]
        rintro (hc | hc | hc)
        · exact hnm hc
        · exact absurd hc (by omega)
        · exact absurd (hbr v hc) (by omega)
      · exact Or.inr ⟨by simp [hm], hd⟩
    · simp only [h1, if_false]
      by_cases h2 : (getN s i).data < v
      · simp only [h2, if_true]
        rcases ihr hsr with ⟨hz, hnm⟩ | ⟨hm, hd⟩
        · refine Or.inl ⟨hz, ?_⟩
          rw [valsOf_node]
          simp only [List.mem_append, List.mem_cons]
          rintro (hc | hc | hc)
          · exact absurd (hbl v hc) (by omega)
          · exact absurd hc (by omega)
          · exact hnm hc
        · exact Or.inr ⟨by simp [hm], hd⟩
      · simp only [h2, if_false]
        exact Or.inr ⟨by simp, by omega⟩

/-- Elements of the tree have their payload in the payload list. -/
theorem data_mem_valsOf {s : Set} {t : ITree} {j : Nat} (h : j ∈ inorderIdx t) :
    (getN s j).data ∈ valsOf s t :=
  List.mem_map_of_mem _ h

/-! ### `lower_bound` against the extracted tree -/

/-- Structural counterpart of the `lower_bound` descent loop, carrying
the best-candidate accumulator `res`. -/
def fLB (s : Set) (v : Nat) : ITree → Nat → Nat
  | ITree.leaf, res => res
  | ITree.node l i r, res =>
    if (getN s i).data < v then fLB s v r res
    else if v < (getN s i).data then
      fLB s v l (if res = 0 ∨ (getN s i).data < (getN s res).data then i else res)
    else i

/-- The fueled descent loop computes `fLB` whenever the same fuel
suffices to extract the subtree. -/
theorem lowerBoundLoop_eq_fLB {s : Set} {v : Nat} : ∀ {F i t res},
    extract s F i = some t →
    lowerBoundLoop s v F res i = some (fLB s v t res) := by
  intro F
  induction F with
  | zero => intro i t res h; simp [extract] at h
  | succ F ih =>
    intro i t res h
    rw [extract] at h
    by_cases hi : i = 0
    · subst hi
      simp only [if_pos rfl] at h
      injection h with h
      subst h
      simp [lowerBoundLoop, fLB]
    · simp only [hi, if_false] at h
      cases hl : extract s F (getN s i).left with
      | none => rw [hl] at h; cases h
      | some l =>
        cases hr : extract s F (getN s i).right with
        | none => rw [hl, hr] at h; cases h
        | some r =>
          rw [hl, hr] at h
          injection h with h
          subst h
          rw [lowerBoundLoop, fLB]
          simp only [hi, if_false]
          by_cases h1 : (getN s i).data < v
          · simp only [h1, if_true]; exact ih hr
          · simp only [h1, if_false]
            by_cases h2 : v < (getN s i).data
            · simp only [h2, if_true]; exact ih hl
            · simp [h2]

/-- Behaviour of `fLB`: starting from accumulator `res` (either the
sentinel or an already-found strict upper bound of the subtree that is
`≥ v`), the result is the best candidate `≥ v` among the subtree and
`res`. -/
theorem fLB_spec {s : Set} {v : Nat} : ∀ {t : ITree} {res : Nat},
    List.Pairwise (· < ·) (valsOf s t) →
    (∀ j ∈ inorderIdx t, j ≠ 0) →
    (res = 0 ∨ (v ≤ (getN s res).data ∧ ∀ x ∈ valsOf s t, x < (getN s res).data)) →
    (fLB s v t res = 0 → res = 0 ∧ ∀ x ∈ valsOf s t, x < v) ∧
      (fLB s v t res ≠ 0 →
        v ≤ (getN s (fLB s v t res)).data ∧
        (fLB s v t res = res ∨ fLB s v t res ∈ inorderIdx t) ∧
        (∀ x ∈ valsOf s t, v ≤ x → (getN s (fLB s v t res)).data ≤ x) ∧
        (res ≠ 0 → (getN s (fLB s v t res)).data ≤ (getN s res).data)) := by
  intro t
  induction t with
  | leaf =>
    intro res _ _ hres
    constructor
    · intro h0
      rw [fLB] at h0
      exact ⟨h0, by simp⟩
    · intro hne
      rw [fLB] at hne ⊢
      rcases hres with h | ⟨h1, _⟩
      · exact absurd h hne
      · exact ⟨h1, Or.inl rfl, by simp, fun _ => le_refl _⟩
  | node l i r ihl ihr =>
    intro res hs hidx hres
    obtain ⟨hsl, hsr, hbl, hbr⟩ := sorted_node_dest hs
    have hi0 : i ≠ 0 := hidx i (by simp)
    have hidxl : ∀ j ∈ inorderIdx l, j ≠ 0 := fun j hj => hidx j (by simp [hj])
    have hidxr : ∀ j ∈ inorderIdx r, j ≠ 0 := fun j hj => hidx j (by simp [hj])
    have hdmem : (getN s i).data ∈ valsOf s (ITree.node l i r) :=
      data_mem_valsOf (by simp)
    rw [fLB]
    by_cases h1 : (getN s i).data < v
    · simp only [h1, if_true]
      have hresr : res = 0 ∨
          (v ≤ (getN s res).data ∧ ∀ x ∈ valsOf s r, x < (getN s res).data) := by
        rcases hres with h | ⟨ha, hb⟩
        · exact Or.inl h
        · exact Or.inr ⟨ha, fun x hx => hb x (by rw [valsOf_node]; simp [hx])⟩
      obtain ⟨ihz, ihnz⟩ := ihr hsr hidxr hresr
      constructor
      · intro h0
        obtain ⟨hr0, hall⟩ := ihz h0
        refine ⟨hr0, ?_⟩
        rw [valsOf_node]
        simp only [List.mem_append, List.mem_cons]
        rintro x (hc | hc | hc)
        · exact lt_trans (hbl x hc) h1
        · omega
        · exact hall x hc
      · intro hne
        obtain ⟨ha, hloc, hmin, hresb⟩ := ihnz hne
        refine ⟨ha, ?_, ?_, hresb⟩
        · rcases hloc with h | h
          · exact Or.inl h
          · exact Or.inr (by simp [h])
        · intro x hx hvx
          rw [valsOf_node] at hx
          simp only [List.mem_append, List.mem_cons] at hx
          rcases hx with hc | hc | hc
          · exact absurd (lt_trans (hbl x hc) h1) (by omega)
          · omega
          · exact hmin x hc hvx
    · simp only [h1, if_false]
      by_cases h2 : v < (getN s i).data
      · simp only [h2, if_true]
        have hcond : (if res = 0 ∨ (getN s i).data < (getN s res).data then i else res) = i := by
          rcases hres with h | ⟨_, hb⟩
          · simp [h]
          · simp [hb _ hdmem]
        rw [hcond]
        have hresl : i = 0 ∨
            (v ≤ (getN s i).data ∧ ∀ x ∈ valsOf s l, x < (getN s i).data) :=
          Or.inr ⟨le_of_lt h2, hbl⟩
        obtain ⟨ihz, ihnz⟩ := ihl hsl hidxl hresl
        constructor
        · intro h0
          exact absurd (ihz h0).1 hi0
        · intro hne
          obtain ⟨ha, hloc, hmin, hresb⟩ := ihnz hne
          have hle_i : (getN s (fLB s v l i)).data ≤ (getN s i).data := hresb hi0
          refine ⟨ha, ?_, ?_, ?_⟩
          · rcases hloc with h | h
            · exact Or.inr (by simp [h])
            · exact Or.inr (by simp [h])
          · intro x hx hvx
            rw [valsOf_node] at hx
            simp only [List.mem_append, List.mem_cons] at hx
            rcases hx with hc | hc | hc
            · exact hmin x hc hvx
            · omega
            · exact le_trans hle_i (le_of_lt (hbr x hc))
          · intro hres0
            rcases hres with h | ⟨_, hb⟩
            · exact absurd h hres0
            · exact le_trans hle_i (le_of_lt (hb _ hdmem))
      · simp only [h2, if_false]
        have hd : (getN s i).data = v := by omega
        constructor
        · intro h0; exact absurd h0 hi0
        · intro _
          refine ⟨le_of_eq hd.symm, Or.inr (by simp), ?_, ?_⟩
          · intro x hx hvx; omega
          · intro hres0
            rcases hres with h | ⟨_, hb⟩
            · exact absurd h hres0
            · exact le_of_lt (hb _ hdmem)

/-- Strictly sorted payloads make the payload-to-index map injective on
the tree. -/
theorem idx_inj_of_sorted {s : Set} {t : ITree}
    (hs : List.Pairwise (· < ·) (valsOf s t)) {j1 j2 : Nat}
    (h1 : j1 ∈ inorderIdx t) (h2 : j2 ∈ inorderIdx t)
    (hd : (getN s j1).data = (getN s j2).data) : j1 = j2 := by
  by_contra hne
  have hp : List.Pairwise (fun a b => (getN s a).data ≠ (getN s b).data) (inorderIdx t) := by
    have := (List.pairwise_map.mp (hs : List.Pairwise (· < ·)
      ((inorderIdx t).map fun i => (getN s i).data)))
    exact this.imp fun h => Nat.ne_of_lt h
  have hsym : Symmetric fun a b : Nat => (getN s a).data ≠ (getN s b).data :=
    fun a b h heq => h heq.symm
  exact hp.forall hsym h1 h2 hne hd

/-- Top-level `find` computes `fFind` on the extracted tree. -/
theorem find_eq_fFind {s : Set} (w : WFData s (treeOf s)) (v : Nat) :
    find s v = some (fFind s v (treeOf s)) :=
  findLoop_eq_fFind w.hext

/-- Top-level `lower_bound` computes `fLB` on the extracted tree. -/
theorem lower_bound_eq_fLB {s : Set} (w : WFData s (treeOf s)) (v : Nat) :
    lower_bound s v = some (fLB s v (treeOf s) 0) :=
  lowerBoundLoop_eq_fLB w.hext

/-- A convenient state builder for witnesses: repeated insertion into
the empty set, as the range constructor `Set(first, last)` does. -/
def stateOf (l : List Nat) : Set :=
  l.foldl (fun s v => (insert s v).getD s) init

/-- **C4.** For every well-formed set and every value `v`, `find v`
returns a cursor on the node whose payload equals `v` when such an
element is stored, and the end cursor (index 0) when it is not. -/
theorem find_correct (s : Set) (h : wfB s = true) (v : Nat) :
    ∃ r, find s v = some r ∧
      ((r ≠ 0 ∧ (getN s r).data = v ∧ v ∈ contents s) ∨
        (r = 0 ∧ v ∉ contents s)) := by
  have w := wfB_dest h
  refine ⟨fFind s v (treeOf s), find_eq_fFind w v, ?_⟩
  rcases fFind_spec (v := v) w.hsorted with ⟨hz, hnm⟩ | ⟨hm, hd⟩
  · exact Or.inr ⟨hz, hnm⟩
  · refine Or.inl ⟨(w.hidx _ hm).1, hd, ?_⟩
    rw [← hd]
    exact data_mem_valsOf hm

/-- **C4 witness.** -/
theorem find_correct_witness :
    wfB (stateOf [2, 1, 3]) = true ∧
      ∃ r, find (stateOf [2, 1, 3]) 3 = some r ∧
        ((r ≠ 0 ∧ (getN (stateOf [2, 1, 3]) r).data = 3 ∧ 3 ∈ contents (stateOf [2, 1, 3])) ∨
          (r = 0 ∧ 3 ∉ contents (stateOf [2, 1, 3]))) :=
  ⟨by decide, find_correct (stateOf [2, 1, 3]) (by decide) 3⟩

/-- **C3.** For every well-formed set and every value `v`,
`lower_bound v` returns a cursor on the smallest stored element `≥ v`,
or the end cursor (index 0) when every stored element is smaller. -/
theorem lower_bound_correct (s : Set) (h : wfB s = true) (v : Nat) :
    ∃ r, lower_bound s v = some r ∧
      ((r = 0 ∧ ∀ x ∈ contents s, x < v) ∨
        (r ≠ 0 ∧ (getN s r).data ∈ contents s ∧ v ≤ (getN s r).data ∧
          ∀ x ∈ contents s, v ≤ x → (getN s r).data ≤ x)) := by
  have w := wfB_dest h
  refine ⟨fLB s v (treeOf s) 0, lower_bound_eq_fLB w v, ?_⟩
  obtain ⟨hz, hnz⟩ := fLB_spec (v := v) w.hsorted (fun j hj => (w.hidx j hj).1) (Or.inl rfl)
  by_cases h0 : fLB s v (treeOf s) 0 = 0
  · exact Or.inl ⟨h0, (hz h0).2⟩
  · obtain ⟨ha, hloc, hmin, _⟩ := hnz h0
    rcases hloc with hc | hc
    · exact absurd hc h0
    · exact Or.inr ⟨h0, data_mem_valsOf hc, ha, hmin⟩

/-- **C3 witness.** -/
theorem lower_bound_correct_witness :
    wfB (stateOf [2, 1, 3]) = true ∧
      ∃ r, lower_bound (stateOf [2, 1, 3]) 3 = some r ∧
        ((r = 0 ∧ ∀ x ∈ contents (stateOf [2, 1, 3]), x < 3) ∨
          (r ≠ 0 ∧ (getN (stateOf [2, 1, 3]) r).data ∈ contents (stateOf [2, 1, 3]) ∧
            3 ≤ (getN (stateOf [2, 1, 3]) r).data ∧
            ∀ x ∈ contents (stateOf [2, 1, 3]), 3 ≤ x →
              (getN (stateOf [2, 1, 3]) r).data ≤ x)) :=
  ⟨by decide, lower_bound_correct (stateOf [2, 1, 3]) (by decide) 3⟩

/-- **C5 counterexample.** On the set `{1}` with `v = 2`, `find`
returns a cursor equal to `lower_bound`'s (both the end cursor), yet
`2` is not present — refuting "`find(v) = lower_bound(v)` iff `v` is
present". -/
theorem find_lower_bound_iff_counterexample :
    find (stateOf [1]) 2 = lower_bound (stateOf [1]) 2 ∧
      2 ∉ contents (stateOf [1]) ∧ wfB (stateOf [1]) = true := by
  decide

/-- **C5 (amended).** For every well-formed set and every value `v`,
`find v` returns a cursor equal to `lower_bound v` iff `v` is present
or `lower_bound v` is the end cursor (the latter happens exactly when
every stored element is smaller than `v`). -/
theorem find_lower_bound_agree_amended (s : Set) (h : wfB s = true) (v : Nat) :
    (find s v = lower_bound s v ↔ (v ∈ contents s ∨ lower_bound s v = some 0)) := by
  have w := wfB_dest h
  rw [find_eq_fFind w v, lower_bound_eq_fLB w v]
  obtain ⟨hz, hnz⟩ := fLB_spec (v := v) w.hsorted (fun j hj => (w.hidx j hj).1) (Or.inl rfl)
  constructor
  · intro heq
    injection heq with heq
    rcases fFind_spec (v := v) w.hsorted with ⟨hz', hnm⟩ | ⟨hm, hd⟩
    · rw [heq] at hz'
      exact Or.inr (by rw [hz'])
    · exact Or.inl (hd ▸ data_mem_valsOf hm)
  · rintro (hmem | hend)
    · rcases fFind_spec (v := v) w.hsorted with ⟨_, hnm⟩ | ⟨hm, hd⟩
      · exact absurd hmem hnm
      · by_cases h0 : fLB s v (treeOf s) 0 = 0
        · exact absurd (v.lt_irrefl ((hz h0).2 v hmem)) (by simp)
        · obtain ⟨ha, hloc, hmin, _⟩ := hnz h0
          rcases hloc with hc | hc
          · exact absurd hc h0
          · have hvd : (getN s (fLB s v (treeOf s) 0)).data = v :=
              le_antisymm (hmin v hmem (le_refl v)) ha
            have := idx_inj_of_sorted w.hsorted hm hc (by rw [hd, hvd])
            rw [this]
    · rw [hend]
      rcases fFind_spec (v := v) w.hsorted with ⟨hz', _⟩ | ⟨hm, hd⟩
      · rw [hz']
      · injection hend with hend
        obtain ⟨hall⟩ := hz hend
        have := (hz hend).2 _ (hd ▸ data_mem_valsOf hm)
        omega

/-- **C5 amended witness.** -/
theorem find_lower_bound_agree_amended_witness :
    wfB (stateOf [1]) = true ∧
      (find (stateOf [1]) 1 = lower_bound (stateOf [1]) 1 ↔
        (1 ∈ contents (stateOf [1]) ∨ lower_bound (stateOf [1]) 1 = some 0)) :=
  ⟨by decide, find_lower_bound_agree_amended (stateOf [1]) (by decide) 1⟩

/-! ### Insert/erase of present/absent values are no-ops (C7) -/

/-- Structural counterpart of the `insert` descent loop, carrying the
last real node visited. -/
def fInsPos (s : Set) (v : Nat) : ITree → Nat → (Nat × Bool)
  | ITree.leaf, y => (y, false)
  | ITree.node l i r, y =>
    if v < (getN s i).data then fInsPos s v l i
    else if (getN s i).data < v then fInsPos s v r i
    else (y, true)

/-- The fueled insert descent computes `fInsPos` whenever the same fuel
suffices to extract the subtree. -/
theorem insertLoop_eq_fInsPos {s : Set} {v : Nat} : ∀ {F i t y},
    extract s F i = some t →
    insertLoop s v F y i = some (fInsPos s v t y) := by
  intro F
  induction F with
  | zero => intro i t y h; simp [extract] at h
  | succ F ih =>
    intro i t y h
    rw [extract] at h
    by_cases hi : i = 0
    · subst hi
      simp only [if_pos rfl] at h
      injection h with h
      subst h
      simp [insertLoop, fInsPos]
    · simp only [hi, if_false] at h
      cases hl : extract s F (getN s i).left with
      | none => rw [hl] at h; cases h
      | some l =>
        cases hr : extract s F (getN s i).right with
        | none => rw [hl, hr] at h; cases h
        | some r =>
          rw [hl, hr] at h
          injection h with h
          subst h
          rw [insertLoop, fInsPos]
          simp only [hi, if_false]
          by_cases h1 : v < (getN s i).data
          · simp only [h1, if_true]; exact ih hl
          · simp only [h1, if_false]
            by_cases h2 : (getN s i).data < v
            · simp only [h2, if_true]; exact ih hr
            · simp [h2]

/-- The found-flag of the insert descent is exactly membership. -/
theorem fInsPos_found_iff {s : Set} {v : Nat} : ∀ {t : ITree} {y : Nat},
    List.Pairwise (· < ·) (valsOf s t) →
    ((fInsPos s v t y).2 = true ↔ v ∈ valsOf s t) := by
  intro t
  induction t with
  | leaf => intro y _; simp [fInsPos]
  | node l i r ihl ihr =>
    intro y hs
    obtain ⟨hsl, hsr, hbl, hbr⟩ := sorted_node_dest hs
    rw [fInsPos, valsOf_node]
    by_cases h1 : v < (getN s i).data
    · simp only [h1, if_true]
      rw [ihl hsl]
      simp only [List.mem_append, List.mem_cons]
      constructor
      · exact fun h => Or.inl h
      · rintro (h | h | h)
        · exact h
        · omega
        · exact absurd (hbr v h) (by omega)
    · simp only [h1, if_false]
      by_cases h2 : (getN s i).data < v
      · simp only [h2, if_true]
        rw [ihr hsr]
        simp only [List.mem_append, List.mem_cons]
        constructor
        · exact fun h => Or.inr (Or.inr h)
        · rintro (h | h | h)
          · exact absurd (hbl v h) (by omega)
          · omega
          · exact h
      · simp only [h2, if_false]
        simp only [List.mem_append, List.mem_cons]
        exact ⟨fun _ => Or.inr (Or.inl (by omega)), fun _ => trivial⟩

/-- Inserting a present value returns the state unchanged. -/
theorem insert_present_noop {s : Set} (w : WFData s (treeOf s)) {v : Nat}
    (hmem : v ∈ contents s) : insert s v = some s := by
  rw [insert, insertLoop_eq_fInsPos w.hext]
  have hfound : (fInsPos s v (treeOf s) 0).2 = true :=
    (fInsPos_found_iff w.hsorted).mpr hmem
  rcases hp : fInsPos s v (treeOf s) 0 with ⟨y, b⟩
  rw [hp] at hfound
  simp only at hfound
  subst hfound
  rfl

/-- Erasing through the end cursor returns the state unchanged. -/
theorem eraseIt_end_noop (s : Set) : eraseIt s 0 = some s := by
  simp [eraseIt]

/-- Erasing an absent value returns the state unchanged. -/
theorem erase_absent_noop {s : Set} (w : WFData s (treeOf s)) {v : Nat}
    (hmem : v ∉ contents s) : eraseVal s v = some s := by
  rw [eraseVal, find_eq_fFind w]
  have hz : fFind s v (treeOf s) = 0 := by
    rcases fFind_spec (v := v) w.hsorted with ⟨hz, _⟩ | ⟨hm, hd⟩
    · exact hz
    · exact absurd (hd ▸ data_mem_valsOf hm) hmem
  rw [hz]
  exact eraseIt_end_noop s

/-- **C7.** For every well-formed set: inserting a value already
present, erasing a value not present, and erasing the end cursor are
all silent no-ops that leave the entire state (elements, size,
structure) unchanged. -/
theorem noop_contract (s : Set) (h : wfB s = true) (v : Nat) :
    (v ∈ contents s → insert s v = some s) ∧
      (v ∉ contents s → eraseVal s v = some s) ∧
      eraseIt s 0 = some s := by
  have w := wfB_dest h
  exact ⟨fun hm => insert_present_noop w hm, fun hm => erase_absent_noop w hm,
    eraseIt_end_noop s⟩

/-- **C7 witness.** -/
theorem noop_contract_witness :
    wfB (stateOf [2, 7]) = true ∧
      ((2 ∈ contents (stateOf [2, 7]) → insert (stateOf [2, 7]) 2 = some (stateOf [2, 7])) ∧
        (2 ∉ contents (stateOf [2, 7]) → eraseVal (stateOf [2, 7]) 2 = some (stateOf [2, 7])) ∧
        eraseIt (stateOf [2, 7]) 0 = some (stateOf [2, 7])) :=
  ⟨by decide, noop_contract (stateOf [2, 7]) (by decide) 2⟩

/-! ### Decrementing the end cursor on an empty set (C10) -/

/-- On a well-formed empty set the cached `tail_` is the sentinel. -/
theorem tail_eq_zero_of_nil {s : Set} (w : WFData s (treeOf s))
    (hnil : contents s = []) : s.tail_ = 0 := by
  have hidx : inorderIdx (treeOf s) = [] := by
    have : valsOf s (treeOf s) = [] := hnil
    unfold valsOf at this
    exact List.map_eq_nil_iff.mp this
  rw [w.htail, hidx]
  rfl

/-- **C10.** On every well-formed empty set, decrementing the end
cursor yields the end cursor itself (the cached `tail_` is the
sentinel). -/
theorem dec_end_empty (s : Set) (h : wfB s = true) (hnil : contents s = []) :
    iterDec s 0 = some 0 := by
  have w := wfB_dest h
  rw [iterDec, if_pos rfl, tail_eq_zero_of_nil w hnil]

/-- **C10 witness.** -/
theorem dec_end_empty_witness :
    wfB init = true ∧ contents init = [] ∧ iterDec init 0 = some 0 :=
  ⟨by decide, by decide, dec_end_empty init (by decide) (by decide)⟩

/-! ### Successor lists -/

/-- The element following the first occurrence of `i` (`0` when `i` is
last or absent). -/
def listSucc : List Nat → Nat → Nat
  | [], _ => 0
  | a :: l, i => if a = i then l.headD 0 else listSucc l i

theorem listSucc_not_mem : ∀ {l1 : List Nat} {l2 : List Nat} {i : Nat}, i ∉ l1 →
    listSucc (l1 ++ l2) i = listSucc l2 i := by
  intro l1
  induction l1 with
  | nil => intro l2 i _; rfl
  | cons a l1 ih =>
    intro l2 i hn
    rw [List.cons_append, listSucc]
    have ha : a ≠ i := fun h => hn (by simp [h])
    rw [if_neg ha]
    exact ih fun h => hn (by simp [h])

theorem listSucc_here {l1 l2 : List Nat} {i : Nat} (hn : i ∉ l1) :
    listSucc (l1 ++ i :: l2) i = l2.headD 0 := by
  rw [listSucc_not_mem hn, listSucc, if_pos rfl]

theorem listSucc_inner : ∀ {l1 : List Nat} (l2 : List Nat) {i : Nat}, i ∈ l1 →
    l1.getLast? ≠ some i → listSucc (l1 ++ l2) i = listSucc l1 i := by
  intro l1
  induction l1 with
  | nil => intro l2 i h; cases h
  | cons a l1 ih =>
    intro l2 i hm hlast
    rw [List.cons_append, listSucc, listSucc]
    by_cases ha : a = i
    · rw [if_pos ha, if_pos ha]
      cases l1 with
      | nil => exact absurd (by simp [ha]) hlast
      | cons b t => rfl
    · rw [if_neg ha, if_neg ha]
      have hm' : i ∈ l1 := by
        rcases List.mem_cons.mp hm with h | h
        · exact absurd h.symm ha
        · exact h
      cases l1 with
      | nil => cases hm'
      | cons b t =>
        exact ih l2 hm' (by rw [List.getLast?_cons_cons] at hlast; exact hlast)

theorem listSucc_last : ∀ {l1 : List Nat} (l2 : List Nat) {i : Nat}, l1.Nodup →
    l1.getLast? = some i → listSucc (l1 ++ l2) i = l2.headD 0 := by
  intro l1
  induction l1 with
  | nil => intro l2 i _ h; cases h
  | cons a l1 ih =>
    intro l2 i hnd hlast
    rw [List.cons_append, listSucc]
    cases l1 with
    | nil =>
      simp only [List.getLast?_singleton, Option.some_inj] at hlast
      rw [if_pos hlast]
      rfl
    | cons b t =>
      rw [List.getLast?_cons_cons] at hlast
      have hmem : i ∈ b :: t := List.mem_of_mem_getLast? hlast
      have ha : a ≠ i := by
        intro h
        exact (List.nodup_cons.mp hnd).1 (h ▸ hmem)
      rw [if_neg ha]
      exact ih l2 (List.nodup_cons.mp hnd).2 hlast

theorem listSucc_getLast {l : List Nat} {i : Nat} (hnd : l.Nodup)
    (hlast : l.getLast? = some i) : listSucc l i = 0 := by
  have := @listSucc_last l [] i hnd hlast
  rw [List.append_nil] at this
  exact this

/-! ### Head/last of in-order lists -/

theorem inorder_ne_nil (l : ITree) (i : Nat) (r : ITree) :
    inorderIdx (ITree.node l i r) ≠ [] := by
  simp [inorderIdx]

/-- The first index of a node's in-order list. -/
theorem headD_inorder_node (l : ITree) (i : Nat) (r : ITree) :
    (inorderIdx (ITree.node l i r)).headD 0 =
      if inorderIdx l = [] then i else (inorderIdx l).headD 0 := by
  rw [inorderIdx_node]
  cases hl : inorderIdx l with
  | nil => rfl
  | cons a t => rfl

/-- The last index of a node's in-order list. -/
theorem getLastD_inorder_node (l : ITree) (i : Nat) (r : ITree) :
    (inorderIdx (ITree.node l i r)).getLastD 0 =
      if inorderIdx r = [] then i else (inorderIdx r).getLastD 0 := by
  rw [inorderIdx_node]
  cases hr : inorderIdx r with
  | nil => simpa using List.getLastD_concat 0 i (inorderIdx l)
  | cons a t =>
    simp only [List.getLastD_eq_getLast?, List.getLast?_append, List.getLast?_cons_cons]
    cases hl2 : (a :: t).getLast? with
    | none => simp at hl2
    | some b => simp [List.getLast?_cons_cons, hl2]

theorem extract_eq_leaf {s : Set} {F i : Nat} (h : extract s F i = some ITree.leaf) :
    i = 0 := by
  cases F with
  | zero => simp [extract] at h
  | succ F =>
    rw [extract] at h
    by_cases hi : i = 0
    · exact hi
    · simp only [hi, if_false] at h
      cases hl : extract s F (getN s i).left <;> rw [hl] at h
      · cases h
      · cases hr : extract s F (getN s i).right <;> rw [hr] at h
        · cases h
        · cases h

theorem extract_at_zero {s : Set} {F : Nat} {t : ITree}
    (h : extract s F 0 = some t) : t = ITree.leaf := by
  cases F with
  | zero => simp [extract] at h
  | succ F =>
    rw [extract_zero (Nat.succ_pos F)] at h
    injection h with h
    exact h.symm

theorem inorder_eq_nil_iff {t : ITree} : inorderIdx t = [] ↔ t = ITree.leaf := by
  cases t with
  | leaf => simp
  | node l i r => simp [inorderIdx]

/-! ### `Node::minimum` and the successor climb -/

/-- `minimum` lands on the first in-order index of the subtree. -/
theorem minimumF_spec {s : Set} : ∀ {F c : Nat} {t : ITree}, extract s F c = some t →
    t ≠ ITree.leaf → minimumF s F c = some ((inorderIdx t).headD 0) := by
  intro F
  induction F with
  | zero => intro c t h; simp [extract] at h
  | succ F ih =>
    intro c t h hne
    rw [extract] at h
    by_cases hi : c = 0
    · subst hi
      simp only [if_pos rfl] at h
      injection h with h
      exact absurd h.symm hne
    · simp only [hi, if_false] at h
      cases hl : extract s F (getN s c).left with
      | none => rw [hl] at h; cases h
      | some l =>
        cases hr : extract s F (getN s c).right with
        | none => rw [hl, hr] at h; cases h
        | some r =>
          rw [hl, hr] at h
          injection h with h
          subst h
          rw [minimumF, headD_inorder_node]
          by_cases h0 : (getN s c).left = 0
          · rw [if_pos h0]
            have hleaf : l = ITree.leaf := by
              rw [h0] at hl
              cases F with
              | zero => simp [extract] at hl
              | succ F =>
                rw [extract_zero (Nat.succ_pos F)] at hl
                injection hl with hl
                exact hl.symm
            simp [hleaf]
          · rw [if_neg h0]
            have hlne : l ≠ ITree.leaf := fun hf => h0 (extract_eq_leaf (hf ▸ hl))
            have hnil : inorderIdx l ≠ [] := fun hn => hlne (inorder_eq_nil_iff.mp hn)
            rw [if_neg hnil]
            exact ih hl hlne

/-- The right child field of the last in-order node is the sentinel. -/
theorem rightmost_right_leaf {s : Set} : ∀ {t : ITree} {F c : Nat},
    extract s F c = some t → t ≠ ITree.leaf →
    (getN s ((inorderIdx t).getLastD 0)).right = 0 := by
  intro t
  induction t with
  | leaf => intro F c _ hne; exact absurd rfl hne
  | node l c0 r ihl ihr =>
    intro F c h _
    obtain ⟨rfl, hc0, hl, hr⟩ := extract_node h
    rw [getLastD_inorder_node]
    by_cases hrn : inorderIdx r = []
    · rw [if_pos hrn]
      have : r = ITree.leaf := inorder_eq_nil_iff.mp hrn
      rw [this] at hr
      exact extract_eq_leaf hr
    · rw [if_neg hrn]
      exact ihr hr (fun hleaf => hrn (by rw [hleaf]; rfl))

/-- Climbing from the last in-order node of a subtree continues, after
a bounded number of steps, as a climb from the subtree's root towards
its parent (`p` = expected parent of the subtree root `c`). -/
theorem climbNext_spine {s : Set} : ∀ {t : ITree} {c p F : Nat},
    extract s F c = some t → t ≠ ITree.leaf → parentOKb s t p = true →
    ∃ k, k + 1 ≤ (inorderIdx t).length ∧ ∀ F',
      climbNext s (F' + k) ((getN s ((inorderIdx t).getLastD 0)).parent)
          ((inorderIdx t).getLastD 0) =
        climbNext s F' p c := by
  intro t
  induction t with
  | leaf => intro c p F _ hne; exact absurd rfl hne
  | node l c0 r ihl ihr =>
    intro c p F h _ hpar
    obtain ⟨heq, hcne, hl, hr⟩ := extract_node h
    subst heq
    obtain ⟨hpc, hpl, hpr⟩ := (parentOKb_node s l c0 r p).mp hpar
    rw [getLastD_inorder_node]
    by_cases hrn : inorderIdx r = []
    · rw [if_pos hrn]
      refine ⟨0, by simp only [inorderIdx_node, List.length_append, List.length_cons]; omega,
        fun F' => ?_⟩
      rw [Nat.add_zero, hpc]
    · rw [if_neg hrn]
      have hrne : r ≠ ITree.leaf := fun hleaf => hrn (by rw [hleaf]; rfl)
      obtain ⟨k', hk', hclimb⟩ := ihr hr hrne hpr
      refine ⟨k' + 1, ?_, fun F' => ?_⟩
      · rw [inorderIdx_node, List.length_append, List.length_cons]
        omega
      · have harith : F' + (k' + 1) = (F' + 1) + k' := by omega
        rw [harith, hclimb (F' + 1), climbNext, if_pos ⟨hcne, rfl⟩, hpc]

/-- In-tree successor: for any non-last node `i` of the subtree,
`Node::next` moves to the next in-order index. -/
theorem nextF_inner {s : Set} : ∀ {t : ITree} {c p F : Nat},
    extract s F c = some t → parentOKb s t p = true → (inorderIdx t).Nodup →
    (inorderIdx t).length + 1 ≤ F →
    ∀ i ∈ inorderIdx t, (inorderIdx t).getLast? ≠ some i →
    nextF s F i = some (listSucc (inorderIdx t) i) := by
  intro t
  induction t with
  | leaf => intro c p F _ _ _ _ i hi; cases hi
  | node l c0 r ihl ihr =>
    intro c p F h hpar hnd hF i hi hne
    obtain ⟨heq, hcne, hl, hr⟩ := extract_node h
    subst heq
    obtain ⟨hpc, hpl, hpr⟩ := (parentOKb_node s l c0 r p).mp hpar
    rw [inorderIdx_node] at hnd hi hne hF ⊢
    obtain ⟨hndl, hndcr, hdisj⟩ := List.nodup_append.mp hnd
    obtain ⟨hcnr, hndr⟩ := List.nodup_cons.mp hndcr
    have hlen : (inorderIdx l).length + ((inorderIdx r).length + 1) + 1 ≤ F := by
      rw [List.length_append, List.length_cons] at hF
      omega
    rcases List.mem_append.mp hi with hil | hicr
    · -- `i` lies in the left subtree
      by_cases hlast : (inorderIdx l).getLast? = some i
      · -- `i` is the last node of the left subtree: climb up to `c0`
        have hlne : l ≠ ITree.leaf := by
          intro hleaf
          rw [hleaf] at hil
          cases hil
        have hgl : (inorderIdx l).getLastD 0 = i := by
          rw [List.getLastD_eq_getLast?, hlast]
          rfl
        have hright0 : (getN s i).right = 0 := by
          have := rightmost_right_leaf hl hlne
          rwa [hgl] at this
        obtain ⟨k, hk, hclimb⟩ := climbNext_spine hl hlne hpl
        rw [hgl] at hclimb
        have hlr : (getN s c0).left ≠ (getN s c0).right := by
          intro he
          rw [he, hr] at hl
          injection hl with hl
          subst hl
          exact (List.disjoint_right.mp hdisj (by simp [hil])) hil
        have hFk : ∃ m, F - k = m + 1 ∧ F = (m + 1) + k := by
          refine ⟨F - k - 1, by omega, by omega⟩
        obtain ⟨m, _, hFe⟩ := hFk
        rw [nextF, if_neg (by simp [hright0]), hFe, hclimb (m + 1), climbNext,
          if_neg (fun hc => hlr hc.2)]
        rw [listSucc_last (c0 :: inorderIdx r) hndl hlast]
        rfl
      · -- `i` stays inside the left subtree
        have := ihl hl hpl hndl (by omega) i hil hlast
        rw [this, listSucc_inner (c0 :: inorderIdx r) hil hlast]
    · rcases List.mem_cons.mp hicr with rfl | hir
      · -- `i` is the subtree root: descend into the right subtree
        have hrne : r ≠ ITree.leaf := by
          intro hleaf
          apply hne
          rw [hleaf, inorderIdx_leaf, List.getLast?_concat]
        have hrt : (getN s i).right ≠ 0 := fun h0 => hrne (extract_at_zero (h0 ▸ hr))
        rw [nextF, if_pos hrt, minimumF_spec hr hrne,
          listSucc_here (List.disjoint_right.mp hdisj (by simp))]
      · -- `i` lies in the right subtree
        by_cases hlast : (inorderIdx r).getLast? = some i
        · exfalso
          apply hne
          cases hre : inorderIdx r with
          | nil => rw [hre] at hir; cases hir
          | cons a tl =>
            rw [List.getLast?_append]
            rw [hre] at hlast
            have : (c0 :: a :: tl).getLast? = some i := by
              rw [List.getLast?_cons_cons]
              exact hlast
            rw [this]
            rfl
        · have := ihr hr hpr hndr (by omega) i hir hlast
          rw [this, listSucc_not_mem (List.disjoint_right.mp hdisj
              (List.mem_cons_of_mem c0 hir)), listSucc,
            if_neg (fun hc => hcnr (by rw [hc]; exact hir))]

/-- The number of stored nodes is less than the arena size. -/
theorem inorder_length_lt {s : Set} {t : ITree}
    (hidx : ∀ j ∈ inorderIdx t, j ≠ 0 ∧ j < s.nodes.length)
    (hnd : (inorderIdx t).Nodup) (hlen : 0 < s.nodes.length) :
    (inorderIdx t).length < s.nodes.length := by
  have hcard : (inorderIdx t).length = (inorderIdx t).toFinset.card :=
    (List.toFinset_card_of_nodup hnd).symm
  have hsub : (inorderIdx t).toFinset ⊆ (Finset.range s.nodes.length).erase 0 := by
    intro j hj
    rw [List.mem_toFinset] at hj
    rw [Finset.mem_erase, Finset.mem_range]
    exact ⟨(hidx j hj).1, (hidx j hj).2⟩
  have := Finset.card_le_card hsub
  have hcard2 : ((Finset.range s.nodes.length).erase 0).card ≤ s.nodes.length - 1 := by
    have h0 : (0 : Nat) ∈ Finset.range s.nodes.length := Finset.mem_range.mpr hlen
    rw [Finset.card_erase_of_mem h0, Finset.card_range]
  omega

/-- Top-level successor: `operator++` moves to the next in-order index
(the end cursor after the maximum). -/
theorem iterInc_spec {s : Set} (w : WFData s (treeOf s)) {i : Nat}
    (hi : i ∈ treeIdx s) : iterInc s i = some (listSucc (treeIdx s) i) := by
  have hlt : (inorderIdx (treeOf s)).length < s.nodes.length :=
    inorder_length_lt w.hidx w.hnodup w.hlen
  rw [treeIdx] at hi
  rw [iterInc, treeIdx]
  by_cases hlast : (inorderIdx (treeOf s)).getLast? = some i
  · have htne : treeOf s ≠ ITree.leaf := by
      intro hleaf
      rw [hleaf] at hi
      cases hi
    have hgl : (inorderIdx (treeOf s)).getLastD 0 = i := by
      rw [List.getLastD_eq_getLast?, hlast]
      rfl
    have hright0 : (getN s i).right = 0 := by
      have := rightmost_right_leaf w.hext htne
      rwa [hgl] at this
    obtain ⟨k, hk, hclimb⟩ := climbNext_spine w.hext htne w.hparent
    rw [hgl] at hclimb
    have hFe : s.nodes.length = (s.nodes.length - k - 1 + 1) + k := by omega
    rw [nextF, if_neg (by simp [hright0]), hFe, hclimb, climbNext,
      if_neg (fun hc => hc.1 rfl), listSucc_getLast w.hnodup hlast]
  · exact nextF_inner w.hext w.hparent w.hnodup (by omega) i hi hlast

/-! ### Mirror symmetry: `prev` is `next` on the mirrored state -/

/-- Swap the child links of a node. -/
def mirrorN (n : Node) : Node := { n with left := n.right, right := n.left }

/-- Swap the child links of every node (and the cached bounds). -/
def mirror (s : Set) : Set :=
  { s with nodes := s.nodes.map mirrorN, head_ := s.tail_, tail_ := s.head_ }

@[simp] theorem mirrorN_left (n : Node) : (mirrorN n).left = n.right := rfl
@[simp] theorem mirrorN_right (n : Node) : (mirrorN n).right = n.left := rfl
@[simp] theorem mirrorN_parent (n : Node) : (mirrorN n).parent = n.parent := rfl
@[simp] theorem mirrorN_data (n : Node) : (mirrorN n).data = n.data := rfl
@[simp] theorem mirrorN_color (n : Node) : (mirrorN n).color = n.color := rfl

theorem getN_mirror (s : Set) (i : Nat) : getN (mirror s) i = mirrorN (getN s i) := by
  simp only [getN, mirror, List.getD_eq_getElem?_getD, List.getElem?_map]
  cases s.nodes[i]? <;> rfl

@[simp] theorem mirror_length (s : Set) : (mirror s).nodes.length = s.nodes.length := by
  simp [mirror]

@[simp] theorem mirror_root (s : Set) : (mirror s).root_ = s.root_ := rfl

/-- Mirror of a shape tree. -/
def mirrorT : ITree → ITree
  | ITree.leaf => ITree.leaf
  | ITree.node l i r => ITree.node (mirrorT r) i (mirrorT l)

theorem extract_mirror {s : Set} : ∀ {F i t}, extract s F i = some t →
    extract (mirror s) F i = some (mirrorT t) := by
  intro F
  induction F with
  | zero => intro i t h; simp [extract] at h
  | succ F ih =>
    intro i t h
    rw [extract] at h ⊢
    by_cases hi : i = 0
    · subst hi
      simp only [if_pos rfl] at h ⊢
      injection h with h
      subst h
      rfl
    · simp only [hi, if_false] at h ⊢
      cases hl : extract s F (getN s i).left with
      | none => rw [hl] at h; cases h
      | some l =>
        cases hr : extract s F (getN s i).right with
        | none => rw [hl, hr] at h; cases h
        | some r =>
          rw [hl, hr] at h
          injection h with h
          subst h
          have h1 : (getN (mirror s) i).left = (getN s i).right := by
            rw [getN_mirror]; rfl
          have h2 : (getN (mirror s) i).right = (getN s i).left := by
            rw [getN_mirror]; rfl
          rw [h1, h2, ih hr, ih hl]
          rfl

theorem inorder_mirrorT : ∀ (t : ITree),
    inorderIdx (mirrorT t) = (inorderIdx t).reverse := by
  intro t
  induction t with
  | leaf => rfl
  | node l i r ihl ihr =>
    rw [mirrorT, inorderIdx_node, inorderIdx_node, ihl, ihr, List.reverse_append,
      List.reverse_cons]
    simp

theorem parentOKb_mirror {s : Set} : ∀ {t : ITree} {p : Nat},
    parentOKb s t p = true → parentOKb (mirror s) (mirrorT t) p = true := by
  intro t
  induction t with
  | leaf => intro p _; rfl
  | node l i r ihl ihr =>
    intro p h
    obtain ⟨h1, h2, h3⟩ := (parentOKb_node s l i r p).mp h
    refine (parentOKb_node (mirror s) (mirrorT r) i (mirrorT l) p).mpr ⟨?_, ihr h3, ihl h2⟩
    rw [getN_mirror]
    exact h1

theorem climbPrev_mirror {s : Set} : ∀ (F x y : Nat),
    climbPrev s F x y = climbNext (mirror s) F x y := by
  intro F
  induction F with
  | zero => intro x y; rfl
  | succ F ih =>
    intro x y
    rw [climbPrev, climbNext, getN_mirror]
    simp only [mirrorN_right, mirrorN_parent]
    by_cases hc : x ≠ 0 ∧ y = (getN s x).left
    · rw [if_pos hc, if_pos ⟨hc.1, hc.2⟩, ih]
    · rw [if_neg hc, if_neg (fun hc2 => hc ⟨hc2.1, hc2.2⟩)]

theorem maximumF_mirror {s : Set} : ∀ (F x : Nat),
    maximumF s F x = minimumF (mirror s) F x := by
  intro F
  induction F with
  | zero => intro x; rfl
  | succ F ih =>
    intro x
    rw [maximumF, minimumF, getN_mirror]
    simp only [mirrorN_left]
    by_cases hc : (getN s x).right = 0
    · rw [if_pos hc, if_pos hc]
    · rw [if_neg hc, if_neg hc, ih]

theorem prevF_mirror (s : Set) (F i : Nat) : prevF s F i = nextF (mirror s) F i := by
  rw [prevF, nextF, getN_mirror]
  simp only [mirrorN_right, mirrorN_parent]
  by_cases hc : (getN s i).left ≠ 0
  · rw [if_pos hc, if_pos hc, maximumF_mirror]
  · rw [if_neg hc, if_neg hc, climbPrev_mirror]

/-- Top-level successor on raw well-formedness pieces. -/
theorem nextF_top {s : Set} {t : ITree}
    (hext : extract s s.nodes.length s.root_ = some t)
    (hidx : ∀ j ∈ inorderIdx t, j ≠ 0 ∧ j < s.nodes.length)
    (hnd : (inorderIdx t).Nodup) (hlen : 0 < s.nodes.length)
    (hpar : parentOKb s t 0 = true) {i : Nat} (hi : i ∈ inorderIdx t) :
    nextF s s.nodes.length i = some (listSucc (inorderIdx t) i) := by
  have hlt : (inorderIdx t).length < s.nodes.length := inorder_length_lt hidx hnd hlen
  by_cases hlast : (inorderIdx t).getLast? = some i
  · have htne : t ≠ ITree.leaf := by
      intro hleaf
      rw [hleaf] at hi
      cases hi
    have hgl : (inorderIdx t).getLastD 0 = i := by
      rw [List.getLastD_eq_getLast?, hlast]
      rfl
    have hright0 : (getN s i).right = 0 := by
      have := rightmost_right_leaf hext htne
      rwa [hgl] at this
    obtain ⟨k, hk, hclimb⟩ := climbNext_spine hext htne hpar
    rw [hgl] at hclimb
    have hFe : s.nodes.length = (s.nodes.length - k - 1 + 1) + k := by omega
    rw [nextF, if_neg (by simp [hright0]), hFe, hclimb, climbNext,
      if_neg (fun hc => hc.1 rfl), listSucc_getLast hnd hlast]
  · exact nextF_inner hext hpar hnd (by omega) i hi hlast

/-- Top-level predecessor, by mirroring. -/
theorem prevF_top {s : Set} {t : ITree}
    (hext : extract s s.nodes.length s.root_ = some t)
    (hidx : ∀ j ∈ inorderIdx t, j ≠ 0 ∧ j < s.nodes.length)
    (hnd : (inorderIdx t).Nodup) (hlen : 0 < s.nodes.length)
    (hpar : parentOKb s t 0 = true) {j : Nat} (hj : j ∈ inorderIdx t) :
    prevF s s.nodes.length j = some (listSucc (inorderIdx t).reverse j) := by
  rw [prevF_mirror]
  have hext' : extract (mirror s) (mirror s).nodes.length (mirror s).root_ =
      some (mirrorT t) := by
    rw [mirror_length, mirror_root]
    exact extract_mirror hext
  have hidx' : ∀ j2 ∈ inorderIdx (mirrorT t), j2 ≠ 0 ∧ j2 < (mirror s).nodes.length := by
    intro j2 hj2
    rw [inorder_mirrorT, List.mem_reverse] at hj2
    rw [mirror_length]
    exact hidx j2 hj2
  have hnd' : (inorderIdx (mirrorT t)).Nodup := by
    rw [inorder_mirrorT]
    exact List.nodup_reverse.mpr hnd
  have hlen' : 0 < (mirror s).nodes.length := by rw [mirror_length]; exact hlen
  have hj' : j ∈ inorderIdx (mirrorT t) := by
    rw [inorder_mirrorT, List.mem_reverse]
    exact hj
  have := nextF_top hext' hidx' hnd' hlen' (parentOKb_mirror hpar) hj'
  rw [mirror_length, inorder_mirrorT] at this
  exact this

/-! ### Bidirectional iterator symmetry (C8) -/

/-- Decompose a list around a non-last member and relate `listSucc` in
both directions. -/
theorem exists_succ_decomp {vs : List Nat} {i : Nat} (hnd : vs.Nodup)
    (hi : i ∈ vs) (hlast : vs.getLast? ≠ some i) :
    ∃ j, listSucc vs i = j ∧ j ∈ vs ∧ listSucc vs.reverse j = i := by
  obtain ⟨l1, rest, hvs⟩ := List.append_of_mem hi
  have hrest : rest ≠ [] := by
    intro hr
    apply hlast
    rw [hvs, hr, List.getLast?_concat]
  obtain ⟨j, l2, rfl⟩ : ∃ j l2, rest = j :: l2 := by
    cases rest with
    | nil => exact absurd rfl hrest
    | cons j l2 => exact ⟨j, l2, rfl⟩
  subst hvs
  have hnotl1 : i ∉ l1 := by
    intro hmem
    rw [List.nodup_append] at hnd
    exact (List.disjoint_left.mp hnd.2.2 hmem) (by simp)
  have hjl2 : j ∉ l2 := by
    rw [List.nodup_append, List.nodup_cons, List.nodup_cons] at hnd
    exact hnd.2.1.2.1
  refine ⟨j, ?_, by simp, ?_⟩
  · rw [listSucc_here hnotl1]
    rfl
  · have hrev : (l1 ++ i :: j :: l2).reverse = l2.reverse ++ j :: i :: l1.reverse := by
      simp
    rw [hrev, listSucc_here (by rw [List.mem_reverse]; exact hjl2)]
    rfl

/-- In a strictly sorted list every element is at most the last one. -/
theorem sorted_le_getLastD : ∀ {cl : List Nat}, List.Pairwise (· < ·) cl →
    ∀ x ∈ cl, x ≤ cl.getLastD 0 := by
  intro cl
  induction cl with
  | nil => intro _ x hx; cases hx
  | cons a cl ih =>
    intro hp x hx
    obtain ⟨hbnd, hp2⟩ := List.pairwise_cons.mp hp
    cases cl with
    | nil =>
      rcases List.mem_cons.mp hx with rfl | hx2
      · rfl
      · cases hx2
    | cons b tl =>
      have hstep : (a :: b :: tl).getLastD 0 = (b :: tl).getLastD 0 := by
        rw [List.getLastD_eq_getLast?, List.getLastD_eq_getLast?, List.getLast?_cons_cons]
      rw [hstep]
      rcases List.mem_cons.mp hx with rfl | hx2
      · have hmem : (b :: tl).getLastD 0 ∈ b :: tl := by
          rw [List.getLastD_eq_getLast?, List.getLast?_eq_getLast _ (by simp)]
          exact List.getLast_mem _
        exact le_of_lt (hbnd _ hmem)
      · exact ih hp2 x hx2

/-- **C8.** For every well-formed set: decrementing the increment of a
valid, non-`begin()` cursor gives the cursor back; and decrementing the
end cursor of a non-empty set lands on the node holding the maximum
element. -/
theorem bidirectional_iterator (s : Set) (h : wfB s = true) :
    (∀ i, i ∈ treeIdx s → i ≠ s.head_ →
      ∃ j, iterInc s i = some j ∧ iterDec s j = some i) ∧
    (contents s ≠ [] →
      ∃ m, iterDec s 0 = some m ∧ m ∈ treeIdx s ∧
        ∀ x ∈ contents s, x ≤ (getN s m).data) := by
  have w := wfB_dest h
  constructor
  · intro i hi _
    rw [treeIdx] at hi
    by_cases hlast : (inorderIdx (treeOf s)).getLast? = some i
    · refine ⟨0, ?_, ?_⟩
      · rw [iterInc_spec w hi, treeIdx, listSucc_getLast w.hnodup hlast]
      · rw [iterDec, if_pos rfl, w.htail, List.getLastD_eq_getLast?, hlast]
        rfl
    · obtain ⟨j, hsucc, hjmem, hback⟩ := exists_succ_decomp w.hnodup hi hlast
      refine ⟨j, ?_, ?_⟩
      · rw [iterInc_spec w hi, treeIdx, hsucc]
      · have hj0 : j ≠ 0 := (w.hidx j hjmem).1
        rw [iterDec, if_neg hj0,
          prevF_top w.hext w.hidx w.hnodup w.hlen w.hparent hjmem, hback]
  · intro hne
    have hnil : inorderIdx (treeOf s) ≠ [] := by
      intro h0
      apply hne
      unfold contents valsOf
      rw [h0]
      rfl
    have hmem : (inorderIdx (treeOf s)).getLastD 0 ∈ inorderIdx (treeOf s) := by
      rw [List.getLastD_eq_getLast?, List.getLast?_eq_getLast _ hnil]
      exact List.getLast_mem _
    refine ⟨s.tail_, rfl, ?_, ?_⟩
    · rw [treeIdx, w.htail]
      exact hmem
    · intro x hx
      have hlastd : contents s ≠ [] → (contents s).getLastD 0 =
          (getN s ((inorderIdx (treeOf s)).getLastD 0)).data := by
        intro _
        unfold contents valsOf
        rw [List.getLastD_eq_getLast?, List.getLastD_eq_getLast?,
          List.getLast?_map, List.getLast?_eq_getLast _ hnil]
        rfl
      rw [w.htail, ← hlastd hne]
      exact sorted_le_getLastD w.hsorted x hx

/-- **C8 witness.** -/
theorem bidirectional_iterator_witness :
    wfB (stateOf [4, 6, 2]) = true ∧
      ((∀ i, i ∈ treeIdx (stateOf [4, 6, 2]) → i ≠ (stateOf [4, 6, 2]).head_ →
        ∃ j, iterInc (stateOf [4, 6, 2]) i = some j ∧
          iterDec (stateOf [4, 6, 2]) j = some i) ∧
      (contents (stateOf [4, 6, 2]) ≠ [] →
        ∃ m, iterDec (stateOf [4, 6, 2]) 0 = some m ∧ m ∈ treeIdx (stateOf [4, 6, 2]) ∧
          ∀ x ∈ contents (stateOf [4, 6, 2]), x ≤ (getN (stateOf [4, 6, 2]) m).data)) :=
  ⟨by decide, bidirectional_iterator (stateOf [4, 6, 2]) (by decide)⟩

/-! ### Fuel-free extraction -/

/-- Some fuel suffices to read tree `t` at index `i`. -/
def Ext (s : Set) (i : Nat) (t : ITree) : Prop := ∃ F, extract s F i = some t

/-- The arena index labelling the root of a tree (0 for the leaf). -/
def rootIdx : ITree → Nat
  | ITree.leaf => 0
  | ITree.node _ i _ => i

theorem Ext_leaf (s : Set) : Ext s 0 ITree.leaf := ⟨1, extract_zero Nat.one_pos⟩

theorem Ext_rootIdx {s : Set} {i : Nat} {t : ITree} (h : Ext s i t) : rootIdx t = i := by
  obtain ⟨F, hF⟩ := h
  cases t with
  | leaf => exact (extract_eq_leaf hF).symm
  | node l j r => exact (extract_node hF).1

theorem Ext_node_elim {s : Set} {i : Nat} {l r : ITree} {j : Nat}
    (h : Ext s i (ITree.node l j r)) :
    j = i ∧ i ≠ 0 ∧ Ext s (getN s i).left l ∧ Ext s (getN s i).right r := by
  obtain ⟨F, hF⟩ := h
  obtain ⟨h1, h2, h3, h4⟩ := extract_node hF
  exact ⟨h1, h2, ⟨F, h3⟩, ⟨F, h4⟩⟩

theorem Ext_node_intro {s : Set} {i : Nat} {l r : ITree} (hi : i ≠ 0)
    (hl : Ext s (getN s i).left l) (hr : Ext s (getN s i).right r) :
    Ext s i (ITree.node l i r) := by
  obtain ⟨F1, h1⟩ := hl
  obtain ⟨F2, h2⟩ := hr
  exact ⟨max F1 F2 + 1, extract_node_intro hi
    (extract_le (Nat.le_max_left F1 F2) h1) (extract_le (Nat.le_max_right F1 F2) h2)⟩

theorem Ext_unique {s : Set} {i : Nat} {t t' : ITree} (h : Ext s i t) (h' : Ext s i t') :
    t = t' := by
  obtain ⟨F1, h1⟩ := h
  obtain ⟨F2, h2⟩ := h'
  have e1 := extract_le (Nat.le_max_left F1 F2) h1
  have e2 := extract_le (Nat.le_max_right F1 F2) h2
  rw [e1] at e2
  injection e2

theorem Ext_frame {s s' : Set} {i : Nat} {t : ITree} (h : Ext s i t)
    (hag : ∀ j ∈ inorderIdx t, (getN s' j).left = (getN s j).left ∧
      (getN s' j).right = (getN s j).right) : Ext s' i t := by
  obtain ⟨F, hF⟩ := h
  exact ⟨F, extract_frame hF hag⟩

/-- Depth of a tree. -/
def depthT : ITree → Nat
  | ITree.leaf => 0
  | ITree.node l _ r => max (depthT l) (depthT r) + 1

theorem depthT_le_length : ∀ (t : ITree), depthT t ≤ (inorderIdx t).length := by
  intro t
  induction t with
  | leaf => exact Nat.le_refl 0
  | node l i r ihl ihr =>
    rw [depthT, inorderIdx_node, List.length_append, List.length_cons]
    omega

/-- Extraction already succeeds with fuel `depth + 1`. -/
theorem extract_min {s : Set} : ∀ {t : ITree} {F i : Nat}, extract s F i = some t →
    extract s (depthT t + 1) i = some t := by
  intro t
  induction t with
  | leaf => intro F i h; rw [extract_eq_leaf h]; exact extract_zero (Nat.succ_pos _)
  | node l c r ihl ihr =>
    intro F i h
    cases F with
    | zero => simp [extract] at h
    | succ F =>
      rw [extract] at h
      by_cases hi : i = 0
      · simp [hi] at h
      · simp only [hi, if_false] at h
        cases hl : extract s F (getN s i).left with
        | none => rw [hl] at h; cases h
        | some l' =>
          cases hr : extract s F (getN s i).right with
          | none => rw [hl, hr] at h; cases h
          | some r' =>
            rw [hl, hr] at h
            injection h with h
            injection h with h1 h2 h3
            subst h1; subst h2; subst h3
            refine extract_node_intro hi ?_ ?_
            · exact extract_le (by rw [depthT]; omega) (ihl hl)
            · exact extract_le (by rw [depthT]; omega) (ihr hr)

/-- Convert fuel-free extraction to the canonical arena-length fuel. -/
theorem Ext_to_extract {s : Set} {i : Nat} {t : ITree} (h : Ext s i t)
    (hb : depthT t + 1 ≤ s.nodes.length) : extract s s.nodes.length i = some t := by
  obtain ⟨F, hF⟩ := h
  exact extract_le hb (extract_min hF)

/-! ### Tree zippers (contexts) -/

/-- A context step `(side, parentIdx, sibling)`: `true` means the hole
is the left child. `plug` rebuilds the tree from the inside out. -/
def plug : List (Bool × Nat × ITree) → ITree → ITree
  | [], t => t
  | (true, p, sib) :: ctx, t => plug ctx (ITree.node t p sib)
  | (false, p, sib) :: ctx, t => plug ctx (ITree.node sib p t)

/-- The expected parent of the hole (`d` when the context is empty). -/
def holeParentD : List (Bool × Nat × ITree) → Nat → Nat
  | [], d => d
  | (_, p, _) :: _, _ => p

/-- The root index of the plugged tree, given the hole root index. -/
def plugRootIdx : List (Bool × Nat × ITree) → Nat → Nat
  | [], h => h
  | (_, p, _) :: ctx, _ => plugRootIdx ctx p

/-- Indices appearing before the hole in in-order. -/
def ctxPreIdx : List (Bool × Nat × ITree) → List Nat
  | [] => []
  | (true, _, _) :: ctx => ctxPreIdx ctx
  | (false, p, sib) :: ctx => ctxPreIdx ctx ++ (inorderIdx sib ++ [p])

/-- Indices appearing after the hole in in-order. -/
def ctxPostIdx : List (Bool × Nat × ITree) → List Nat
  | [] => []
  | (true, p, sib) :: ctx => (p :: inorderIdx sib) ++ ctxPostIdx ctx
  | (false, _, _) :: ctx => ctxPostIdx ctx

theorem inorder_plug : ∀ (ctx : List (Bool × Nat × ITree)) (t : ITree),
    inorderIdx (plug ctx t) = ctxPreIdx ctx ++ inorderIdx t ++ ctxPostIdx ctx := by
  intro ctx
  induction ctx with
  | nil => intro t; simp [plug, ctxPreIdx, ctxPostIdx]
  | cons hd ctx ih =>
    intro t
    obtain ⟨b, p, sib⟩ := hd
    cases b
    · rw [plug, ih, inorderIdx_node, ctxPreIdx, ctxPostIdx]
      simp
    · rw [plug, ih, inorderIdx_node, ctxPreIdx, ctxPostIdx]
      simp

/-- The arena-level realization of a context over a hole root `h`. -/
def ctxRealized (s : Set) : List (Bool × Nat × ITree) → Nat → Prop
  | [], _ => True
  | (true, p, sib) :: ctx, h =>
    p ≠ 0 ∧ (getN s p).left = h ∧ Ext s (getN s p).right sib ∧ ctxRealized s ctx p
  | (false, p, sib) :: ctx, h =>
    p ≠ 0 ∧ (getN s p).right = h ∧ Ext s (getN s p).left sib ∧ ctxRealized s ctx p

theorem Ext_plug_intro {s : Set} : ∀ {ctx : List (Bool × Nat × ITree)} {h : Nat} {sub : ITree},
    ctxRealized s ctx h → Ext s h sub →
    Ext s (plugRootIdx ctx h) (plug ctx sub) := by
  intro ctx
  induction ctx with
  | nil => intro h sub _ he; exact he
  | cons hd ctx ih =>
    intro h sub hreal he
    obtain ⟨b, p, sib⟩ := hd
    cases b
    · obtain ⟨hp0, hfield, hsib, hreal2⟩ := hreal
      rw [plug, plugRootIdx]
      exact ih hreal2 (Ext_node_intro hp0 hsib (hfield ▸ he))
    · obtain ⟨hp0, hfield, hsib, hreal2⟩ := hreal
      rw [plug, plugRootIdx]
      exact ih hreal2 (Ext_node_intro hp0 (hfield ▸ he) hsib)

theorem Ext_plug_elim {s : Set} : ∀ {ctx : List (Bool × Nat × ITree)} {r0 : Nat} {sub : ITree},
    Ext s r0 (plug ctx sub) →
    ctxRealized s ctx (rootIdx sub) ∧ Ext s (rootIdx sub) sub ∧
      r0 = plugRootIdx ctx (rootIdx sub) := by
  intro ctx
  induction ctx with
  | nil =>
    intro r0 sub h
    exact ⟨trivial, (Ext_rootIdx h) ▸ h, (Ext_rootIdx h).symm⟩
  | cons hd ctx ih =>
    intro r0 sub h
    obtain ⟨b, p, sib⟩ := hd
    cases b
    · rw [plug] at h
      obtain ⟨hreal, hnode, hr0⟩ := ih h
      rw [rootIdx] at hreal hr0
      obtain ⟨_, hp0, hsib, hsub⟩ := Ext_node_elim hnode
      refine ⟨⟨hp0, (Ext_rootIdx hsub).symm, hsib, hreal⟩, ?_, ?_⟩
      · rw [Ext_rootIdx hsub]; exact hsub
      · rw [plugRootIdx]; exact hr0
    · rw [plug] at h
      obtain ⟨hreal, hnode, hr0⟩ := ih h
      rw [rootIdx] at hreal hr0
      obtain ⟨_, hp0, hsub, hsib⟩ := Ext_node_elim hnode
      refine ⟨⟨hp0, (Ext_rootIdx hsub).symm, hsib, hreal⟩, ?_, ?_⟩
      · rw [Ext_rootIdx hsub]; exact hsub
      · rw [plugRootIdx]; exact hr0

/-- Parent coherence of the context nodes. -/
def ctxParentOKb (s : Set) : List (Bool × Nat × ITree) → Bool
  | [] => true
  | (_, p, sib) :: ctx =>
    ((getN s p).parent == holeParentD ctx 0) && parentOKb s sib p && ctxParentOKb s ctx

theorem parentOKb_plug {s : Set} : ∀ {ctx : List (Bool × Nat × ITree)} {sub : ITree},
    parentOKb s (plug ctx sub) 0 = true ↔
      (parentOKb s sub (holeParentD ctx 0) = true ∧ ctxParentOKb s ctx = true) := by
  intro ctx
  induction ctx with
  | nil => intro sub; rw [plug, holeParentD, ctxParentOKb]; simp
  | cons hd ctx ih =>
    intro sub
    obtain ⟨b, p, sib⟩ := hd
    cases b
    · rw [plug, ih, parentOKb_node, holeParentD, ctxParentOKb]
      simp only [Bool.and_eq_true, beq_iff_eq]
      constructor
      · rintro ⟨⟨h1, h2, h3⟩, h4⟩
        exact ⟨h3, ⟨⟨h1, h2⟩, h4⟩⟩
      · rintro ⟨h3, ⟨⟨h1, h2⟩, h4⟩⟩
        exact ⟨⟨h1, h2, h3⟩, h4⟩
    · rw [plug, ih, parentOKb_node, holeParentD, ctxParentOKb]
      simp only [Bool.and_eq_true, beq_iff_eq]
      constructor
      · rintro ⟨⟨h1, h2, h3⟩, h4⟩
        exact ⟨h2, ⟨⟨h1, h3⟩, h4⟩⟩
      · rintro ⟨h2, ⟨⟨h1, h3⟩, h4⟩⟩
        exact ⟨⟨h1, h2, h3⟩, h4⟩

/-! ### Color reasoning over zippers -/

/-- Red-red freedom of the context, pretending the hole's top color is
`hc` (passing `BLACK` excuses the hole edge). -/
def ctxRRb (s : Set) : List (Bool × Nat × ITree) → NodeColor → Bool
  | [], _ => true
  | (_, p, sib) :: ctx, hc =>
    noRedRedb s sib &&
    (!((getN s p).color == NodeColor.RED) ||
      ((topColor s sib == NodeColor.BLACK) && (hc == NodeColor.BLACK))) &&
    ctxRRb s ctx ((getN s p).color)

theorem noRedRedb_plug {s : Set} : ∀ {ctx : List (Bool × Nat × ITree)} {sub : ITree},
    noRedRedb s (plug ctx sub) =
      (ctxRRb s ctx (topColor s sub) && noRedRedb s sub) := by
  intro ctx
  induction ctx with
  | nil => intro sub; rw [plug, ctxRRb]; simp
  | cons hd ctx ih =>
    intro sub
    obtain ⟨b, p, sib⟩ := hd
    cases b
    · rw [plug, ih, ctxRRb]
      show (ctxRRb s ctx (getN s p).color && noRedRedb s (ITree.node sib p sub)) = _
      rw [noRedRedb]
      cases hc : (getN s p).color <;>
        cases hts : topColor s sib <;>
          cases hts2 : topColor s sub <;>
            simp [topColor, hc, hts, hts2, Bool.and_comm, Bool.and_assoc, Bool.and_left_comm]
    · rw [plug, ih, ctxRRb]
      show (ctxRRb s ctx (getN s p).color && noRedRedb s (ITree.node sub p sib)) = _
      rw [noRedRedb]
      cases hc : (getN s p).color <;>
        cases hts : topColor s sib <;>
          cases hts2 : topColor s sub <;>
            simp [topColor, hc, hts, hts2, Bool.and_comm, Bool.and_assoc, Bool.and_left_comm]

/-- Black-height bookkeeping of the context: `n` is the hole's black
height, the result the whole tree's. -/
def ctxBH (s : Set) : List (Bool × Nat × ITree) → Nat → Option Nat
  | [], n => some n
  | (_, p, sib) :: ctx, n =>
    match bhOf s sib with
    | some m =>
      if m = n then
        ctxBH s ctx (n + (if (getN s p).color = NodeColor.BLACK then 1 else 0))
      else none
    | none => none

theorem bhOf_plug_none {s : Set} : ∀ (ctx : List (Bool × Nat × ITree)) {sub : ITree},
    bhOf s sub = none → bhOf s (plug ctx sub) = none := by
  intro ctx
  induction ctx with
  | nil => intro sub h; rw [plug]; exact h
  | cons hd ctx ih =>
    intro sub h
    obtain ⟨b, p, sib⟩ := hd
    cases b
    · rw [plug]
      refine ih ?_
      rw [bhOf, h]
      cases bhOf s sib <;> rfl
    · rw [plug]
      refine ih ?_
      rw [bhOf, h]

theorem bhOf_plug {s : Set} : ∀ {ctx : List (Bool × Nat × ITree)} {sub : ITree} {n : Nat},
    bhOf s sub = some n → bhOf s (plug ctx sub) = ctxBH s ctx n := by
  intro ctx
  induction ctx with
  | nil => intro sub n h; rw [plug, ctxBH, h]
  | cons hd ctx ih =>
    intro sub n h
    obtain ⟨b, p, sib⟩ := hd
    cases b
    · rw [plug]
      cases hsib : bhOf s sib with
      | none =>
        have hnode : bhOf s (ITree.node sib p sub) = none := by
          rw [bhOf, hsib, h]
        rw [bhOf_plug_none ctx hnode]
        simp [ctxBH, hsib]
      | some m =>
        by_cases hmn : m = n
        · subst hmn
          have hnode : bhOf s (ITree.node sib p sub) =
              some (m + (if (getN s p).color = NodeColor.BLACK then 1 else 0)) := by
            simp [bhOf, hsib, h]
          rw [ih hnode]
          simp [ctxBH, hsib]
        · have hnode : bhOf s (ITree.node sib p sub) = none := by
            simp [bhOf, hsib, h, hmn]
          rw [bhOf_plug_none ctx hnode]
          simp [ctxBH, hsib, hmn]
    · rw [plug]
      cases hsib : bhOf s sib with
      | none =>
        have hnode : bhOf s (ITree.node sub p sib) = none := by
          rw [bhOf, hsib, h]
        rw [bhOf_plug_none ctx hnode]
        simp [ctxBH, hsib]
      | some m =>
        by_cases hmn : m = n
        · subst hmn
          have hnode : bhOf s (ITree.node sub p sib) =
              some (m + (if (getN s p).color = NodeColor.BLACK then 1 else 0)) := by
            simp [bhOf, hsib, h]
          rw [ih hnode]
          simp [ctxBH, hsib]
        · have hnode : bhOf s (ITree.node sub p sib) = none := by
            simp [bhOf, hsib, h, Ne.symm hmn]
          rw [bhOf_plug_none ctx hnode]
          simp [ctxBH, hsib, hmn]

/-! ### Frame lemmas: predicates depend only on their members' fields -/

theorem parentOKb_frame {s s' : Set} : ∀ {t : ITree} {p : Nat},
    (∀ j ∈ inorderIdx t, (getN s' j).parent = (getN s j).parent) →
    parentOKb s' t p = parentOKb s t p := by
  intro t
  induction t with
  | leaf => intro p _; rfl
  | node l i r ihl ihr =>
    intro p hag
    rw [parentOKb, parentOKb, hag i (by simp),
      ihl (fun j hj => hag j (by simp [hj])), ihr (fun j hj => hag j (by simp [hj]))]

theorem topColor_frame {s s' : Set} {t : ITree}
    (hag : ∀ j ∈ inorderIdx t, (getN s' j).color = (getN s j).color) :
    topColor s' t = topColor s t := by
  cases t with
  | leaf => rfl
  | node l i r => exact hag i (by simp)

theorem noRedRedb_frame {s s' : Set} : ∀ {t : ITree},
    (∀ j ∈ inorderIdx t, (getN s' j).color = (getN s j).color) →
    noRedRedb s' t = noRedRedb s t := by
  intro t
  induction t with
  | leaf => intro _; rfl
  | node l i r ihl ihr =>
    intro hag
    have hagl : ∀ j ∈ inorderIdx l, (getN s' j).color = (getN s j).color :=
      fun j hj => hag j (by simp [hj])
    have hagr : ∀ j ∈ inorderIdx r, (getN s' j).color = (getN s j).color :=
      fun j hj => hag j (by simp [hj])
    rw [noRedRedb, noRedRedb, hag i (by simp), ihl hagl, ihr hagr,
      topColor_frame hagl, topColor_frame hagr]

theorem bhOf_frame {s s' : Set} : ∀ {t : ITree},
    (∀ j ∈ inorderIdx t, (getN s' j).color = (getN s j).color) →
    bhOf s' t = bhOf s t := by
  intro t
  induction t with
  | leaf => intro _; rfl
  | node l i r ihl ihr =>
    intro hag
    rw [bhOf, bhOf, hag i (by simp), ihl (fun j hj => hag j (by simp [hj])),
      ihr (fun j hj => hag j (by simp [hj]))]

theorem ctxRealized_frame {s s' : Set} : ∀ {ctx : List (Bool × Nat × ITree)} {h : Nat},
    (∀ j ∈ ctxPreIdx ctx ++ ctxPostIdx ctx, (getN s' j).left = (getN s j).left ∧
      (getN s' j).right = (getN s j).right) →
    ctxRealized s ctx h → ctxRealized s' ctx h := by
  intro ctx
  induction ctx with
  | nil => intro h _ _; trivial
  | cons hd ctx ih =>
    intro h hag hreal
    obtain ⟨b, p, sib⟩ := hd
    cases b
    · obtain ⟨hp0, hfield, hsib, hreal2⟩ := hreal
      have hagp := hag p (by simp [ctxPreIdx, ctxPostIdx])
      have hagsib : ∀ j ∈ inorderIdx sib, (getN s' j).left = (getN s j).left ∧
          (getN s' j).right = (getN s j).right := by
        intro j hj
        exact hag j (by simp [ctxPreIdx, ctxPostIdx, hj])
      have hagrest : ∀ j ∈ ctxPreIdx ctx ++ ctxPostIdx ctx,
          (getN s' j).left = (getN s j).left ∧ (getN s' j).right = (getN s j).right := by
        intro j hj
        rw [List.mem_append] at hj
        rcases hj with hj | hj
        · exact hag j (by simp [ctxPreIdx, ctxPostIdx, hj])
        · exact hag j (by simp [ctxPreIdx, ctxPostIdx, hj])
      exact ⟨hp0, by rw [hagp.2]; exact hfield,
        by rw [hagp.1]; exact Ext_frame hsib hagsib, ih hagrest hreal2⟩
    · obtain ⟨hp0, hfield, hsib, hreal2⟩ := hreal
      have hagp := hag p (by simp [ctxPreIdx, ctxPostIdx])
      have hagsib : ∀ j ∈ inorderIdx sib, (getN s' j).left = (getN s j).left ∧
          (getN s' j).right = (getN s j).right := by
        intro j hj
        exact hag j (by simp [ctxPreIdx, ctxPostIdx, hj])
      have hagrest : ∀ j ∈ ctxPreIdx ctx ++ ctxPostIdx ctx,
          (getN s' j).left = (getN s j).left ∧ (getN s' j).right = (getN s j).right := by
        intro j hj
        rw [List.mem_append] at hj
        rcases hj with hj | hj
        · exact hag j (by simp [ctxPreIdx, ctxPostIdx, hj])
        · exact hag j (by simp [ctxPreIdx, ctxPostIdx, hj])
      exact ⟨hp0, by rw [hagp.1]; exact hfield,
        by rw [hagp.2]; exact Ext_frame hsib hagsib, ih hagrest hreal2⟩

theorem ctxParentOKb_frame {s s' : Set} : ∀ {ctx : List (Bool × Nat × ITree)},
    (∀ j ∈ ctxPreIdx ctx ++ ctxPostIdx ctx, (getN s' j).parent = (getN s j).parent) →
    ctxParentOKb s' ctx = ctxParentOKb s ctx := by
  intro ctx
  induction ctx with
  | nil => intro _; rfl
  | cons hd ctx ih =>
    intro hag
    obtain ⟨b, p, sib⟩ := hd
    have hagp : (getN s' p).parent = (getN s p).parent := by
      cases b <;> exact hag p (by simp [ctxPreIdx, ctxPostIdx])
    have hagsib : ∀ j ∈ inorderIdx sib, (getN s' j).parent = (getN s j).parent := by
      intro j hj
      cases b <;> exact hag j (by simp [ctxPreIdx, ctxPostIdx, hj])
    have hagrest : ∀ j ∈ ctxPreIdx ctx ++ ctxPostIdx ctx,
        (getN s' j).parent = (getN s j).parent := by
      intro j hj
      rw [List.mem_append] at hj
      cases b <;> rcases hj with hj | hj <;>
        exact hag j (by simp [ctxPreIdx, ctxPostIdx, hj])
    simp only [ctxParentOKb]
    rw [hagp, parentOKb_frame hagsib, ih hagrest]

theorem ctxRRb_frame {s s' : Set} : ∀ {ctx : List (Bool × Nat × ITree)} {hc : NodeColor},
    (∀ j ∈ ctxPreIdx ctx ++ ctxPostIdx ctx, (getN s' j).color = (getN s j).color) →
    ctxRRb s' ctx hc = ctxRRb s ctx hc := by
  intro ctx
  induction ctx with
  | nil => intro hc _; rfl
  | cons hd ctx ih =>
    intro hc hag
    obtain ⟨b, p, sib⟩ := hd
    have hagp : (getN s' p).color = (getN s p).color := by
      cases b <;> exact hag p (by simp [ctxPreIdx, ctxPostIdx])
    have hagsib : ∀ j ∈ inorderIdx sib, (getN s' j).color = (getN s j).color := by
      intro j hj
      cases b <;> exact hag j (by simp [ctxPreIdx, ctxPostIdx, hj])
    have hagrest : ∀ j ∈ ctxPreIdx ctx ++ ctxPostIdx ctx,
        (getN s' j).color = (getN s j).color := by
      intro j hj
      rw [List.mem_append] at hj
      cases b <;> rcases hj with hj | hj <;>
        exact hag j (by simp [ctxPreIdx, ctxPostIdx, hj])
    simp only [ctxRRb]
    rw [hagp, noRedRedb_frame hagsib, topColor_frame hagsib, ih hagrest]

theorem ctxBH_frame {s s' : Set} : ∀ {ctx : List (Bool × Nat × ITree)} {n : Nat},
    (∀ j ∈ ctxPreIdx ctx ++ ctxPostIdx ctx, (getN s' j).color = (getN s j).color) →
    ctxBH s' ctx n = ctxBH s ctx n := by
  intro ctx
  induction ctx with
  | nil => intro n _; rfl
  | cons hd ctx ih =>
    intro n hag
    obtain ⟨b, p, sib⟩ := hd
    have hagp : (getN s' p).color = (getN s p).color := by
      cases b <;> exact hag p (by simp [ctxPreIdx, ctxPostIdx])
    have hagsib : ∀ j ∈ inorderIdx sib, (getN s' j).color = (getN s j).color := by
      intro j hj
      cases b <;> exact hag j (by simp [ctxPreIdx, ctxPostIdx, hj])
    have hagrest : ∀ j ∈ ctxPreIdx ctx ++ ctxPostIdx ctx,
        (getN s' j).color = (getN s j).color := by
      intro j hj
      rw [List.mem_append] at hj
      cases b <;> rcases hj with hj | hj <;>
        exact hag j (by simp [ctxPreIdx, ctxPostIdx, hj])
    show (match bhOf s' sib with
      | some m => if m = n then
          ctxBH s' ctx (n + (if (getN s' p).color = NodeColor.BLACK then 1 else 0))
        else none
      | none => none) = _
    rw [hagp, bhOf_frame hagsib, ih hagrest]
    rfl

/-! ### Pointwise setter lemmas -/

theorem getN_setLeft_same {s : Set} {i : Nat} (h : i < s.nodes.length) (v : Nat) :
    getN (setLeft s i v) i = { getN s i with left := v } := by
  rw [getN_setLeft, if_pos ⟨rfl, h⟩]

theorem getN_setLeft_other {s : Set} {i j : Nat} (h : i ≠ j) (v : Nat) :
    getN (setLeft s i v) j = getN s j := by
  rw [getN_setLeft, if_neg (fun hc => h hc.1)]

theorem getN_setRight_same {s : Set} {i : Nat} (h : i < s.nodes.length) (v : Nat) :
    getN (setRight s i v) i = { getN s i with right := v } := by
  rw [getN_setRight, if_pos ⟨rfl, h⟩]

theorem getN_setRight_other {s : Set} {i j : Nat} (h : i ≠ j) (v : Nat) :
    getN (setRight s i v) j = getN s j := by
  rw [getN_setRight, if_neg (fun hc => h hc.1)]

theorem getN_setParent_same {s : Set} {i : Nat} (h : i < s.nodes.length) (v : Nat) :
    getN (setParent s i v) i = { getN s i with parent := v } := by
  rw [getN_setParent, if_pos ⟨rfl, h⟩]

theorem getN_setParent_other {s : Set} {i j : Nat} (h : i ≠ j) (v : Nat) :
    getN (setParent s i v) j = getN s j := by
  rw [getN_setParent, if_neg (fun hc => h hc.1)]

theorem getN_setColor_same {s : Set} {i : Nat} (h : i < s.nodes.length) (c : NodeColor) :
    getN (setColor s i c) i = { getN s i with color := c } := by
  rw [getN_setColor, if_pos ⟨rfl, h⟩]

theorem getN_setColor_other {s : Set} {i j : Nat} (h : i ≠ j) (c : NodeColor) :
    getN (setColor s i c) j = getN s j := by
  rw [getN_setColor, if_neg (fun hc => h hc.1)]

@[simp] theorem length_setLeft (s : Set) (i v : Nat) :
    (setLeft s i v).nodes.length = s.nodes.length := nodes_length_setN s i _
@[simp] theorem length_setRight (s : Set) (i v : Nat) :
    (setRight s i v).nodes.length = s.nodes.length := nodes_length_setN s i _
@[simp] theorem length_setParent (s : Set) (i v : Nat) :
    (setParent s i v).nodes.length = s.nodes.length := nodes_length_setN s i _
@[simp] theorem length_setColor (s : Set) (i : Nat) (c : NodeColor) :
    (setColor s i c).nodes.length = s.nodes.length := nodes_length_setN s i _

@[simp] theorem root_setLeft (s : Set) (i v : Nat) : (setLeft s i v).root_ = s.root_ := rfl
@[simp] theorem root_setRight (s : Set) (i v : Nat) : (setRight s i v).root_ = s.root_ := rfl
@[simp] theorem root_setParent (s : Set) (i v : Nat) : (setParent s i v).root_ = s.root_ := rfl
@[simp] theorem root_setColor (s : Set) (i : Nat) (c : NodeColor) :
    (setColor s i c).root_ = s.root_ := rfl

/-! ### The semantics of `left_rotate` on fields -/

/-- Bundled side conditions for rotating left at `x`: the participating
indices (`x`, its right child `y`, `y`'s left child, `x`'s parent) are
in range and pairwise distinct real nodes (0 allowed for the last two). -/
structure LRotHyps (s : Set) (x : Nat) : Prop where
  hx0 : x ≠ 0
  hxlen : x < s.nodes.length
  hy0 : (getN s x).right ≠ 0
  hylen : (getN s x).right < s.nodes.length
  hxy : x ≠ (getN s x).right
  hylx : (getN s ((getN s x).right)).left ≠ x
  hyly : (getN s ((getN s x).right)).left ≠ (getN s x).right
  hyllen : (getN s ((getN s x).right)).left < s.nodes.length
  hpxx : (getN s x).parent ≠ x
  hpxy : (getN s x).parent ≠ (getN s x).right
  hpxyl : (getN s x).parent ≠ 0 → (getN s x).parent ≠ (getN s ((getN s x).right)).left
  hpxlen : (getN s x).parent ≠ 0 → (getN s x).parent < s.nodes.length

theorem left_rotate_misc (s : Set) (x : Nat) :
    (left_rotate s x).nodes.length = s.nodes.length ∧
    (left_rotate s x).size_ = s.size_ ∧
    (left_rotate s x).head_ = s.head_ ∧
    (left_rotate s x).tail_ = s.tail_ := by
  unfold left_rotate
  dsimp only
  split_ifs <;> simp [setLeft, setRight, setParent, setN]

/-- Full characterization of `left_rotate`: the root pointer and every
node record of the result. -/
theorem left_rotate_spec (s : Set) (x : Nat) (H : LRotHyps s x) :
    (left_rotate s x).root_ =
      (if (getN s x).parent = 0 then (getN s x).right else s.root_) ∧
    (∀ j, getN (left_rotate s x) j =
      if j = x then
        { getN s x with right := (getN s ((getN s x).right)).left,
                        parent := (getN s x).right }
      else if j = (getN s x).right then
        { getN s ((getN s x).right) with left := x, parent := (getN s x).parent }
      else if (getN s ((getN s x).right)).left ≠ 0 ∧ j = (getN s ((getN s x).right)).left then
        { getN s j with parent := x }
      else if (getN s x).parent ≠ 0 ∧ j = (getN s x).parent then
        (if x = (getN s ((getN s x).parent)).left then { getN s j with left := (getN s x).right }
         else { getN s j with right := (getN s x).right })
      else getN s j) := by
  obtain ⟨hx0, hxlen, hy0, hylen, hxy, hylx, hyly, hyllen, hpxx, hpxy, hpxyl, hpxlen⟩ := H
  unfold left_rotate
  dsimp only
  set y := (getN s x).right with hy
  set yl := (getN s y).left with hyl
  set px := (getN s x).parent with hpx
  set s1 := setRight s x yl with hs1
  have g1 : ∀ j, getN s1 j = if j = x then { getN s x with right := yl } else getN s j := by
    intro j
    by_cases hj : j = x
    · subst hj
      rw [if_pos rfl, hs1, getN_setRight_same hxlen]
    · rw [if_neg hj, hs1, getN_setRight_other (fun he => hj he.symm)]
  have len1 : s1.nodes.length = s.nodes.length := by rw [hs1]; simp
  have c1 : (getN s1 y).left = yl := by rw [g1 y, if_neg (Ne.symm hxy)]
  rw [c1]
  by_cases hyl0 : yl = 0
  · -- `y` has no real left child: no parent write to it
    rw [if_neg (show ¬(yl ≠ 0) from fun hc => hc hyl0)]
    have c2 : (getN s1 x).parent = px := by rw [g1 x, if_pos rfl]
    rw [if_pos hy0, c2]
    set s3 := setParent s1 y px with hs3
    have g3 : ∀ j, getN s3 j =
        if j = x then { getN s x with right := yl }
        else if j = y then { getN s j with parent := px }
        else getN s j := by
      intro j
      by_cases hj : j = y
      · subst hj
        rw [if_neg (Ne.symm hxy), if_pos rfl, hs3, getN_setParent_same (len1 ▸ hylen),
          g1 _, if_neg (Ne.symm hxy)]
      · rw [hs3, getN_setParent_other (fun he => hj he.symm), g1 j]
        simp [hj]
    have len3 : s3.nodes.length = s.nodes.length := by rw [hs3]; simp [len1]
    have c3 : (getN s3 x).parent = px := by rw [g3 x, if_pos rfl]
    rw [c3]
    by_cases hpx0 : px = 0
    · rw [if_pos hpx0]
      set s4 : Set := { s3 with root_ := y } with hs4
      have g4 : ∀ j, getN s4 j = getN s3 j := fun j => by rw [hs4]; rfl
      have len4 : s4.nodes.length = s.nodes.length := len3
      set s5 := setLeft s4 y x with hs5
      have g5 : ∀ j, getN s5 j =
          if j = x then { getN s x with right := yl }
          else if j = y then { getN s j with parent := px, left := x }
          else getN s j := by
        intro j
        by_cases hj : j = y
        · subst hj
          rw [if_neg (Ne.symm hxy), if_pos rfl, hs5, getN_setLeft_same (len4 ▸ hylen),
            g4 _, g3 _, if_neg (Ne.symm hxy), if_pos rfl]
        · rw [hs5, getN_setLeft_other (fun he => hj he.symm), g4 j, g3 j]
          simp [hj]
      have len5 : s5.nodes.length = s.nodes.length := by rw [hs5]; simp [len4]
      rw [if_pos hx0]
      refine ⟨?_, ?_⟩
      · simp [hs5, hs4, hs3, hs1, setLeft, setRight, setParent, setN, hpx0]
      · intro j
        by_cases hj : j = x
        · subst hj
          rw [getN_setParent_same (len5 ▸ hxlen), g5 _, if_pos rfl, if_pos rfl]
        · rw [getN_setParent_other (fun he => hj he.symm), g5 j]
          simp only [if_neg hj]
          by_cases hjy : j = y
          · rw [if_pos hjy, if_pos hjy]
            subst hjy
            rfl
          · rw [if_neg hjy, if_neg hjy, if_neg (show ¬(yl ≠ 0 ∧ j = yl) from fun hc => hc.1 hyl0),
              if_neg (fun hc => hc.1 hpx0 : ¬(px ≠ 0 ∧ j = px))]
    · rw [if_neg hpx0]
      have c4 : (getN s3 px).left = (getN s px).left := by
        rw [g3 px, if_neg hpxx, if_neg hpxy]
      rw [c4]
      by_cases hside : x = (getN s px).left
      · rw [if_pos hside]
        set s4 := setLeft s3 px y with hs4
        have g4 : ∀ j, getN s4 j =
            if j = x then { getN s x with right := yl }
            else if j = y then { getN s j with parent := px }
            else if j = px then { getN s j with left := y }
            else getN s j := by
          intro j
          by_cases hj : j = px
          · subst hj
            rw [if_neg hpxx, if_neg hpxy, if_pos rfl, hs4,
              getN_setLeft_same (len3 ▸ hpxlen hpx0), g3 _, if_neg hpxx, if_neg hpxy]
          · rw [hs4, getN_setLeft_other (fun he => hj he.symm), g3 j]
            simp [hj]
        have len4 : s4.nodes.length = s.nodes.length := by rw [hs4]; simp [len3]
        set s5 := setLeft s4 y x with hs5
        have g5 : ∀ j, getN s5 j =
            if j = x then { getN s x with right := yl }
            else if j = y then { getN s j with parent := px, left := x }
            else if j = px then { getN s j with left := y }
            else getN s j := by
          intro j
          by_cases hj : j = y
          · subst hj
            rw [if_neg (Ne.symm hxy), if_pos rfl, hs5, getN_setLeft_same (len4 ▸ hylen),
              g4 _, if_neg (Ne.symm hxy), if_pos rfl]
          · rw [hs5, getN_setLeft_other (fun he => hj he.symm), g4 j]
            simp [hj]
        have len5 : s5.nodes.length = s.nodes.length := by rw [hs5]; simp [len4]
        rw [if_pos hx0]
        refine ⟨?_, ?_⟩
        · simp [hs5, hs4, hs3, hs1, setLeft, setRight, setParent, setN, hpx0]
        · intro j
          by_cases hj : j = x
          · subst hj
            rw [getN_setParent_same (len5 ▸ hxlen), g5 _, if_pos rfl, if_pos rfl]
          · rw [getN_setParent_other (fun he => hj he.symm), g5 j]
            simp only [if_neg hj]
            by_cases hjy : j = y
            · rw [if_pos hjy, if_pos hjy]
              subst hjy
              rfl
            · rw [if_neg hjy, if_neg hjy,
                if_neg (show ¬(yl ≠ 0 ∧ j = yl) from fun hc => hc.1 hyl0)]
              by_cases hjpx : j = px
              · rw [if_pos hjpx, if_pos (show px ≠ 0 ∧ j = px from ⟨hpx0, hjpx⟩), if_pos hside]
              · rw [if_neg hjpx, if_neg (show ¬(px ≠ 0 ∧ j = px) from fun hc => hjpx hc.2)]
      · rw [if_neg hside]
        set s4 := setRight s3 px y with hs4
        have g4 : ∀ j, getN s4 j =
            if j = x then { getN s x with right := yl }
            else if j = y then { getN s j with parent := px }
            else if j = px then { getN s j with right := y }
            else getN s j := by
          intro j
          by_cases hj : j = px
          · subst hj
            rw [if_neg hpxx, if_neg hpxy, if_pos rfl, hs4,
              getN_setRight_same (len3 ▸ hpxlen hpx0), g3 _, if_neg hpxx, if_neg hpxy]
          · rw [hs4, getN_setRight_other (fun he => hj he.symm), g3 j]
            simp [hj]
        have len4 : s4.nodes.length = s.nodes.length := by rw [hs4]; simp [len3]
        set s5 := setLeft s4 y x with hs5
        have g5 : ∀ j, getN s5 j =
            if j = x then { getN s x with right := yl }
            else if j = y then { getN s j with parent := px, left := x }
            else if j = px then { getN s j with right := y }
            else getN s j := by
          intro j
          by_cases hj : j = y
          · subst hj
            rw [if_neg (Ne.symm hxy), if_pos rfl, hs5, getN_setLeft_same (len4 ▸ hylen),
              g4 _, if_neg (Ne.symm hxy), if_pos rfl]
          · rw [hs5, getN_setLeft_other (fun he => hj he.symm), g4 j]
            simp [hj]
        have len5 : s5.nodes.length = s.nodes.length := by rw [hs5]; simp [len4]
        rw [if_pos hx0]
        refine ⟨?_, ?_⟩
        · simp [hs5, hs4, hs3, hs1, setLeft, setRight, setParent, setN, hpx0]
        · intro j
          by_cases hj : j = x
          · subst hj
            rw [getN_setParent_same (len5 ▸ hxlen), g5 _, if_pos rfl, if_pos rfl]
          · rw [getN_setParent_other (fun he => hj he.symm), g5 j]
            simp only [if_neg hj]
            by_cases hjy : j = y
            · rw [if_pos hjy, if_pos hjy]
              subst hjy
              rfl
            · rw [if_neg hjy, if_neg hjy,
                if_neg (show ¬(yl ≠ 0 ∧ j = yl) from fun hc => hc.1 hyl0)]
              by_cases hjpx : j = px
              · rw [if_pos hjpx, if_pos (show px ≠ 0 ∧ j = px from ⟨hpx0, hjpx⟩), if_neg hside]
              · rw [if_neg hjpx, if_neg (show ¬(px ≠ 0 ∧ j = px) from fun hc => hjpx hc.2)]
  · -- `y` has a real left child `yl`, whose parent is rewired to `x`
    rw [if_pos hyl0]
    set s2 := setParent s1 yl x with hs2
    have g2 : ∀ j, getN s2 j =
        if j = x then { getN s x with right := yl }
        else if j = yl then { getN s j with parent := x }
        else getN s j := by
      intro j
      by_cases hj : j = yl
      · subst hj
        rw [if_neg hylx, if_pos rfl, hs2, getN_setParent_same (len1 ▸ hyllen), g1 _,
          if_neg hylx]
      · rw [hs2, getN_setParent_other (fun he => hj he.symm), g1 j]
        simp [hj]
    have len2 : s2.nodes.length = s.nodes.length := by rw [hs2]; simp [len1]
    have c2 : (getN s2 x).parent = px := by
      rw [g2 x, if_pos rfl]
    rw [if_pos hy0, c2]
    set s3 := setParent s2 y px with hs3
    have g3 : ∀ j, getN s3 j =
        if j = x then { getN s x with right := yl }
        else if j = y then { getN s j with parent := px }
        else if j = yl then { getN s j with parent := x }
        else getN s j := by
      intro j
      by_cases hj : j = y
      · subst hj
        rw [if_neg (Ne.symm hxy), if_pos rfl, hs3, getN_setParent_same (len2 ▸ hylen),
          g2 _, if_neg (Ne.symm hxy), if_neg (Ne.symm hyly)]
      · rw [hs3, getN_setParent_other (fun he => hj he.symm), g2 j]
        simp [hj]
    have len3 : s3.nodes.length = s.nodes.length := by rw [hs3]; simp [len2]
    have c3 : (getN s3 x).parent = px := by
      rw [g3 x, if_pos rfl]
    rw [c3]
    by_cases hpx0 : px = 0
    · rw [if_pos hpx0]
      set s4 : Set := { s3 with root_ := y } with hs4
      have g4 : ∀ j, getN s4 j = getN s3 j := fun j => by rw [hs4]; rfl
      have len4 : s4.nodes.length = s.nodes.length := len3
      set s5 := setLeft s4 y x with hs5
      have g5 : ∀ j, getN s5 j =
          if j = x then { getN s x with right := yl }
          else if j = y then { getN s j with parent := px, left := x }
          else if j = yl then { getN s j with parent := x }
          else getN s j := by
        intro j
        by_cases hj : j = y
        · subst hj
          rw [if_neg (Ne.symm hxy), if_pos rfl, hs5, getN_setLeft_same (len4 ▸ hylen),
            g4 _, g3 _, if_neg (Ne.symm hxy), if_pos rfl]
        · rw [hs5, getN_setLeft_other (fun he => hj he.symm), g4 j, g3 j]
          simp [hj]
      have len5 : s5.nodes.length = s.nodes.length := by rw [hs5]; simp [len4]
      rw [if_pos hx0]
      refine ⟨?_, ?_⟩
      · simp [hs5, hs4, hs3, hs2, hs1, setLeft, setRight, setParent, setN, hpx0]
      · intro j
        by_cases hj : j = x
        · subst hj
          rw [getN_setParent_same (len5 ▸ hxlen), g5 _, if_pos rfl, if_pos rfl]
        · rw [getN_setParent_other (fun he => hj he.symm), g5 j]
          simp only [if_neg hj]
          by_cases hjy : j = y
          · rw [if_pos hjy, if_pos hjy]
            subst hjy
            rfl
          · rw [if_neg hjy, if_neg hjy]
            by_cases hjyl : j = yl
            · rw [if_pos hjyl, if_pos (show yl ≠ 0 ∧ j = yl from ⟨hyl0, hjyl⟩)]
            · rw [if_neg hjyl, if_neg (show ¬(yl ≠ 0 ∧ j = yl) from fun hc => hjyl hc.2),
                if_neg (fun hc => hc.1 hpx0 : ¬(px ≠ 0 ∧ j = px))]
    · rw [if_neg hpx0]
      have c4 : (getN s3 px).left = (getN s px).left := by
        rw [g3 px, if_neg hpxx, if_neg hpxy, if_neg (hpxyl hpx0)]
      rw [c4]
      by_cases hside : x = (getN s px).left
      · rw [if_pos hside]
        set s4 := setLeft s3 px y with hs4
        have g4 : ∀ j, getN s4 j =
            if j = x then { getN s x with right := yl }
            else if j = y then { getN s j with parent := px }
            else if j = yl then { getN s j with parent := x }
            else if j = px then { getN s j with left := y }
            else getN s j := by
          intro j
          by_cases hj : j = px
          · subst hj
            rw [if_neg hpxx, if_neg hpxy, if_neg (hpxyl hpx0), if_pos rfl, hs4,
              getN_setLeft_same (len3 ▸ hpxlen hpx0), g3 _, if_neg hpxx, if_neg hpxy,
              if_neg (hpxyl hpx0)]
          · rw [hs4, getN_setLeft_other (fun he => hj he.symm), g3 j]
            simp [hj]
        have len4 : s4.nodes.length = s.nodes.length := by rw [hs4]; simp [len3]
        set s5 := setLeft s4 y x with hs5
        have g5 : ∀ j, getN s5 j =
            if j = x then { getN s x with right := yl }
            else if j = y then { getN s j with parent := px, left := x }
            else if j = yl then { getN s j with parent := x }
            else if j = px then { getN s j with left := y }
            else getN s j := by
          intro j
          by_cases hj : j = y
          · subst hj
            rw [if_neg (Ne.symm hxy), if_pos rfl, hs5, getN_setLeft_same (len4 ▸ hylen),
              g4 _, if_neg (Ne.symm hxy), if_pos rfl]
          · rw [hs5, getN_setLeft_other (fun he => hj he.symm), g4 j]
            simp [hj]
        have len5 : s5.nodes.length = s.nodes.length := by rw [hs5]; simp [len4]
        rw [if_pos hx0]
        refine ⟨?_, ?_⟩
        · simp [hs5, hs4, hs3, hs2, hs1, setLeft, setRight, setParent, setN, hpx0]
        · intro j
          by_cases hj : j = x
          · subst hj
            rw [getN_setParent_same (len5 ▸ hxlen), g5 _, if_pos rfl, if_pos rfl]
          · rw [getN_setParent_other (fun he => hj he.symm), g5 j]
            simp only [if_neg hj]
            by_cases hjy : j = y
            · rw [if_pos hjy, if_pos hjy]
              subst hjy
              rfl
            · rw [if_neg hjy, if_neg hjy]
              by_cases hjyl : j = yl
              · rw [if_pos hjyl, if_pos (show yl ≠ 0 ∧ j = yl from ⟨hyl0, hjyl⟩)]
              · rw [if_neg hjyl, if_neg (show ¬(yl ≠ 0 ∧ j = yl) from fun hc => hjyl hc.2)]
                by_cases hjpx : j = px
                · rw [if_pos hjpx, if_pos (show px ≠ 0 ∧ j = px from ⟨hpx0, hjpx⟩), if_pos hside]
                · rw [if_neg hjpx, if_neg (show ¬(px ≠ 0 ∧ j = px) from fun hc => hjpx hc.2)]
      · rw [if_neg hside]
        set s4 := setRight s3 px y with hs4
        have g4 : ∀ j, getN s4 j =
            if j = x then { getN s x with right := yl }
            else if j = y then { getN s j with parent := px }
            else if j = yl then { getN s j with parent := x }
            else if j = px then { getN s j with right := y }
            else getN s j := by
          intro j
          by_cases hj : j = px
          · subst hj
            rw [if_neg hpxx, if_neg hpxy, if_neg (hpxyl hpx0), if_pos rfl, hs4,
              getN_setRight_same (len3 ▸ hpxlen hpx0), g3 _, if_neg hpxx, if_neg hpxy,
              if_neg (hpxyl hpx0)]
          · rw [hs4, getN_setRight_other (fun he => hj he.symm), g3 j]
            simp [hj]
        have len4 : s4.nodes.length = s.nodes.length := by rw [hs4]; simp [len3]
        set s5 := setLeft s4 y x with hs5
        have g5 : ∀ j, getN s5 j =
            if j = x then { getN s x with right := yl }
            else if j = y then { getN s j with parent := px, left := x }
            else if j = yl then { getN s j with parent := x }
            else if j = px then { getN s j with right := y }
            else getN s j := by
          intro j
          by_cases hj : j = y
          · subst hj
            rw [if_neg (Ne.symm hxy), if_pos rfl, hs5, getN_setLeft_same (len4 ▸ hylen),
              g4 _, if_neg (Ne.symm hxy), if_pos rfl]
          · rw [hs5, getN_setLeft_other (fun he => hj he.symm), g4 j]
            simp [hj]
        have len5 : s5.nodes.length = s.nodes.length := by rw [hs5]; simp [len4]
        rw [if_pos hx0]
        refine ⟨?_, ?_⟩
        · simp [hs5, hs4, hs3, hs2, hs1, setLeft, setRight, setParent, setN, hpx0]
        · intro j
          by_cases hj : j = x
          · subst hj
            rw [getN_setParent_same (len5 ▸ hxlen), g5 _, if_pos rfl, if_pos rfl]
          · rw [getN_setParent_other (fun he => hj he.symm), g5 j]
            simp only [if_neg hj]
            by_cases hjy : j = y
            · rw [if_pos hjy, if_pos hjy]
              subst hjy
              rfl
            · rw [if_neg hjy, if_neg hjy]
              by_cases hjyl : j = yl
              · rw [if_pos hjyl, if_pos (show yl ≠ 0 ∧ j = yl from ⟨hyl0, hjyl⟩)]
              · rw [if_neg hjyl, if_neg (show ¬(yl ≠ 0 ∧ j = yl) from fun hc => hjyl hc.2)]
                by_cases hjpx : j = px
                · rw [if_pos hjpx, if_pos (show px ≠ 0 ∧ j = px from ⟨hpx0, hjpx⟩), if_neg hside]
                · rw [if_neg hjpx, if_neg (show ¬(px ≠ 0 ∧ j = px) from fun hc => hjpx hc.2)]

/-- Bundled side conditions for rotating right at `x` (mirror of
`LRotHyps`). -/
structure RRotHyps (s : Set) (x : Nat) : Prop where
  hx0 : x ≠ 0
  hxlen : x < s.nodes.length
  hy0 : (getN s x).left ≠ 0
  hylen : (getN s x).left < s.nodes.length
  hxy : x ≠ (getN s x).left
  hylx : (getN s ((getN s x).left)).right ≠ x
  hyly : (getN s ((getN s x).left)).right ≠ (getN s x).left
  hyllen : (getN s ((getN s x).left)).right < s.nodes.length
  hpxx : (getN s x).parent ≠ x
  hpxy : (getN s x).parent ≠ (getN s x).left
  hpxyl : (getN s x).parent ≠ 0 → (getN s x).parent ≠ (getN s ((getN s x).left)).right
  hpxlen : (getN s x).parent ≠ 0 → (getN s x).parent < s.nodes.length

theorem right_rotate_misc (s : Set) (x : Nat) :
    (right_rotate s x).nodes.length = s.nodes.length ∧
    (right_rotate s x).size_ = s.size_ ∧
    (right_rotate s x).head_ = s.head_ ∧
    (right_rotate s x).tail_ = s.tail_ := by
  unfold right_rotate
  dsimp only
  split_ifs <;> simp [setLeft, setRight, setParent, setN]

/-- Full characterization of `right_rotate`: the root pointer and every
node record of the result. -/
theorem right_rotate_spec (s : Set) (x : Nat) (H : RRotHyps s x) :
    (right_rotate s x).root_ =
      (if (getN s x).parent = 0 then (getN s x).left else s.root_) ∧
    (∀ j, getN (right_rotate s x) j =
      if j = x then
        { getN s x with left := (getN s ((getN s x).left)).right,
                        parent := (getN s x).left }
      else if j = (getN s x).left then
        { getN s ((getN s x).left) with right := x, parent := (getN s x).parent }
      else if (getN s ((getN s x).left)).right ≠ 0 ∧ j = (getN s ((getN s x).left)).right then
        { getN s j with parent := x }
      else if (getN s x).parent ≠ 0 ∧ j = (getN s x).parent then
        (if x = (getN s ((getN s x).parent)).right then { getN s j with right := (getN s x).left }
         else { getN s j with left := (getN s x).left })
      else getN s j) := by
  obtain ⟨hx0, hxlen, hy0, hylen, hxy, hylx, hyly, hyllen, hpxx, hpxy, hpxyl, hpxlen⟩ := H
  unfold right_rotate
  dsimp only
  set y := (getN s x).left with hy
  set yl := (getN s y).right with hyl
  set px := (getN s x).parent with hpx
  set s1 := setLeft s x yl with hs1
  have g1 : ∀ j, getN s1 j = if j = x then { getN s x with left := yl } else getN s j := by
    intro j
    by_cases hj : j = x
    · subst hj
      rw [if_pos rfl, hs1, getN_setLeft_same hxlen]
    · rw [if_neg hj, hs1, getN_setLeft_other (fun he => hj he.symm)]
  have len1 : s1.nodes.length = s.nodes.length := by rw [hs1]; simp
  have c1 : (getN s1 y).right = yl := by rw [g1 y, if_neg (Ne.symm hxy)]
  rw [c1]
  by_cases hyl0 : yl = 0
  · -- `y` has no real right child: no parent write to it
    rw [if_neg (show ¬(yl ≠ 0) from fun hc => hc hyl0)]
    have c2 : (getN s1 x).parent = px := by rw [g1 x, if_pos rfl]
    rw [if_pos hy0, c2]
    set s3 := setParent s1 y px with hs3
    have g3 : ∀ j, getN s3 j =
        if j = x then { getN s x with left := yl }
        else if j = y then { getN s j with parent := px }
        else getN s j := by
      intro j
      by_cases hj : j = y
      · subst hj
        rw [if_neg (Ne.symm hxy), if_pos rfl, hs3, getN_setParent_same (len1 ▸ hylen),
          g1 _, if_neg (Ne.symm hxy)]
      · rw [hs3, getN_setParent_other (fun he => hj he.symm), g1 j]
        simp [hj]
    have len3 : s3.nodes.length = s.nodes.length := by rw [hs3]; simp [len1]
    have c3 : (getN s3 x).parent = px := by rw [g3 x, if_pos rfl]
    rw [c3]
    by_cases hpx0 : px = 0
    · rw [if_pos hpx0]
      set s4 : Set := { s3 with root_ := y } with hs4
      have g4 : ∀ j, getN s4 j = getN s3 j := fun j => by rw [hs4]; rfl
      have len4 : s4.nodes.length = s.nodes.length := len3
      set s5 := setRight s4 y x with hs5
      have g5 : ∀ j, getN s5 j =
          if j = x then { getN s x with left := yl }
          else if j = y then { getN s j with parent := px, right := x }
          else getN s j := by
        intro j
        by_cases hj : j = y
        · subst hj
          rw [if_neg (Ne.symm hxy), if_pos rfl, hs5, getN_setRight_same (len4 ▸ hylen),
            g4 _, g3 _, if_neg (Ne.symm hxy), if_pos rfl]
        · rw [hs5, getN_setRight_other (fun he => hj he.symm), g4 j, g3 j]
          simp [hj]
      have len5 : s5.nodes.length = s.nodes.length := by rw [hs5]; simp [len4]
      rw [if_pos hx0]
      refine ⟨?_, ?_⟩
      · simp [hs5, hs4, hs3, hs1, setRight, setLeft, setParent, setN, hpx0]
      · intro j
        by_cases hj : j = x
        · subst hj
          rw [getN_setParent_same (len5 ▸ hxlen), g5 _, if_pos rfl, if_pos rfl]
        · rw [getN_setParent_other (fun he => hj he.symm), g5 j]
          simp only [if_neg hj]
          by_cases hjy : j = y
          · rw [if_pos hjy, if_pos hjy]
            subst hjy
            rfl
          · rw [if_neg hjy, if_neg hjy, if_neg (show ¬(yl ≠ 0 ∧ j = yl) from fun hc => hc.1 hyl0),
              if_neg (fun hc => hc.1 hpx0 : ¬(px ≠ 0 ∧ j = px))]
    · rw [if_neg hpx0]
      have c4 : (getN s3 px).right = (getN s px).right := by
        rw [g3 px, if_neg hpxx, if_neg hpxy]
      rw [c4]
      by_cases hside : x = (getN s px).right
      · rw [if_pos hside]
        set s4 := setRight s3 px y with hs4
        have g4 : ∀ j, getN s4 j =
            if j = x then { getN s x with left := yl }
            else if j = y then { getN s j with parent := px }
            else if j = px then { getN s j with right := y }
            else getN s j := by
          intro j
          by_cases hj : j = px
          · subst hj
            rw [if_neg hpxx, if_neg hpxy, if_pos rfl, hs4,
              getN_setRight_same (len3 ▸ hpxlen hpx0), g3 _, if_neg hpxx, if_neg hpxy]
          · rw [hs4, getN_setRight_other (fun he => hj he.symm), g3 j]
            simp [hj]
        have len4 : s4.nodes.length = s.nodes.length := by rw [hs4]; simp [len3]
        set s5 := setRight s4 y x with hs5
        have g5 : ∀ j, getN s5 j =
            if j = x then { getN s x with left := yl }
            else if j = y then { getN s j with parent := px, right := x }
            else if j = px then { getN s j with right := y }
            else getN s j := by
          intro j
          by_cases hj : j = y
          · subst hj
            rw [if_neg (Ne.symm hxy), if_pos rfl, hs5, getN_setRight_same (len4 ▸ hylen),
              g4 _, if_neg (Ne.symm hxy), if_pos rfl]
          · rw [hs5, getN_setRight_other (fun he => hj he.symm), g4 j]
            simp [hj]
        have len5 : s5.nodes.length = s.nodes.length := by rw [hs5]; simp [len4]
        rw [if_pos hx0]
        refine ⟨?_, ?_⟩
        · simp [hs5, hs4, hs3, hs1, setRight, setLeft, setParent, setN, hpx0]
        · intro j
          by_cases hj : j = x
          · subst hj
            rw [getN_setParent_same (len5 ▸ hxlen), g5 _, if_pos rfl, if_pos rfl]
          · rw [getN_setParent_other (fun he => hj he.symm), g5 j]
            simp only [if_neg hj]
            by_cases hjy : j = y
            · rw [if_pos hjy, if_pos hjy]
              subst hjy
              rfl
            · rw [if_neg hjy, if_neg hjy,
                if_neg (show ¬(yl ≠ 0 ∧ j = yl) from fun hc => hc.1 hyl0)]
              by_cases hjpx : j = px
              · rw [if_pos hjpx, if_pos (show px ≠ 0 ∧ j = px from ⟨hpx0, hjpx⟩), if_pos hside]
              · rw [if_neg hjpx, if_neg (show ¬(px ≠ 0 ∧ j = px) from fun hc => hjpx hc.2)]
      · rw [if_neg hside]
        set s4 := setLeft s3 px y with hs4
        have g4 : ∀ j, getN s4 j =
            if j = x then { getN s x with left := yl }
            else if j = y then { getN s j with parent := px }
            else if j = px then { getN s j with left := y }
            else getN s j := by
          intro j
          by_cases hj : j = px
          · subst hj
            rw [if_neg hpxx, if_neg hpxy, if_pos rfl, hs4,
              getN_setLeft_same (len3 ▸ hpxlen hpx0), g3 _, if_neg hpxx, if_neg hpxy]
          · rw [hs4, getN_setLeft_other (fun he => hj he.symm), g3 j]
            simp [hj]
        have len4 : s4.nodes.length = s.nodes.length := by rw [hs4]; simp [len3]
        set s5 := setRight s4 y x with hs5
        have g5 : ∀ j, getN s5 j =
            if j = x then { getN s x with left := yl }
            else if j = y then { getN s j with parent := px, right := x }
            else if j = px then { getN s j with left := y }
            else getN s j := by
          intro j
          by_cases hj : j = y
          · subst hj
            rw [if_neg (Ne.symm hxy), if_pos rfl, hs5, getN_setRight_same (len4 ▸ hylen),
              g4 _, if_neg (Ne.symm hxy), if_pos rfl]
          · rw [hs5, getN_setRight_other (fun he => hj he.symm), g4 j]
            simp [hj]
        have len5 : s5.nodes.length = s.nodes.length := by rw [hs5]; simp [len4]
        rw [if_pos hx0]
        refine ⟨?_, ?_⟩
        · simp [hs5, hs4, hs3, hs1, setRight, setLeft, setParent, setN, hpx0]
        · intro j
          by_cases hj : j = x
          · subst hj
            rw [getN_setParent_same (len5 ▸ hxlen), g5 _, if_pos rfl, if_pos rfl]
          · rw [getN_setParent_other (fun he => hj he.symm), g5 j]
            simp only [if_neg hj]
            by_cases hjy : j = y
            · rw [if_pos hjy, if_pos hjy]
              subst hjy
              rfl
            · rw [if_neg hjy, if_neg hjy,
                if_neg (show ¬(yl ≠ 0 ∧ j = yl) from fun hc => hc.1 hyl0)]
              by_cases hjpx : j = px
              · rw [if_pos hjpx, if_pos (show px ≠ 0 ∧ j = px from ⟨hpx0, hjpx⟩), if_neg hside]
              · rw [if_neg hjpx, if_neg (show ¬(px ≠ 0 ∧ j = px) from fun hc => hjpx hc.2)]
  · -- `y` has a real right child `yl`, whose parent is rewired to `x`
    rw [if_pos hyl0]
    set s2 := setParent s1 yl x with hs2
    have g2 : ∀ j, getN s2 j =
        if j = x then { getN s x with left := yl }
        else if j = yl then { getN s j with parent := x }
        else getN s j := by
      intro j
      by_cases hj : j = yl
      · subst hj
        rw [if_neg hylx, if_pos rfl, hs2, getN_setParent_same (len1 ▸ hyllen), g1 _,
          if_neg hylx]
      · rw [hs2, getN_setParent_other (fun he => hj he.symm), g1 j]
        simp [hj]
    have len2 : s2.nodes.length = s.nodes.length := by rw [hs2]; simp [len1]
    have c2 : (getN s2 x).parent = px := by
      rw [g2 x, if_pos rfl]
    rw [if_pos hy0, c2]
    set s3 := setParent s2 y px with hs3
    have g3 : ∀ j, getN s3 j =
        if j = x then { getN s x with left := yl }
        else if j = y then { getN s j with parent := px }
        else if j = yl then { getN s j with parent := x }
        else getN s j := by
      intro j
      by_cases hj : j = y
      · subst hj
        rw [if_neg (Ne.symm hxy), if_pos rfl, hs3, getN_setParent_same (len2 ▸ hylen),
          g2 _, if_neg (Ne.symm hxy), if_neg (Ne.symm hyly)]
      · rw [hs3, getN_setParent_other (fun he => hj he.symm), g2 j]
        simp [hj]
    have len3 : s3.nodes.length = s.nodes.length := by rw [hs3]; simp [len2]
    have c3 : (getN s3 x).parent = px := by
      rw [g3 x, if_pos rfl]
    rw [c3]
    by_cases hpx0 : px = 0
    · rw [if_pos hpx0]
      set s4 : Set := { s3 with root_ := y } with hs4
      have g4 : ∀ j, getN s4 j = getN s3 j := fun j => by rw [hs4]; rfl
      have len4 : s4.nodes.length = s.nodes.length := len3
      set s5 := setRight s4 y x with hs5
      have g5 : ∀ j, getN s5 j =
          if j = x then { getN s x with left := yl }
          else if j = y then { getN s j with parent := px, right := x }
          else if j = yl then { getN s j with parent := x }
          else getN s j := by
        intro j
        by_cases hj : j = y
        · subst hj
          rw [if_neg (Ne.symm hxy), if_pos rfl, hs5, getN_setRight_same (len4 ▸ hylen),
            g4 _, g3 _, if_neg (Ne.symm hxy), if_pos rfl]
        · rw [hs5, getN_setRight_other (fun he => hj he.symm), g4 j, g3 j]
          simp [hj]
      have len5 : s5.nodes.length = s.nodes.length := by rw [hs5]; simp [len4]
      rw [if_pos hx0]
      refine ⟨?_, ?_⟩
      · simp [hs5, hs4, hs3, hs2, hs1, setRight, setLeft, setParent, setN, hpx0]
      · intro j
        by_cases hj : j = x
        · subst hj
          rw [getN_setParent_same (len5 ▸ hxlen), g5 _, if_pos rfl, if_pos rfl]
        · rw [getN_setParent_other (fun he => hj he.symm), g5 j]
          simp only [if_neg hj]
          by_cases hjy : j = y
          · rw [if_pos hjy, if_pos hjy]
            subst hjy
            rfl
          · rw [if_neg hjy, if_neg hjy]
            by_cases hjyl : j = yl
            · rw [if_pos hjyl, if_pos (show yl ≠ 0 ∧ j = yl from ⟨hyl0, hjyl⟩)]
            · rw [if_neg hjyl, if_neg (show ¬(yl ≠ 0 ∧ j = yl) from fun hc => hjyl hc.2),
                if_neg (fun hc => hc.1 hpx0 : ¬(px ≠ 0 ∧ j = px))]
    · rw [if_neg hpx0]
      have c4 : (getN s3 px).right = (getN s px).right := by
        rw [g3 px, if_neg hpxx, if_neg hpxy, if_neg (hpxyl hpx0)]
      rw [c4]
      by_cases hside : x = (getN s px).right
      · rw [if_pos hside]
        set s4 := setRight s3 px y with hs4
        have g4 : ∀ j, getN s4 j =
            if j = x then { getN s x with left := yl }
            else if j = y then { getN s j with parent := px }
            else if j = yl then { getN s j with parent := x }
            else if j = px then { getN s j with right := y }
            else getN s j := by
          intro j
          by_cases hj : j = px
          · subst hj
            rw [if_neg hpxx, if_neg hpxy, if_neg (hpxyl hpx0), if_pos rfl, hs4,
              getN_setRight_same (len3 ▸ hpxlen hpx0), g3 _, if_neg hpxx, if_neg hpxy,
              if_neg (hpxyl hpx0)]
          · rw [hs4, getN_setRight_other (fun he => hj he.symm), g3 j]
            simp [hj]
        have len4 : s4.nodes.length = s.nodes.length := by rw [hs4]; simp [len3]
        set s5 := setRight s4 y x with hs5
        have g5 : ∀ j, getN s5 j =
            if j = x then { getN s x with left := yl }
            else if j = y then { getN s j with parent := px, right := x }
            else if j = yl then { getN s j with parent := x }
            else if j = px then { getN s j with right := y }
            else getN s j := by
          intro j
          by_cases hj : j = y
          · subst hj
            rw [if_neg (Ne.symm hxy), if_pos rfl, hs5, getN_setRight_same (len4 ▸ hylen),
              g4 _, if_neg (Ne.symm hxy), if_pos rfl]
          · rw [hs5, getN_setRight_other (fun he => hj he.symm), g4 j]
            simp [hj]
        have len5 : s5.nodes.length = s.nodes.length := by rw [hs5]; simp [len4]
        rw [if_pos hx0]
        refine ⟨?_, ?_⟩
        · simp [hs5, hs4, hs3, hs2, hs1, setRight, setLeft, setParent, setN, hpx0]
        · intro j
          by_cases hj : j = x
          · subst hj
            rw [getN_setParent_same (len5 ▸ hxlen), g5 _, if_pos rfl, if_pos rfl]
          · rw [getN_setParent_other (fun he => hj he.symm), g5 j]
            simp only [if_neg hj]
            by_cases hjy : j = y
            · rw [if_pos hjy, if_pos hjy]
              subst hjy
              rfl
            · rw [if_neg hjy, if_neg hjy]
              by_cases hjyl : j = yl
              · rw [if_pos hjyl, if_pos (show yl ≠ 0 ∧ j = yl from ⟨hyl0, hjyl⟩)]
              · rw [if_neg hjyl, if_neg (show ¬(yl ≠ 0 ∧ j = yl) from fun hc => hjyl hc.2)]
                by_cases hjpx : j = px
                · rw [if_pos hjpx, if_pos (show px ≠ 0 ∧ j = px from ⟨hpx0, hjpx⟩), if_pos hside]
                · rw [if_neg hjpx, if_neg (show ¬(px ≠ 0 ∧ j = px) from fun hc => hjpx hc.2)]
      · rw [if_neg hside]
        set s4 := setLeft s3 px y with hs4
        have g4 : ∀ j, getN s4 j =
            if j = x then { getN s x with left := yl }
            else if j = y then { getN s j with parent := px }
            else if j = yl then { getN s j with parent := x }
            else if j = px then { getN s j with left := y }
            else getN s j := by
          intro j
          by_cases hj : j = px
          · subst hj
            rw [if_neg hpxx, if_neg hpxy, if_neg (hpxyl hpx0), if_pos rfl, hs4,
              getN_setLeft_same (len3 ▸ hpxlen hpx0), g3 _, if_neg hpxx, if_neg hpxy,
              if_neg (hpxyl hpx0)]
          · rw [hs4, getN_setLeft_other (fun he => hj he.symm), g3 j]
            simp [hj]
        have len4 : s4.nodes.length = s.nodes.length := by rw [hs4]; simp [len3]
        set s5 := setRight s4 y x with hs5
        have g5 : ∀ j, getN s5 j =
            if j = x then { getN s x with left := yl }
            else if j = y then { getN s j with parent := px, right := x }
            else if j = yl then { getN s j with parent := x }
            else if j = px then { getN s j with left := y }
            else getN s j := by
          intro j
          by_cases hj : j = y
          · subst hj
            rw [if_neg (Ne.symm hxy), if_pos rfl, hs5, getN_setRight_same (len4 ▸ hylen),
              g4 _, if_neg (Ne.symm hxy), if_pos rfl]
          · rw [hs5, getN_setRight_other (fun he => hj he.symm), g4 j]
            simp [hj]
        have len5 : s5.nodes.length = s.nodes.length := by rw [hs5]; simp [len4]
        rw [if_pos hx0]
        refine ⟨?_, ?_⟩
        · simp [hs5, hs4, hs3, hs2, hs1, setRight, setLeft, setParent, setN, hpx0]
        · intro j
          by_cases hj : j = x
          · subst hj
            rw [getN_setParent_same (len5 ▸ hxlen), g5 _, if_pos rfl, if_pos rfl]
          · rw [getN_setParent_other (fun he => hj he.symm), g5 j]
            simp only [if_neg hj]
            by_cases hjy : j = y
            · rw [if_pos hjy, if_pos hjy]
              subst hjy
              rfl
            · rw [if_neg hjy, if_neg hjy]
              by_cases hjyl : j = yl
              · rw [if_pos hjyl, if_pos (show yl ≠ 0 ∧ j = yl from ⟨hyl0, hjyl⟩)]
              · rw [if_neg hjyl, if_neg (show ¬(yl ≠ 0 ∧ j = yl) from fun hc => hjyl hc.2)]
                by_cases hjpx : j = px
                · rw [if_pos hjpx, if_pos (show px ≠ 0 ∧ j = px from ⟨hpx0, hjpx⟩), if_neg hside]
                · rw [if_neg hjpx, if_neg (show ¬(px ≠ 0 ∧ j = px) from fun hc => hjpx hc.2)]

/-! ### Zipper-level helpers -/

@[simp] theorem plugRootIdx_cons (b : Bool) (p : Nat) (sib : ITree)
    (ctx : List (Bool × Nat × ITree)) (h : Nat) :
    plugRootIdx ((b, p, sib) :: ctx) h = plugRootIdx ctx p := rfl

@[simp] theorem holeParentD_cons (b : Bool) (p : Nat) (sib : ITree)
    (ctx : List (Bool × Nat × ITree)) (d : Nat) :
    holeParentD ((b, p, sib) :: ctx) d = p := rfl

/-- Rotation preserves the in-order index sequence. -/
theorem inorder_rotate_eq (ctx : List (Bool × Nat × ITree)) (A B C : ITree) (x y : Nat) :
    inorderIdx (plug ctx (ITree.node (ITree.node A x B) y C)) =
      inorderIdx (plug ctx (ITree.node A x (ITree.node B y C))) := by
  rw [inorder_plug, inorder_plug]
  simp [inorderIdx]

theorem nodup_plug_parts {ctx : List (Bool × Nat × ITree)} {sub : ITree}
    (h : (inorderIdx (plug ctx sub)).Nodup) :
    (inorderIdx sub).Nodup ∧ (ctxPreIdx ctx ++ ctxPostIdx ctx).Nodup ∧
      (∀ a ∈ ctxPreIdx ctx ++ ctxPostIdx ctx, a ∉ inorderIdx sub) := by
  rw [inorder_plug] at h
  rw [List.append_assoc] at h
  obtain ⟨hpre, hmidpost, hdisj1⟩ := List.nodup_append.mp h
  obtain ⟨hmid, hpost, hdisj2⟩ := List.nodup_append.mp hmidpost
  refine ⟨hmid, ?_, ?_⟩
  · rw [List.nodup_append]
    exact ⟨hpre, hpost, fun a ha hb => hdisj1 ha (List.mem_append.mpr (Or.inr hb))⟩
  · intro a ha
    rw [List.mem_append] at ha
    rcases ha with ha | ha
    · intro hmem
      exact hdisj1 ha (List.mem_append.mpr (Or.inl hmem))
    · intro hmem
      exact hdisj2 hmem ha

/-- Membership of the plugged subtree's indices in the whole tree. -/
theorem sub_mem_plug {ctx : List (Bool × Nat × ITree)} {sub : ITree} {j : Nat}
    (h : j ∈ inorderIdx sub) : j ∈ inorderIdx (plug ctx sub) := by
  rw [inorder_plug]
  simp [h]

/-- Membership of context indices in the whole tree. -/
theorem ctx_mem_plug {ctx : List (Bool × Nat × ITree)} {sub : ITree} {j : Nat}
    (h : j ∈ ctxPreIdx ctx ++ ctxPostIdx ctx) : j ∈ inorderIdx (plug ctx sub) := by
  rw [inorder_plug]
  rw [List.mem_append] at h
  rcases h with h | h <;> simp [h]

theorem ctx_members_cons {b : Bool} {p : Nat} {sib : ITree}
    {ctx : List (Bool × Nat × ITree)} :
    p ∈ ctxPreIdx ((b, p, sib) :: ctx) ++ ctxPostIdx ((b, p, sib) :: ctx) ∧
    (∀ j ∈ inorderIdx sib,
      j ∈ ctxPreIdx ((b, p, sib) :: ctx) ++ ctxPostIdx ((b, p, sib) :: ctx)) ∧
    (∀ j ∈ ctxPreIdx ctx ++ ctxPostIdx ctx,
      j ∈ ctxPreIdx ((b, p, sib) :: ctx) ++ ctxPostIdx ((b, p, sib) :: ctx)) := by
  cases b <;>
    refine ⟨by simp [ctxPreIdx, ctxPostIdx], fun j hj => by simp [ctxPreIdx, ctxPostIdx, hj],
      fun j hj => ?_⟩ <;>
    · rw [List.mem_append] at hj
      rcases hj with hj | hj <;> simp [ctxPreIdx, ctxPostIdx, hj]

/-- The innermost context parent is distinct from deeper context members
and from the sibling members, given no duplicates. -/
theorem ctx_head_fresh {b : Bool} {p : Nat} {sib : ITree}
    {ctx : List (Bool × Nat × ITree)}
    (h : (ctxPreIdx ((b, p, sib) :: ctx) ++ ctxPostIdx ((b, p, sib) :: ctx)).Nodup) :
    p ∉ inorderIdx sib ∧ (∀ j ∈ ctxPreIdx ctx ++ ctxPostIdx ctx, j ≠ p) := by
  cases b
  · -- hole is the right child: pre grows by `sib ++ [p]`
    simp only [ctxPreIdx, ctxPostIdx] at h
    have hperm : ((ctxPreIdx ctx ++ (inorderIdx sib ++ [p])) ++ ctxPostIdx ctx).Nodup := h
    rw [List.nodup_append] at hperm
    obtain ⟨hpre, hpost, hdisj⟩ := hperm
    rw [List.nodup_append] at hpre
    obtain ⟨hpre1, hpre2, hdisj2⟩ := hpre
    rw [List.nodup_append] at hpre2
    obtain ⟨hsib, _, hdisj3⟩ := hpre2
    constructor
    · intro hmem
      exact hdisj3 hmem (by simp)
    · intro j hj
      rw [List.mem_append] at hj
      rcases hj with hj | hj
      · intro he
        exact hdisj2 hj (by simp [he])
      · intro he
        exact hdisj (by simp) (he ▸ hj)
  · -- hole is the left child: post grows by `p :: sib`
    simp only [ctxPreIdx, ctxPostIdx] at h
    have hperm : (ctxPreIdx ctx ++ ((p :: inorderIdx sib) ++ ctxPostIdx ctx)).Nodup := h
    rw [List.nodup_append] at hperm
    obtain ⟨hpre, hrest, hdisj⟩ := hperm
    rw [List.nodup_append] at hrest
    obtain ⟨hcons, hpost, hdisj2⟩ := hrest
    rw [List.nodup_cons] at hcons
    constructor
    · exact hcons.1
    · intro j hj
      rw [List.mem_append] at hj
      rcases hj with hj | hj
      · intro he
        exact hdisj hj (by simp [he])
      · intro he
        exact hdisj2 (by simp) (he ▸ hj)

/-- Left rotation at the zipper level: rotating at `x` (whose right child
is `y`) turns `node A x (node B y C)` into `node (node A x B) y C` in
place, preserving the context, all data and colors, parent coherence and
the bookkeeping fields. -/
theorem left_rotate_zipper {s : Set} {ctx : List (Bool × Nat × ITree)} {A B C : ITree}
    {x y : Nat}
    (hext : Ext s s.root_ (plug ctx (ITree.node A x (ITree.node B y C))))
    (hidx : ∀ j ∈ inorderIdx (plug ctx (ITree.node A x (ITree.node B y C))),
      j ≠ 0 ∧ j < s.nodes.length)
    (hnodup : (inorderIdx (plug ctx (ITree.node A x (ITree.node B y C)))).Nodup)
    (hparent : parentOKb s (plug ctx (ITree.node A x (ITree.node B y C))) 0 = true) :
    Ext (left_rotate s x) (left_rotate s x).root_
      (plug ctx (ITree.node (ITree.node A x B) y C)) ∧
    parentOKb (left_rotate s x) (plug ctx (ITree.node (ITree.node A x B) y C)) 0 = true ∧
    (∀ j, (getN (left_rotate s x) j).data = (getN s j).data ∧
      (getN (left_rotate s x) j).color = (getN s j).color) ∧
    (left_rotate s x).nodes.length = s.nodes.length ∧
    (left_rotate s x).size_ = s.size_ ∧
    (left_rotate s x).head_ = s.head_ ∧
    (left_rotate s x).tail_ = s.tail_ := by
  -- Decompose the extraction through the zipper
  obtain ⟨hreal, hsubExt, hr0⟩ := Ext_plug_elim hext
  simp only [rootIdx] at hreal hsubExt hr0
  obtain ⟨-, hx0, hExtA, hExtY⟩ := Ext_node_elim hsubExt
  have hyx : y = (getN s x).right := Ext_rootIdx hExtY
  rw [← hyx] at hExtY
  obtain ⟨-, hy0, hExtB, hExtC⟩ := Ext_node_elim hExtY
  have hBroot : rootIdx B = (getN s y).left := Ext_rootIdx hExtB
  have hCroot : rootIdx C = (getN s y).right := Ext_rootIdx hExtC
  -- Nodup decomposition
  obtain ⟨hnsub, hnctx, hdisj⟩ := nodup_plug_parts hnodup
  rw [inorderIdx_node, inorderIdx_node] at hnsub
  rw [List.nodup_append] at hnsub
  obtain ⟨hnA, hnsub2, hdisjA⟩ := hnsub
  rw [List.nodup_cons] at hnsub2
  obtain ⟨hxnot, hnsub3⟩ := hnsub2
  rw [List.nodup_append] at hnsub3
  obtain ⟨hnB, hnsub4, hdisjB⟩ := hnsub3
  rw [List.nodup_cons] at hnsub4
  obtain ⟨hynotC, hnC⟩ := hnsub4
  -- Membership shortcuts
  have hxmemT : x ∈ inorderIdx (ITree.node A x (ITree.node B y C)) := by simp
  have hymemT : y ∈ inorderIdx (ITree.node A x (ITree.node B y C)) := by simp
  have hmemT : ∀ j, (j ∈ inorderIdx A ∨ j = x ∨ j ∈ inorderIdx B ∨ j = y ∨ j ∈ inorderIdx C) →
      j ∈ inorderIdx (ITree.node A x (ITree.node B y C)) := by
    intro j hj
    simp only [inorderIdx_node, List.mem_append, List.mem_cons]
    tauto
  obtain ⟨-, hxlen⟩ := hidx x (sub_mem_plug hxmemT)
  obtain ⟨-, hylen⟩ := hidx y (sub_mem_plug hymemT)
  -- Basic disequalities
  have hxy : x ≠ y := fun he => hxnot (by simp [he])
  have hxA : x ∉ inorderIdx A := fun hm => hdisjA hm (by simp)
  have hyA : y ∉ inorderIdx A := fun hm => hdisjA hm (by simp)
  have hxB : x ∉ inorderIdx B := fun hm => hxnot (by simp [hm])
  have hxC : x ∉ inorderIdx C := fun hm => hxnot (by simp [hm])
  have hyB : y ∉ inorderIdx B := fun hm => hdisjB hm (by simp)
  -- Where the left child of `y` lives
  have hylcase : (getN s y).left = 0 ∨ (getN s y).left ∈ inorderIdx B := by
    cases B with
    | leaf => exact Or.inl hBroot.symm
    | node bl bi br =>
      right
      have hbi : bi = (getN s y).left := by simpa [rootIdx] using hBroot
      rw [← hbi]
      simp
  -- Parent-coherence decomposition
  rw [parentOKb_plug] at hparent
  obtain ⟨hpsub, hpctx⟩ := hparent
  rw [parentOKb_node] at hpsub
  obtain ⟨hpxhole, hpA, hpsub2⟩ := hpsub
  rw [parentOKb_node] at hpsub2
  obtain ⟨hpy, hpB, hpC⟩ := hpsub2
  -- Freshness of the hole parent
  have hpxcase : (getN s x).parent = 0 ∨
      (∀ j ∈ inorderIdx (ITree.node A x (ITree.node B y C)), j ≠ (getN s x).parent) := by
    cases ctx with
    | nil => exact Or.inl hpxhole
    | cons hd ctx2 =>
      obtain ⟨b, p, sib⟩ := hd
      right
      intro j hj he
      have hnot := hdisj p (@ctx_members_cons b p sib ctx2).1
      rw [hpxhole] at he
      have he' : j = p := he
      exact hnot (he' ▸ hj)
  have hpxlen' : (getN s x).parent ≠ 0 → (getN s x).parent < s.nodes.length := by
    intro hne
    cases ctx with
    | nil => exact absurd hpxhole hne
    | cons hd ctx2 =>
      obtain ⟨b, p, sib⟩ := hd
      rw [hpxhole]
      exact (hidx p (ctx_mem_plug (@ctx_members_cons b p sib ctx2).1)).2
  -- The rotation hypotheses
  have H : LRotHyps s x := by
    refine ⟨hx0, hxlen, ?_, ?_, ?_, ?_, ?_, ?_, ?_, ?_, ?_, hpxlen'⟩
    · rw [← hyx]; exact hy0
    · rw [← hyx]; exact hylen
    · rw [← hyx]; exact hxy
    · rw [← hyx]
      rcases hylcase with h | h
      · rw [h]; exact fun he => hx0 he.symm
      · exact fun he => hxB (he ▸ h)
    · rw [← hyx]
      rcases hylcase with h | h
      · rw [h]; exact fun he => hy0 he.symm
      · exact fun he => hyB (he ▸ h)
    · rw [← hyx]
      rcases hylcase with h | h
      · rw [h]
        rcases Nat.eq_zero_or_pos s.nodes.length with h0 | h0
        · exact absurd (h0 ▸ hxlen) (by omega)
        · exact h0
      · exact (hidx _ (sub_mem_plug (hmemT _ (Or.inr (Or.inr (Or.inl h)))))).2
    · rcases hpxcase with h | h
      · rw [h]; exact fun he => hx0 he.symm
      · exact fun he => h x hxmemT he.symm
    · rw [← hyx]
      rcases hpxcase with h | h
      · rw [h]; exact fun he => hy0 he.symm
      · exact fun he => h y hymemT he.symm
    · intro hne
      rw [← hyx]
      rcases hpxcase with h | h
      · exact absurd h hne
      · rcases hylcase with h2 | h2
        · rw [h2]; exact hne
        · exact fun he => h _ (hmemT _ (Or.inr (Or.inr (Or.inl h2)))) he.symm
  obtain ⟨hroot', htab⟩ := left_rotate_spec s x H
  rw [← hyx] at hroot' htab
  -- Pointwise frame facts
  have hfrLR : ∀ j, j ≠ x → j ≠ y →
      ((getN s x).parent = 0 ∨ j ≠ (getN s x).parent) →
      (getN (left_rotate s x) j).left = (getN s j).left ∧
        (getN (left_rotate s x) j).right = (getN s j).right := by
    intro j h1 h2 h3
    have h5 : ¬((getN s x).parent ≠ 0 ∧ j = (getN s x).parent) := by
      rcases h3 with h3 | h3
      · exact fun hc => hc.1 h3
      · exact fun hc => h3 hc.2
    rw [htab j, if_neg h1, if_neg h2]
    by_cases h4 : (getN s y).left ≠ 0 ∧ j = (getN s y).left
    · rw [if_pos h4]
      exact ⟨rfl, rfl⟩
    · rw [if_neg h4, if_neg h5]
      exact ⟨rfl, rfl⟩
  have hfrP : ∀ j, j ≠ x → j ≠ y → ((getN s y).left = 0 ∨ j ≠ (getN s y).left) →
      (getN (left_rotate s x) j).parent = (getN s j).parent := by
    intro j h1 h2 h3
    have h4 : ¬((getN s y).left ≠ 0 ∧ j = (getN s y).left) := by
      rcases h3 with h3 | h3
      · exact fun hc => hc.1 h3
      · exact fun hc => h3 hc.2
    rw [htab j, if_neg h1, if_neg h2, if_neg h4]
    by_cases h5 : (getN s x).parent ≠ 0 ∧ j = (getN s x).parent
    · rw [if_pos h5]
      by_cases h6 : x = (getN s ((getN s x).parent)).left
      · rw [if_pos h6]
      · rw [if_neg h6]
    · rw [if_neg h5]
  -- Field values at the hot indices
  have hyne : y ≠ x := Ne.symm hxy
  have hx'l : (getN (left_rotate s x) x).left = (getN s x).left := by
    rw [htab x, if_pos rfl]
  have hx'r : (getN (left_rotate s x) x).right = (getN s y).left := by
    rw [htab x, if_pos rfl]
  have hx'p : (getN (left_rotate s x) x).parent = y := by
    rw [htab x, if_pos rfl]
  have hy'l : (getN (left_rotate s x) y).left = x := by
    rw [htab y, if_neg hyne, if_pos rfl]
  have hy'r : (getN (left_rotate s x) y).right = (getN s y).right := by
    rw [htab y, if_neg hyne, if_pos rfl]
  have hy'p : (getN (left_rotate s x) y).parent = (getN s x).parent := by
    rw [htab y, if_neg hyne, if_pos rfl]
  -- Extraction of the pieces in the rotated arena
  have hExtA' : Ext (left_rotate s x) (getN s x).left A := by
    refine Ext_frame hExtA ?_
    intro j hj
    refine hfrLR j (fun he => hxA (he ▸ hj)) (fun he => hyA (he ▸ hj)) ?_
    rcases hpxcase with h | h
    · exact Or.inl h
    · exact Or.inr (h j (hmemT j (Or.inl hj)))
  have hExtB' : Ext (left_rotate s x) (getN s y).left B := by
    refine Ext_frame hExtB ?_
    intro j hj
    refine hfrLR j (fun he => hxB (he ▸ hj)) (fun he => hyB (he ▸ hj)) ?_
    rcases hpxcase with h | h
    · exact Or.inl h
    · exact Or.inr (h j (hmemT j (Or.inr (Or.inr (Or.inl hj)))))
  have hExtC' : Ext (left_rotate s x) (getN s y).right C := by
    refine Ext_frame hExtC ?_
    intro j hj
    refine hfrLR j (fun he => hxC (he ▸ hj)) (fun he => hynotC (he ▸ hj)) ?_
    rcases hpxcase with h | h
    · exact Or.inl h
    · exact Or.inr (h j (hmemT j (Or.inr (Or.inr (Or.inr (Or.inr hj))))))
  have hExtXB : Ext (left_rotate s x) x (ITree.node A x B) := by
    refine Ext_node_intro hx0 ?_ ?_
    · rw [hx'l]; exact hExtA'
    · rw [hx'r]; exact hExtB'
  have hExtNew : Ext (left_rotate s x) y (ITree.node (ITree.node A x B) y C) := by
    refine Ext_node_intro hy0 ?_ ?_
    · rw [hy'l]; exact hExtXB
    · rw [hy'r]; exact hExtC'
  refine ⟨?_, ?_, ?_, (left_rotate_misc s x).1, (left_rotate_misc s x).2.1,
    (left_rotate_misc s x).2.2.1, (left_rotate_misc s x).2.2.2⟩
  · -- Extraction of the rotated whole tree at the new root
    have hrootEq : (left_rotate s x).root_ = plugRootIdx ctx y := by
      rw [hroot']
      cases ctx with
      | nil =>
        rw [if_pos (show (getN s x).parent = 0 from hpxhole)]
        rfl
      | cons hd ctx2 =>
        obtain ⟨b, p, sib⟩ := hd
        have hp0 : p ≠ 0 := by
          cases b
          · exact hreal.1
          · exact hreal.1
        have hpne : (getN s x).parent ≠ 0 := by rw [hpxhole]; exact hp0
        rw [if_neg hpne, hr0]
        rfl
    have hreal' : ctxRealized (left_rotate s x) ctx y := by
      cases ctx with
      | nil => trivial
      | cons hd ctx2 =>
        obtain ⟨b, p, sib⟩ := hd
        have hfresh := ctx_head_fresh hnctx
        have hpfull := (@ctx_members_cons b p sib ctx2).1
        have hsibfull := (@ctx_members_cons b p sib ctx2).2.1
        have hrestfull := (@ctx_members_cons b p sib ctx2).2.2
        have hpnotsub : p ∉ inorderIdx (ITree.node A x (ITree.node B y C)) := hdisj p hpfull
        have hpnx : p ≠ x := fun he => hpnotsub (by rw [he]; exact hxmemT)
        have hpny : p ≠ y := fun he => hpnotsub (by rw [he]; exact hymemT)
        have hpxp : (getN s x).parent = p := hpxhole
        have hppos : ¬((getN s y).left ≠ 0 ∧ p = (getN s y).left) := by
          rintro ⟨hyl0, he⟩
          rcases hylcase with h | h
          · exact hyl0 h
          · exact hpnotsub (by rw [he]; exact hmemT _ (Or.inr (Or.inr (Or.inl h))))
        cases b with
        | false =>
          simp only [ctxRealized] at hreal ⊢
          obtain ⟨hp0, hfield, hsib, hreal2⟩ := hreal
          have hgp : getN (left_rotate s x) p =
              (if x = (getN s p).left then { getN s p with left := y }
               else { getN s p with right := y }) := by
            rw [htab p, if_neg hpnx, if_neg hpny, if_neg hppos,
              if_pos (show (getN s x).parent ≠ 0 ∧ p = (getN s x).parent from
                ⟨by rw [hpxp]; exact hp0, hpxp.symm⟩), hpxp]
          have hsibcase : (getN s p).left = 0 ∨ (getN s p).left ∈ inorderIdx sib := by
            have hsr : rootIdx sib = (getN s p).left := Ext_rootIdx hsib
            cases sib with
            | leaf => exact Or.inl hsr.symm
            | node sl si sr2 =>
              right
              have hsi : si = (getN s p).left := by simpa [rootIdx] using hsr
              rw [← hsi]
              simp
          have hxnl : ¬(x = (getN s p).left) := by
            intro he
            rcases hsibcase with h | h
            · exact hx0 (he.trans h)
            · exact hdisj x (hsibfull _ (by rw [he]; exact h)) hxmemT
          refine ⟨hp0, ?_, ?_, ?_⟩
          · rw [hgp, if_neg hxnl]
          · have hpr : (getN (left_rotate s x) p).left = (getN s p).left := by
              rw [hgp, if_neg hxnl]
            rw [hpr]
            refine Ext_frame hsib ?_
            intro j hj
            have hjnotsub := hdisj j (hsibfull j hj)
            refine hfrLR j (fun he => hjnotsub (by rw [he]; exact hxmemT))
              (fun he => hjnotsub (by rw [he]; exact hymemT)) ?_
            right
            rw [hpxp]
            exact fun he => hfresh.1 (he ▸ hj)
          · refine ctxRealized_frame ?_ hreal2
            intro j hj
            have hjnotsub := hdisj j (hrestfull j hj)
            refine hfrLR j (fun he => hjnotsub (by rw [he]; exact hxmemT))
              (fun he => hjnotsub (by rw [he]; exact hymemT)) ?_
            right
            rw [hpxp]
            exact hfresh.2 j hj
        | true =>
          simp only [ctxRealized] at hreal ⊢
          obtain ⟨hp0, hfield, hsib, hreal2⟩ := hreal
          have hgp : getN (left_rotate s x) p =
              (if x = (getN s p).left then { getN s p with left := y }
               else { getN s p with right := y }) := by
            rw [htab p, if_neg hpnx, if_neg hpny, if_neg hppos,
              if_pos (show (getN s x).parent ≠ 0 ∧ p = (getN s x).parent from
                ⟨by rw [hpxp]; exact hp0, hpxp.symm⟩), hpxp]
          refine ⟨hp0, ?_, ?_, ?_⟩
          · rw [hgp, if_pos hfield.symm]
          · have hpr : (getN (left_rotate s x) p).right = (getN s p).right := by
              rw [hgp, if_pos hfield.symm]
            rw [hpr]
            refine Ext_frame hsib ?_
            intro j hj
            have hjnotsub := hdisj j (hsibfull j hj)
            refine hfrLR j (fun he => hjnotsub (by rw [he]; exact hxmemT))
              (fun he => hjnotsub (by rw [he]; exact hymemT)) ?_
            right
            rw [hpxp]
            exact fun he => hfresh.1 (he ▸ hj)
          · refine ctxRealized_frame ?_ hreal2
            intro j hj
            have hjnotsub := hdisj j (hrestfull j hj)
            refine hfrLR j (fun he => hjnotsub (by rw [he]; exact hxmemT))
              (fun he => hjnotsub (by rw [he]; exact hymemT)) ?_
            right
            rw [hpxp]
            exact hfresh.2 j hj
    rw [hrootEq]
    exact Ext_plug_intro hreal' hExtNew
  · -- Parent coherence of the rotated tree
    rw [parentOKb_plug]
    constructor
    · rw [parentOKb_node]
      refine ⟨by rw [hy'p]; exact hpxhole, ?_, ?_⟩
      · rw [parentOKb_node]
        refine ⟨hx'p, ?_, ?_⟩
        · have hagA : ∀ j ∈ inorderIdx A,
              (getN (left_rotate s x) j).parent = (getN s j).parent := by
            intro j hj
            refine hfrP j (fun he => hxA (he ▸ hj)) (fun he => hyA (he ▸ hj)) ?_
            rcases hylcase with h | h
            · exact Or.inl h
            · exact Or.inr (fun he => hdisjA hj (by rw [he]; simp [h]))
          rw [parentOKb_frame hagA]
          exact hpA
        · cases B with
          | leaf => rfl
          | node bl bi br =>
            have hbi : bi = (getN s y).left := by simpa [rootIdx] using hBroot
            have hbimem : bi ∈ inorderIdx (ITree.node bl bi br) := by simp
            have hbix : bi ≠ x := fun he => hxB (he ▸ hbimem)
            have hbiy : bi ≠ y := fun he => hyB (he ▸ hbimem)
            have hbi0 : bi ≠ 0 :=
              (hidx bi (sub_mem_plug (hmemT bi (Or.inr (Or.inr (Or.inl hbimem)))))).1
            rw [inorderIdx_node, List.nodup_append] at hnB
            obtain ⟨hnbl, hnbr', hdisjbl⟩ := hnB
            rw [List.nodup_cons] at hnbr'
            obtain ⟨hbinotbr, hnbr⟩ := hnbr'
            rw [parentOKb_node] at hpB
            obtain ⟨-, hpbl, hpbr⟩ := hpB
            rw [parentOKb_node]
            refine ⟨?_, ?_, ?_⟩
            · rw [htab bi, if_neg hbix, if_neg hbiy,
                if_pos (show (getN s y).left ≠ 0 ∧ bi = (getN s y).left from
                  ⟨hbi ▸ hbi0, hbi⟩)]
            · have hag : ∀ j ∈ inorderIdx bl,
                  (getN (left_rotate s x) j).parent = (getN s j).parent := by
                intro j hj
                refine hfrP j (fun he => hxB (by rw [← he]; simp [hj]))
                  (fun he => hyB (by rw [← he]; simp [hj])) ?_
                exact Or.inr (fun he => hdisjbl hj (by rw [he, ← hbi]; simp))
              rw [parentOKb_frame hag]
              exact hpbl
            · have hag : ∀ j ∈ inorderIdx br,
                  (getN (left_rotate s x) j).parent = (getN s j).parent := by
                intro j hj
                refine hfrP j (fun he => hxB (by rw [← he]; simp [hj]))
                  (fun he => hyB (by rw [← he]; simp [hj])) ?_
                exact Or.inr (fun he => hbinotbr (by rw [hbi, ← he]; exact hj))
              rw [parentOKb_frame hag]
              exact hpbr
      · have hagC : ∀ j ∈ inorderIdx C,
            (getN (left_rotate s x) j).parent = (getN s j).parent := by
          intro j hj
          refine hfrP j (fun he => hxC (he ▸ hj)) (fun he => hynotC (he ▸ hj)) ?_
          rcases hylcase with h | h
          · exact Or.inl h
          · exact Or.inr (fun he => hdisjB h (List.mem_cons.mpr (Or.inr (he ▸ hj))))
        rw [parentOKb_frame hagC]
        exact hpC
    · have hagctx : ∀ j ∈ ctxPreIdx ctx ++ ctxPostIdx ctx,
          (getN (left_rotate s x) j).parent = (getN s j).parent := by
        intro j hj
        have hjnotsub := hdisj j hj
        refine hfrP j (fun he => hjnotsub (by rw [he]; exact hxmemT))
          (fun he => hjnotsub (by rw [he]; exact hymemT)) ?_
        rcases hylcase with h | h
        · exact Or.inl h
        · exact Or.inr (fun he =>
            hjnotsub (by rw [he]; exact hmemT _ (Or.inr (Or.inr (Or.inl h)))))
      rw [ctxParentOKb_frame hagctx]
      exact hpctx
  · -- Data and colors are untouched
    intro j
    rw [htab j]
    split_ifs with h1 h2 h3 h4 h5
    · subst h1; exact ⟨rfl, rfl⟩
    · subst h2; exact ⟨rfl, rfl⟩
    · exact ⟨rfl, rfl⟩
    · exact ⟨rfl, rfl⟩
    · exact ⟨rfl, rfl⟩
    · exact ⟨rfl, rfl⟩

/-- Right rotation at the zipper level: rotating at `x` (whose left child
is `y`) turns `node (node A y B) x C` into `node A y (node B x C)` in
place, preserving the context, all data and colors, parent coherence and
the bookkeeping fields. -/
theorem right_rotate_zipper {s : Set} {ctx : List (Bool × Nat × ITree)} {A B C : ITree}
    {x y : Nat}
    (hext : Ext s s.root_ (plug ctx (ITree.node (ITree.node A y B) x C)))
    (hidx : ∀ j ∈ inorderIdx (plug ctx (ITree.node (ITree.node A y B) x C)),
      j ≠ 0 ∧ j < s.nodes.length)
    (hnodup : (inorderIdx (plug ctx (ITree.node (ITree.node A y B) x C))).Nodup)
    (hparent : parentOKb s (plug ctx (ITree.node (ITree.node A y B) x C)) 0 = true) :
    Ext (right_rotate s x) (right_rotate s x).root_
      (plug ctx (ITree.node A y (ITree.node B x C))) ∧
    parentOKb (right_rotate s x) (plug ctx (ITree.node A y (ITree.node B x C))) 0 = true ∧
    (∀ j, (getN (right_rotate s x) j).data = (getN s j).data ∧
      (getN (right_rotate s x) j).color = (getN s j).color) ∧
    (right_rotate s x).nodes.length = s.nodes.length ∧
    (right_rotate s x).size_ = s.size_ ∧
    (right_rotate s x).head_ = s.head_ ∧
    (right_rotate s x).tail_ = s.tail_ := by
  -- Decompose the extraction through the zipper
  obtain ⟨hreal, hsubExt, hr0⟩ := Ext_plug_elim hext
  simp only [rootIdx] at hreal hsubExt hr0
  obtain ⟨-, hx0, hExtAY, hExtC⟩ := Ext_node_elim hsubExt
  have hyx : y = (getN s x).left := Ext_rootIdx hExtAY
  rw [← hyx] at hExtAY
  obtain ⟨-, hy0, hExtA, hExtB⟩ := Ext_node_elim hExtAY
  have hBroot : rootIdx B = (getN s y).right := Ext_rootIdx hExtB
  -- Nodup decomposition
  obtain ⟨hnsub, hnctx, hdisj⟩ := nodup_plug_parts hnodup
  rw [inorderIdx_node, inorderIdx_node] at hnsub
  rw [List.nodup_append] at hnsub
  obtain ⟨hnAY, hnsub2, hdisjAY⟩ := hnsub
  rw [List.nodup_cons] at hnsub2
  obtain ⟨hxnotC, hnC⟩ := hnsub2
  rw [List.nodup_append] at hnAY
  obtain ⟨hnA, hnyB', hdisjA2⟩ := hnAY
  rw [List.nodup_cons] at hnyB'
  obtain ⟨hynotB, hnB⟩ := hnyB'
  -- Membership shortcuts
  have hxmemT : x ∈ inorderIdx (ITree.node (ITree.node A y B) x C) := by simp
  have hymemT : y ∈ inorderIdx (ITree.node (ITree.node A y B) x C) := by simp
  have hmemT : ∀ j, (j ∈ inorderIdx A ∨ j = y ∨ j ∈ inorderIdx B ∨ j = x ∨ j ∈ inorderIdx C) →
      j ∈ inorderIdx (ITree.node (ITree.node A y B) x C) := by
    intro j hj
    simp only [inorderIdx_node, List.mem_append, List.mem_cons]
    tauto
  obtain ⟨-, hxlen⟩ := hidx x (sub_mem_plug hxmemT)
  obtain ⟨-, hylen⟩ := hidx y (sub_mem_plug hymemT)
  -- Basic disequalities
  have hxy : x ≠ y := fun he =>
    hdisjAY (show x ∈ inorderIdx A ++ y :: inorderIdx B by simp [he]) (by simp)
  have hxA : x ∉ inorderIdx A := fun hm =>
    hdisjAY (show x ∈ inorderIdx A ++ y :: inorderIdx B by simp [hm]) (by simp)
  have hxB : x ∉ inorderIdx B := fun hm =>
    hdisjAY (show x ∈ inorderIdx A ++ y :: inorderIdx B by simp [hm]) (by simp)
  have hyA : y ∉ inorderIdx A := fun hm => hdisjA2 hm (by simp)
  have hyB : y ∉ inorderIdx B := hynotB
  have hyC : y ∉ inorderIdx C := fun hm =>
    hdisjAY (show y ∈ inorderIdx A ++ y :: inorderIdx B by simp) (by simp [hm])
  -- Where the right child of `y` lives
  have hylcase : (getN s y).right = 0 ∨ (getN s y).right ∈ inorderIdx B := by
    cases B with
    | leaf => exact Or.inl hBroot.symm
    | node bl bi br =>
      right
      have hbi : bi = (getN s y).right := by simpa [rootIdx] using hBroot
      rw [← hbi]
      simp
  -- Parent-coherence decomposition
  rw [parentOKb_plug] at hparent
  obtain ⟨hpsub, hpctx⟩ := hparent
  rw [parentOKb_node] at hpsub
  obtain ⟨hpxhole, hpsub2, hpC⟩ := hpsub
  rw [parentOKb_node] at hpsub2
  obtain ⟨hpy, hpA, hpB⟩ := hpsub2
  -- Freshness of the hole parent
  have hpxcase : (getN s x).parent = 0 ∨
      (∀ j ∈ inorderIdx (ITree.node (ITree.node A y B) x C), j ≠ (getN s x).parent) := by
    cases ctx with
    | nil => exact Or.inl hpxhole
    | cons hd ctx2 =>
      obtain ⟨b, p, sib⟩ := hd
      right
      intro j hj he
      have hnot := hdisj p (@ctx_members_cons b p sib ctx2).1
      rw [hpxhole] at he
      have he' : j = p := he
      exact hnot (he' ▸ hj)
  have hpxlen' : (getN s x).parent ≠ 0 → (getN s x).parent < s.nodes.length := by
    intro hne
    cases ctx with
    | nil => exact absurd hpxhole hne
    | cons hd ctx2 =>
      obtain ⟨b, p, sib⟩ := hd
      rw [hpxhole]
      exact (hidx p (ctx_mem_plug (@ctx_members_cons b p sib ctx2).1)).2
  -- The rotation hypotheses
  have H : RRotHyps s x := by
    refine ⟨hx0, hxlen, ?_, ?_, ?_, ?_, ?_, ?_, ?_, ?_, ?_, hpxlen'⟩
    · rw [← hyx]; exact hy0
    · rw [← hyx]; exact hylen
    · rw [← hyx]; exact hxy
    · rw [← hyx]
      rcases hylcase with h | h
      · rw [h]; exact fun he => hx0 he.symm
      · exact fun he => hxB (he ▸ h)
    · rw [← hyx]
      rcases hylcase with h | h
      · rw [h]; exact fun he => hy0 he.symm
      · exact fun he => hyB (he ▸ h)
    · rw [← hyx]
      rcases hylcase with h | h
      · rw [h]
        rcases Nat.eq_zero_or_pos s.nodes.length with h0 | h0
        · exact absurd (h0 ▸ hxlen) (by omega)
        · exact h0
      · exact (hidx _ (sub_mem_plug (hmemT _ (Or.inr (Or.inr (Or.inl h)))))).2
    · rcases hpxcase with h | h
      · rw [h]; exact fun he => hx0 he.symm
      · exact fun he => h x hxmemT he.symm
    · rw [← hyx]
      rcases hpxcase with h | h
      · rw [h]; exact fun he => hy0 he.symm
      · exact fun he => h y hymemT he.symm
    · intro hne
      rw [← hyx]
      rcases hpxcase with h | h
      · exact absurd h hne
      · rcases hylcase with h2 | h2
        · rw [h2]; exact hne
        · exact fun he => h _ (hmemT _ (Or.inr (Or.inr (Or.inl h2)))) he.symm
  obtain ⟨hroot', htab⟩ := right_rotate_spec s x H
  rw [← hyx] at hroot' htab
  -- Pointwise frame facts
  have hfrLR : ∀ j, j ≠ x → j ≠ y →
      ((getN s x).parent = 0 ∨ j ≠ (getN s x).parent) →
      (getN (right_rotate s x) j).left = (getN s j).left ∧
        (getN (right_rotate s x) j).right = (getN s j).right := by
    intro j h1 h2 h3
    have h5 : ¬((getN s x).parent ≠ 0 ∧ j = (getN s x).parent) := by
      rcases h3 with h3 | h3
      · exact fun hc => hc.1 h3
      · exact fun hc => h3 hc.2
    rw [htab j, if_neg h1, if_neg h2]
    by_cases h4 : (getN s y).right ≠ 0 ∧ j = (getN s y).right
    · rw [if_pos h4]
      exact ⟨rfl, rfl⟩
    · rw [if_neg h4, if_neg h5]
      exact ⟨rfl, rfl⟩
  have hfrP : ∀ j, j ≠ x → j ≠ y → ((getN s y).right = 0 ∨ j ≠ (getN s y).right) →
      (getN (right_rotate s x) j).parent = (getN s j).parent := by
    intro j h1 h2 h3
    have h4 : ¬((getN s y).right ≠ 0 ∧ j = (getN s y).right) := by
      rcases h3 with h3 | h3
      · exact fun hc => hc.1 h3
      · exact fun hc => h3 hc.2
    rw [htab j, if_neg h1, if_neg h2, if_neg h4]
    by_cases h5 : (getN s x).parent ≠ 0 ∧ j = (getN s x).parent
    · rw [if_pos h5]
      by_cases h6 : x = (getN s ((getN s x).parent)).right
      · rw [if_pos h6]
      · rw [if_neg h6]
    · rw [if_neg h5]
  -- Field values at the hot indices
  have hyne : y ≠ x := Ne.symm hxy
  have hx'r : (getN (right_rotate s x) x).right = (getN s x).right := by
    rw [htab x, if_pos rfl]
  have hx'l : (getN (right_rotate s x) x).left = (getN s y).right := by
    rw [htab x, if_pos rfl]
  have hx'p : (getN (right_rotate s x) x).parent = y := by
    rw [htab x, if_pos rfl]
  have hy'r : (getN (right_rotate s x) y).right = x := by
    rw [htab y, if_neg hyne, if_pos rfl]
  have hy'l : (getN (right_rotate s x) y).left = (getN s y).left := by
    rw [htab y, if_neg hyne, if_pos rfl]
  have hy'p : (getN (right_rotate s x) y).parent = (getN s x).parent := by
    rw [htab y, if_neg hyne, if_pos rfl]
  -- Extraction of the pieces in the rotated arena
  have hExtA' : Ext (right_rotate s x) (getN s y).left A := by
    refine Ext_frame hExtA ?_
    intro j hj
    refine hfrLR j (fun he => hxA (he ▸ hj)) (fun he => hyA (he ▸ hj)) ?_
    rcases hpxcase with h | h
    · exact Or.inl h
    · exact Or.inr (h j (hmemT j (Or.inl hj)))
  have hExtB' : Ext (right_rotate s x) (getN s y).right B := by
    refine Ext_frame hExtB ?_
    intro j hj
    refine hfrLR j (fun he => hxB (he ▸ hj)) (fun he => hyB (he ▸ hj)) ?_
    rcases hpxcase with h | h
    · exact Or.inl h
    · exact Or.inr (h j (hmemT j (Or.inr (Or.inr (Or.inl hj)))))
  have hExtC' : Ext (right_rotate s x) (getN s x).right C := by
    refine Ext_frame hExtC ?_
    intro j hj
    refine hfrLR j (fun he => hxnotC (he ▸ hj)) (fun he => hyC (he ▸ hj)) ?_
    rcases hpxcase with h | h
    · exact Or.inl h
    · exact Or.inr (h j (hmemT j (Or.inr (Or.inr (Or.inr (Or.inr hj))))))
  have hExtBX : Ext (right_rotate s x) x (ITree.node B x C) := by
    refine Ext_node_intro hx0 ?_ ?_
    · rw [hx'l]; exact hExtB'
    · rw [hx'r]; exact hExtC'
  have hExtNew : Ext (right_rotate s x) y (ITree.node A y (ITree.node B x C)) := by
    refine Ext_node_intro hy0 ?_ ?_
    · rw [hy'l]; exact hExtA'
    · rw [hy'r]; exact hExtBX
  refine ⟨?_, ?_, ?_, (right_rotate_misc s x).1, (right_rotate_misc s x).2.1,
    (right_rotate_misc s x).2.2.1, (right_rotate_misc s x).2.2.2⟩
  · -- Extraction of the rotated whole tree at the new root
    have hrootEq : (right_rotate s x).root_ = plugRootIdx ctx y := by
      rw [hroot']
      cases ctx with
      | nil =>
        rw [if_pos (show (getN s x).parent = 0 from hpxhole)]
        rfl
      | cons hd ctx2 =>
        obtain ⟨b, p, sib⟩ := hd
        have hp0 : p ≠ 0 := by
          cases b
          · exact hreal.1
          · exact hreal.1
        have hpne : (getN s x).parent ≠ 0 := by rw [hpxhole]; exact hp0
        rw [if_neg hpne, hr0]
        rfl
    have hreal' : ctxRealized (right_rotate s x) ctx y := by
      cases ctx with
      | nil => trivial
      | cons hd ctx2 =>
        obtain ⟨b, p, sib⟩ := hd
        have hfresh := ctx_head_fresh hnctx
        have hpfull := (@ctx_members_cons b p sib ctx2).1
        have hsibfull := (@ctx_members_cons b p sib ctx2).2.1
        have hrestfull := (@ctx_members_cons b p sib ctx2).2.2
        have hpnotsub : p ∉ inorderIdx (ITree.node (ITree.node A y B) x C) := hdisj p hpfull
        have hpnx : p ≠ x := fun he => hpnotsub (by rw [he]; exact hxmemT)
        have hpny : p ≠ y := fun he => hpnotsub (by rw [he]; exact hymemT)
        have hpxp : (getN s x).parent = p := hpxhole
        have hppos : ¬((getN s y).right ≠ 0 ∧ p = (getN s y).right) := by
          rintro ⟨hyl0, he⟩
          rcases hylcase with h | h
          · exact hyl0 h
          · exact hpnotsub (by rw [he]; exact hmemT _ (Or.inr (Or.inr (Or.inl h))))
        cases b with
        | true =>
          simp only [ctxRealized] at hreal ⊢
          obtain ⟨hp0, hfield, hsib, hreal2⟩ := hreal
          have hgp : getN (right_rotate s x) p =
              (if x = (getN s p).right then { getN s p with right := y }
               else { getN s p with left := y }) := by
            rw [htab p, if_neg hpnx, if_neg hpny, if_neg hppos,
              if_pos (show (getN s x).parent ≠ 0 ∧ p = (getN s x).parent from
                ⟨by rw [hpxp]; exact hp0, hpxp.symm⟩), hpxp]
          have hsibcase : (getN s p).right = 0 ∨ (getN s p).right ∈ inorderIdx sib := by
            have hsr : rootIdx sib = (getN s p).right := Ext_rootIdx hsib
            cases sib with
            | leaf => exact Or.inl hsr.symm
            | node sl si sr2 =>
              right
              have hsi : si = (getN s p).right := by simpa [rootIdx] using hsr
              rw [← hsi]
              simp
          have hxnr : ¬(x = (getN s p).right) := by
            intro he
            rcases hsibcase with h | h
            · exact hx0 (he.trans h)
            · exact hdisj x (hsibfull _ (by rw [he]; exact h)) hxmemT
          refine ⟨hp0, ?_, ?_, ?_⟩
          · rw [hgp, if_neg hxnr]
          · have hpr : (getN (right_rotate s x) p).right = (getN s p).right := by
              rw [hgp, if_neg hxnr]
            rw [hpr]
            refine Ext_frame hsib ?_
            intro j hj
            have hjnotsub := hdisj j (hsibfull j hj)
            refine hfrLR j (fun he => hjnotsub (by rw [he]; exact hxmemT))
              (fun he => hjnotsub (by rw [he]; exact hymemT)) ?_
            right
            rw [hpxp]
            exact fun he => hfresh.1 (he ▸ hj)
          · refine ctxRealized_frame ?_ hreal2
            intro j hj
            have hjnotsub := hdisj j (hrestfull j hj)
            refine hfrLR j (fun he => hjnotsub (by rw [he]; exact hxmemT))
              (fun he => hjnotsub (by rw [he]; exact hymemT)) ?_
            right
            rw [hpxp]
            exact hfresh.2 j hj
        | false =>
          simp only [ctxRealized] at hreal ⊢
          obtain ⟨hp0, hfield, hsib, hreal2⟩ := hreal
          have hgp : getN (right_rotate s x) p =
              (if x = (getN s p).right then { getN s p with right := y }
               else { getN s p with left := y }) := by
            rw [htab p, if_neg hpnx, if_neg hpny, if_neg hppos,
              if_pos (show (getN s x).parent ≠ 0 ∧ p = (getN s x).parent from
                ⟨by rw [hpxp]; exact hp0, hpxp.symm⟩), hpxp]
          refine ⟨hp0, ?_, ?_, ?_⟩
          · rw [hgp, if_pos hfield.symm]
          · have hpr : (getN (right_rotate s x) p).left = (getN s p).left := by
              rw [hgp, if_pos hfield.symm]
            rw [hpr]
            refine Ext_frame hsib ?_
            intro j hj
            have hjnotsub := hdisj j (hsibfull j hj)
            refine hfrLR j (fun he => hjnotsub (by rw [he]; exact hxmemT))
              (fun he => hjnotsub (by rw [he]; exact hymemT)) ?_
            right
            rw [hpxp]
            exact fun he => hfresh.1 (he ▸ hj)
          · refine ctxRealized_frame ?_ hreal2
            intro j hj
            have hjnotsub := hdisj j (hrestfull j hj)
            refine hfrLR j (fun he => hjnotsub (by rw [he]; exact hxmemT))
              (fun he => hjnotsub (by rw [he]; exact hymemT)) ?_
            right
            rw [hpxp]
            exact hfresh.2 j hj
    rw [hrootEq]
    exact Ext_plug_intro hreal' hExtNew
  · -- Parent coherence of the rotated tree
    rw [parentOKb_plug]
    constructor
    · rw [parentOKb_node]
      refine ⟨by rw [hy'p]; exact hpxhole, ?_, ?_⟩
      · have hagA : ∀ j ∈ inorderIdx A,
            (getN (right_rotate s x) j).parent = (getN s j).parent := by
          intro j hj
          refine hfrP j (fun he => hxA (he ▸ hj)) (fun he => hyA (he ▸ hj)) ?_
          rcases hylcase with h | h
          · exact Or.inl h
          · exact Or.inr (fun he => hdisjA2 hj (by rw [he]; exact List.mem_cons.mpr (Or.inr h)))
        rw [parentOKb_frame hagA]
        exact hpA
      · rw [parentOKb_node]
        refine ⟨hx'p, ?_, ?_⟩
        · cases B with
          | leaf => rfl
          | node bl bi br =>
            have hbi : bi = (getN s y).right := by simpa [rootIdx] using hBroot
            have hbimem : bi ∈ inorderIdx (ITree.node bl bi br) := by simp
            have hbix : bi ≠ x := fun he => hxB (he ▸ hbimem)
            have hbiy : bi ≠ y := fun he => hyB (he ▸ hbimem)
            have hbi0 : bi ≠ 0 :=
              (hidx bi (sub_mem_plug (hmemT bi (Or.inr (Or.inr (Or.inl hbimem)))))).1
            rw [inorderIdx_node, List.nodup_append] at hnB
            obtain ⟨hnbl, hnbr', hdisjbl⟩ := hnB
            rw [List.nodup_cons] at hnbr'
            obtain ⟨hbinotbr, hnbr⟩ := hnbr'
            rw [parentOKb_node] at hpB
            obtain ⟨-, hpbl, hpbr⟩ := hpB
            rw [parentOKb_node]
            refine ⟨?_, ?_, ?_⟩
            · rw [htab bi, if_neg hbix, if_neg hbiy,
                if_pos (show (getN s y).right ≠ 0 ∧ bi = (getN s y).right from
                  ⟨hbi ▸ hbi0, hbi⟩)]
            · have hag : ∀ j ∈ inorderIdx bl,
                  (getN (right_rotate s x) j).parent = (getN s j).parent := by
                intro j hj
                refine hfrP j (fun he => hxB (by rw [← he]; simp [hj]))
                  (fun he => hyB (by rw [← he]; simp [hj])) ?_
                exact Or.inr (fun he => hdisjbl hj (by rw [he, ← hbi]; simp))
              rw [parentOKb_frame hag]
              exact hpbl
            · have hag : ∀ j ∈ inorderIdx br,
                  (getN (right_rotate s x) j).parent = (getN s j).parent := by
                intro j hj
                refine hfrP j (fun he => hxB (by rw [← he]; simp [hj]))
                  (fun he => hyB (by rw [← he]; simp [hj])) ?_
                exact Or.inr (fun he => hbinotbr (by rw [hbi, ← he]; exact hj))
              rw [parentOKb_frame hag]
              exact hpbr
        · have hagC : ∀ j ∈ inorderIdx C,
              (getN (right_rotate s x) j).parent = (getN s j).parent := by
            intro j hj
            refine hfrP j (fun he => hxnotC (he ▸ hj)) (fun he => hyC (he ▸ hj)) ?_
            rcases hylcase with h | h
            · exact Or.inl h
            · exact Or.inr (fun he => hdisjAY
                (show (getN s y).right ∈ inorderIdx A ++ y :: inorderIdx B by simp [h])
                (List.mem_cons.mpr (Or.inr (he ▸ hj))))
          rw [parentOKb_frame hagC]
          exact hpC
    · have hagctx : ∀ j ∈ ctxPreIdx ctx ++ ctxPostIdx ctx,
          (getN (right_rotate s x) j).parent = (getN s j).parent := by
        intro j hj
        have hjnotsub := hdisj j hj
        refine hfrP j (fun he => hjnotsub (by rw [he]; exact hxmemT))
          (fun he => hjnotsub (by rw [he]; exact hymemT)) ?_
        rcases hylcase with h | h
        · exact Or.inl h
        · exact Or.inr (fun he =>
            hjnotsub (by rw [he]; exact hmemT _ (Or.inr (Or.inr (Or.inl h)))))
      rw [ctxParentOKb_frame hagctx]
      exact hpctx
  · -- Data and colors are untouched
    intro j
    rw [htab j]
    split_ifs with h1 h2 h3 h4 h5
    · subst h1; exact ⟨rfl, rfl⟩
    · subst h2; exact ⟨rfl, rfl⟩
    · exact ⟨rfl, rfl⟩
    · exact ⟨rfl, rfl⟩
    · exact ⟨rfl, rfl⟩
    · exact ⟨rfl, rfl⟩

/-! ### Support lemmas for the insert fix-up argument -/

@[simp] theorem size_setColor (s : Set) (i : Nat) (c : NodeColor) :
    (setColor s i c).size_ = s.size_ := rfl

@[simp] theorem head_setColor (s : Set) (i : Nat) (c : NodeColor) :
    (setColor s i c).head_ = s.head_ := rfl

@[simp] theorem tail_setColor (s : Set) (i : Nat) (c : NodeColor) :
    (setColor s i c).tail_ = s.tail_ := rfl

theorem Ext_setColor {s : Set} {i : Nat} {t : ITree} (k : Nat) (c : NodeColor)
    (h : Ext s i t) : Ext (setColor s k c) i t :=
  Ext_frame h (fun j _ => ⟨(setColor_shape s k c j).1, (setColor_shape s k c j).2.1⟩)

theorem parentOKb_setColor (s : Set) (k : Nat) (c : NodeColor) (t : ITree) (p : Nat) :
    parentOKb (setColor s k c) t p = parentOKb s t p :=
  parentOKb_frame (fun j _ => (setColor_shape s k c j).2.2.2)

theorem ctxParentOKb_setColor (s : Set) (k : Nat) (c : NodeColor)
    (ctx : List (Bool × Nat × ITree)) :
    ctxParentOKb (setColor s k c) ctx = ctxParentOKb s ctx :=
  ctxParentOKb_frame (fun j _ => (setColor_shape s k c j).2.2.2)

theorem ctxRealized_setColor {s : Set} {ctx : List (Bool × Nat × ITree)} {h : Nat}
    (k : Nat) (c : NodeColor) (hr : ctxRealized s ctx h) :
    ctxRealized (setColor s k c) ctx h :=
  ctxRealized_frame (fun j _ => ⟨(setColor_shape s k c j).1, (setColor_shape s k c j).2.1⟩) hr

theorem color_setColor_other {s : Set} {k j : Nat} (h : k ≠ j) (c : NodeColor) :
    (getN (setColor s k c) j).color = (getN s j).color := by
  rw [getN_setColor_other h]

theorem color_setColor_same {s : Set} {k : Nat} (h : k < s.nodes.length) (c : NodeColor) :
    (getN (setColor s k c) k).color = c := by
  rw [getN_setColor_same h]

/-- Dropping the innermost context frame keeps the member list duplicate-free. -/
theorem nodup_ctx_tail {b : Bool} {p : Nat} {sib : ITree} {ctx : List (Bool × Nat × ITree)}
    (h : (ctxPreIdx ((b, p, sib) :: ctx) ++ ctxPostIdx ((b, p, sib) :: ctx)).Nodup) :
    (ctxPreIdx ctx ++ ctxPostIdx ctx).Nodup := by
  cases b
  · simp only [ctxPreIdx, ctxPostIdx] at h
    refine h.sublist ?_
    rw [List.append_assoc]
    exact (List.sublist_append_right _ _).append_left _
  · simp only [ctxPreIdx, ctxPostIdx] at h
    refine h.sublist ?_
    exact (List.sublist_append_right _ _).append_left _

/-- The root of a plugged nonempty context is one of the context members. -/
theorem plugRootIdx_mem : ∀ {ctx : List (Bool × Nat × ITree)} {h : Nat}, ctx ≠ [] →
    plugRootIdx ctx h ∈ ctxPreIdx ctx ++ ctxPostIdx ctx := by
  intro ctx
  induction ctx with
  | nil => intro h hne; exact absurd rfl hne
  | cons hd ctx ih =>
    intro h _
    obtain ⟨b, p, sib⟩ := hd
    by_cases hc : ctx = []
    · subst hc
      cases b <;> simp [plugRootIdx, ctxPreIdx, ctxPostIdx]
    · rw [plugRootIdx]
      exact (@ctx_members_cons b p sib ctx).2.2 _ (ih hc)

/-- If the whole tree has a black height, so does the plugged subtree. -/
theorem bhOf_plug_isSome {s : Set} {ctx : List (Bool × Nat × ITree)} {sub : ITree}
    (h : (bhOf s (plug ctx sub)).isSome = true) : (bhOf s sub).isSome = true := by
  cases hs : bhOf s sub with
  | none => rw [bhOf_plug_none ctx hs] at h; cases h
  | some n => rfl

theorem topColor_node (s : Set) (l : ITree) (i : Nat) (r : ITree) :
    topColor s (ITree.node l i r) = (getN s i).color := rfl

theorem topColor_leaf (s : Set) : topColor s ITree.leaf = NodeColor.BLACK := rfl

/-- Truth conditions of one `ctxRRb` frame. -/
theorem ctxRRb_cons_true {s : Set} {b : Bool} {p : Nat} {sib : ITree}
    {ctx : List (Bool × Nat × ITree)} {hc : NodeColor} :
    ctxRRb s ((b, p, sib) :: ctx) hc = true ↔
      (noRedRedb s sib = true ∧
        ((getN s p).color = NodeColor.RED → topColor s sib = NodeColor.BLACK ∧
          hc = NodeColor.BLACK) ∧
        ctxRRb s ctx ((getN s p).color) = true) := by
  cases hcp : (getN s p).color <;> cases hts : topColor s sib <;> cases hc <;>
    simp [ctxRRb, hcp, hts]

/-- Truth conditions of one `noRedRedb` node. -/
theorem noRedRedb_node_true {s : Set} {l : ITree} {i : Nat} {r : ITree} :
    noRedRedb s (ITree.node l i r) = true ↔
      (((getN s i).color = NodeColor.RED → topColor s l = NodeColor.BLACK ∧
        topColor s r = NodeColor.BLACK) ∧
        noRedRedb s l = true ∧ noRedRedb s r = true) := by
  cases hcp : (getN s i).color <;> cases htl : topColor s l <;> cases htr : topColor s r <;>
    simp [noRedRedb, hcp, htl, htr]

theorem bhOf_node_elim {s : Set} {l : ITree} {i : Nat} {r : ITree} {n : Nat}
    (h : bhOf s (ITree.node l i r) = some n) :
    ∃ a, bhOf s l = some a ∧ bhOf s r = some a ∧
      n = a + (if (getN s i).color = NodeColor.BLACK then 1 else 0) := by
  rw [bhOf] at h
  cases hl : bhOf s l with
  | none => cases hr : bhOf s r <;> simp [hl, hr] at h
  | some a =>
    cases hr : bhOf s r with
    | none => simp [hl, hr] at h
    | some b =>
      simp only [hl, hr] at h
      by_cases hab : a = b
      · subst hab
        rw [if_pos rfl] at h
        injection h with h
        exact ⟨a, rfl, rfl, h.symm⟩
      · rw [if_neg hab] at h; cases h

theorem bhOf_node_intro {s : Set} {l : ITree} {r : ITree} {a : Nat} (i : Nat)
    (hl : bhOf s l = some a) (hr : bhOf s r = some a) :
    bhOf s (ITree.node l i r) =
      some (a + (if (getN s i).color = NodeColor.BLACK then 1 else 0)) := by
  rw [bhOf]
  simp [hl, hr]

theorem plug_append : ∀ (c1 c2 : List (Bool × Nat × ITree)) (t : ITree),
    plug (c1 ++ c2) t = plug c2 (plug c1 t) := by
  intro c1
  induction c1 with
  | nil => intro c2 t; rfl
  | cons hd c1 ih =>
    intro c2 t
    obtain ⟨b, p, sib⟩ := hd
    cases b
    · rw [List.cons_append, plug, plug, ih]
    · rw [List.cons_append, plug, plug, ih]

theorem rootIdx_plug : ∀ (ctx : List (Bool × Nat × ITree)) (t : ITree),
    rootIdx (plug ctx t) = plugRootIdx ctx (rootIdx t) := by
  intro ctx
  induction ctx with
  | nil => intro t; rfl
  | cons hd ctx ih =>
    intro t
    obtain ⟨b, p, sib⟩ := hd
    cases b
    · rw [plug, plugRootIdx, ih, rootIdx]
    · rw [plug, plugRootIdx, ih, rootIdx]

/-- Sibling members of the innermost frame are distinct from all deeper
context members. -/
theorem ctx_sib_disj {b : Bool} {p : Nat} {sib : ITree}
    {ctx : List (Bool × Nat × ITree)}
    (h : (ctxPreIdx ((b, p, sib) :: ctx) ++ ctxPostIdx ((b, p, sib) :: ctx)).Nodup) :
    ∀ j ∈ inorderIdx sib, ∀ k ∈ ctxPreIdx ctx ++ ctxPostIdx ctx, j ≠ k := by
  intro j hj k hk he
  subst he
  rw [List.mem_append] at hk
  cases b
  · simp only [ctxPreIdx, ctxPostIdx] at h
    have h' : ((ctxPreIdx ctx ++ (inorderIdx sib ++ [p])) ++ ctxPostIdx ctx).Nodup := h
    rw [List.nodup_append] at h'
    obtain ⟨hpre, hpost, hdisj⟩ := h'
    rw [List.nodup_append] at hpre
    obtain ⟨hpre1, hpre2, hdisj2⟩ := hpre
    rcases hk with hk | hk
    · exact hdisj2 hk (by simp [hj])
    · exact hdisj (by simp [hj]) hk
  · simp only [ctxPreIdx, ctxPostIdx] at h
    have h' : (ctxPreIdx ctx ++ ((p :: inorderIdx sib) ++ ctxPostIdx ctx)).Nodup := h
    rw [List.nodup_append] at h'
    obtain ⟨hpre, hrest, hdisj⟩ := h'
    rw [List.nodup_append] at hrest
    obtain ⟨hcons, hpost, hdisj2⟩ := hrest
    rcases hk with hk | hk
    · exact hdisj hk (by simp [hj])
    · exact hdisj2 (by simp [hj]) hk

/-- The sibling of the innermost frame has duplicate-free members. -/
theorem ctx_head_sib_nodup {b : Bool} {p : Nat} {sib : ITree}
    {ctx : List (Bool × Nat × ITree)}
    (h : (ctxPreIdx ((b, p, sib) :: ctx) ++ ctxPostIdx ((b, p, sib) :: ctx)).Nodup) :
    (inorderIdx sib).Nodup := by
  cases b
  · simp only [ctxPreIdx, ctxPostIdx] at h
    have h' : ((ctxPreIdx ctx ++ (inorderIdx sib ++ [p])) ++ ctxPostIdx ctx).Nodup := h
    rw [List.nodup_append] at h'
    obtain ⟨hpre, -, -⟩ := h'
    rw [List.nodup_append] at hpre
    obtain ⟨-, hmid, -⟩ := hpre
    rw [List.nodup_append] at hmid
    exact hmid.1
  · simp only [ctxPreIdx, ctxPostIdx] at h
    have h' : (ctxPreIdx ctx ++ ((p :: inorderIdx sib) ++ ctxPostIdx ctx)).Nodup := h
    rw [List.nodup_append] at h'
    obtain ⟨-, hrest, -⟩ := h'
    rw [List.nodup_append] at hrest
    obtain ⟨hcons, -, -⟩ := hrest
    rw [List.nodup_cons] at hcons
    exact hcons.2

theorem ctxBH_cons_elim {s : Set} {b : Bool} {p : Nat} {sib : ITree}
    {ctx : List (Bool × Nat × ITree)} {n : Nat}
    (h : (ctxBH s ((b, p, sib) :: ctx) n).isSome = true) :
    bhOf s sib = some n ∧
      (ctxBH s ctx (n + (if (getN s p).color = NodeColor.BLACK then 1 else 0))).isSome
        = true := by
  rw [ctxBH] at h
  cases hs : bhOf s sib with
  | none => simp [hs] at h
  | some m =>
    simp only [hs] at h
    by_cases hmn : m = n
    · subst hmn
      rw [if_pos rfl] at h
      exact ⟨rfl, h⟩
    · rw [if_neg hmn] at h; cases h

theorem ctxBH_cons_intro {s : Set} {sib : ITree} {n : Nat} (b : Bool) (p : Nat)
    (ctx : List (Bool × Nat × ITree)) (hs : bhOf s sib = some n) :
    ctxBH s ((b, p, sib) :: ctx) n =
      ctxBH s ctx (n + (if (getN s p).color = NodeColor.BLACK then 1 else 0)) := by
  rw [ctxBH]
  simp [hs]

theorem topColor_black_of_not_red {s : Set} {t : ITree}
    (h : ¬ (getN s (rootIdx t)).color = NodeColor.RED) :
    topColor s t = NodeColor.BLACK := by
  cases t with
  | leaf => rfl
  | node l i r =>
    rw [topColor_node]
    cases hc : (getN s i).color
    · rfl
    · exact absurd (by rw [rootIdx, hc]) h

/-- Peeling the two innermost frames from the black height of the whole
tree, in the configuration of the fix-up loop (current RED, parent RED,
grandparent BLACK). -/
theorem fix_bh_peel {s : Set} {b1 b2 : Bool} {p gp x : Nat}
    {sib1 sib2 SL SR : ITree} {ctx2 : List (Bool × Nat × ITree)}
    (hbh : (bhOf s (plug ((b1, p, sib1) :: (b2, gp, sib2) :: ctx2)
      (ITree.node SL x SR))).isSome = true)
    (hxred : (getN s x).color = NodeColor.RED)
    (hpr : (getN s p).color = NodeColor.RED)
    (hgpb : (getN s gp).color = NodeColor.BLACK) :
    ∃ a, bhOf s SL = some a ∧ bhOf s SR = some a ∧
      bhOf s (ITree.node SL x SR) = some a ∧
      bhOf s sib1 = some a ∧ bhOf s sib2 = some a ∧
      (ctxBH s ctx2 (a + 1)).isSome = true := by
  have hTeq : plug ctx2 (plug [(b1, p, sib1), (b2, gp, sib2)] (ITree.node SL x SR)) =
      plug ((b1, p, sib1) :: (b2, gp, sib2) :: ctx2) (ITree.node SL x SR) := by
    rw [← plug_append]
    rfl
  rw [← hTeq] at hbh
  have hsome := bhOf_plug_isSome hbh
  cases hbhgp : bhOf s (plug [(b1, p, sib1), (b2, gp, sib2)] (ITree.node SL x SR)) with
  | none => rw [hbhgp] at hsome; cases hsome
  | some n =>
  have hsubsome : (bhOf s (ITree.node SL x SR)).isSome = true := by
    refine @bhOf_plug_isSome s [(b1, p, sib1), (b2, gp, sib2)] (ITree.node SL x SR) ?_
    rw [hbhgp]
    rfl
  cases hbhsub : bhOf s (ITree.node SL x SR) with
  | none => rw [hbhsub] at hsubsome; cases hsubsome
  | some a =>
  have e2 : (ctxBH s [(b1, p, sib1), (b2, gp, sib2)] a).isSome = true := by
    rw [← bhOf_plug hbhsub, hbhgp]
    rfl
  obtain ⟨hbhsib1, hrest1⟩ := ctxBH_cons_elim e2
  rw [hpr] at hrest1
  simp only [reduceCtorEq, if_false, Nat.add_zero] at hrest1
  obtain ⟨hbhsib2, -⟩ := ctxBH_cons_elim hrest1
  obtain ⟨c, hSL, hSR, hceq⟩ := bhOf_node_elim hbhsub
  rw [hxred] at hceq
  simp only [reduceCtorEq, if_false, Nat.add_zero] at hceq
  subst hceq
  have echain : ctxBH s [(b1, p, sib1), (b2, gp, sib2)] a = some (a + 1) := by
    rw [ctxBH_cons_intro b1 p _ hbhsib1, hpr]
    simp only [reduceCtorEq, if_false, Nat.add_zero]
    rw [ctxBH_cons_intro b2 gp ([] : List (Bool × Nat × ITree)) hbhsib2, hgpb]
    simp [ctxBH]
  have hna : n = a + 1 := by
    have h3 := @bhOf_plug s [(b1, p, sib1), (b2, gp, sib2)] (ITree.node SL x SR) a hbhsub
    rw [hbhgp, echain] at h3
    exact Option.some.inj h3
  refine ⟨a, hSL, hSR, rfl, hbhsib1, hbhsib2, ?_⟩
  rw [← hna, ← @bhOf_plug s ctx2 _ n hbhgp]
  exact hbh

/-! ### The insert fix-up loop invariant -/

/-- Loop invariant of `insertFixUpLoop`: the arena extracts to `plug ctx sub`,
whose indices are real, distinct and parent-coherent; the current node
(root of `sub`) is RED, `sub` is internally red-red free, the context is
red-red free excusing the hole edge, the black heights agree, and the tree
root is BLACK unless it is the current node. -/
structure FixInv (s : Set) (ctx : List (Bool × Nat × ITree)) (sub : ITree) : Prop where
  hext : Ext s s.root_ (plug ctx sub)
  hidx : ∀ j ∈ inorderIdx (plug ctx sub), j ≠ 0 ∧ j < s.nodes.length
  hnodup : (inorderIdx (plug ctx sub)).Nodup
  hparent : parentOKb s (plug ctx sub) 0 = true
  hsent : (getN s 0).color = NodeColor.BLACK
  hsubne : sub ≠ ITree.leaf
  hxred : (getN s (rootIdx sub)).color = NodeColor.RED
  hrrsub : noRedRedb s sub = true
  hrrctx : ctxRRb s ctx NodeColor.BLACK = true
  hbh : (bhOf s (plug ctx sub)).isSome = true
  hroot : ctx = [] ∨ (getN s (plugRootIdx ctx (rootIdx sub))).color = NodeColor.BLACK

/-- Postcondition of `insertFixUpLoop`: it returns a state that still
extracts to a tree with the same in-order indices and data, the same
bookkeeping fields, parent coherence, a black sentinel, no red-red edge
anywhere and a well-defined black height. -/
def FixPost (s : Set) (T0 : ITree) (r : Option Set) : Prop :=
  ∃ s' T', r = some s' ∧
    Ext s' s'.root_ T' ∧
    inorderIdx T' = inorderIdx T0 ∧
    (∀ j, (getN s' j).data = (getN s j).data) ∧
    s'.nodes.length = s.nodes.length ∧
    s'.size_ = s.size_ ∧ s'.head_ = s.head_ ∧ s'.tail_ = s.tail_ ∧
    parentOKb s' T' 0 = true ∧
    (getN s' 0).color = NodeColor.BLACK ∧
    noRedRedb s' T' = true ∧
    (bhOf s' T').isSome = true

/-- The recolor case of the fix-up loop: parent and uncle both RED.
Repainting parent and uncle BLACK and the grandparent RED re-establishes
the invariant two frames up. -/
theorem fixInv_recolor {s : Set} {ctx2 : List (Bool × Nat × ITree)}
    {SL SR sib1 : ITree} {s2l s2r : ITree} {b1 b2 : Bool} {x p gp ui : Nat}
    (inv : FixInv s ((b1, p, sib1) :: (b2, gp, ITree.node s2l ui s2r) :: ctx2)
      (ITree.node SL x SR))
    (hpr : (getN s p).color = NodeColor.RED)
    (hured : (getN s ui).color = NodeColor.RED) :
    FixInv (setColor (setColor (setColor s p NodeColor.BLACK) ui NodeColor.BLACK)
        gp NodeColor.RED) ctx2
      (plug [(b1, p, sib1), (b2, gp, ITree.node s2l ui s2r)] (ITree.node SL x SR)) := by
  obtain ⟨hext, hidx, hnodup, hparent, hsent, -, hxred, hrrsub, hrrctx, hbh, hroot⟩ := inv
  simp only [rootIdx] at hxred hroot
  -- parent-link decomposition
  have hparent2 := hparent
  rw [parentOKb_plug, parentOKb_node] at hparent2
  obtain ⟨⟨hpx, hpSL, hpSR⟩, hpctx⟩ := hparent2
  simp only [ctxParentOKb, Bool.and_eq_true, beq_iff_eq, holeParentD_cons] at hpctx
  obtain ⟨⟨hpgp, hpsib1⟩, ⟨hgppar, hpsib2⟩, hpctx2⟩ := hpctx
  -- red-red decomposition
  rw [ctxRRb_cons_true] at hrrctx
  obtain ⟨hnrrsib1, himp1, hrrctx1⟩ := hrrctx
  obtain ⟨htops1, -⟩ := himp1 hpr
  rw [hpr, ctxRRb_cons_true] at hrrctx1
  obtain ⟨hnrrsib2, himp2, hrrctx2⟩ := hrrctx1
  have hgpb : (getN s gp).color = NodeColor.BLACK := by
    cases hgc : (getN s gp).color
    · rfl
    · exact absurd (himp2 hgc).2 (by simp)
  rw [hgpb] at hrrctx2
  -- duplicate-freedom infrastructure
  obtain ⟨hnsub, hnctx, hdisjs⟩ := nodup_plug_parts hnodup
  have hfresh1 := ctx_head_fresh hnctx
  have hsibdisj1 := ctx_sib_disj hnctx
  have hnctx1 := nodup_ctx_tail hnctx
  have hfresh2 := ctx_head_fresh hnctx1
  have hsibdisj2 := ctx_sib_disj hnctx1
  have hsib2nodup := ctx_head_sib_nodup hnctx1
  rw [inorderIdx_node, List.nodup_append] at hsib2nodup
  obtain ⟨hn2l, hn2cons, hdisj2lr⟩ := hsib2nodup
  rw [List.nodup_cons] at hn2cons
  obtain ⟨hui2r, hn2r⟩ := hn2cons
  have hui2l : ui ∉ inorderIdx s2l := fun hm => hdisj2lr hm (by simp)
  -- memberships
  have hmem1 := @ctx_members_cons b1 p sib1 ((b2, gp, ITree.node s2l ui s2r) :: ctx2)
  have hmem2 := @ctx_members_cons b2 gp (ITree.node s2l ui s2r) ctx2
  have hpfull := hmem1.1
  have hgp1 := hmem2.1
  have hgpfull := hmem1.2.2 _ hgp1
  have huimem : ui ∈ inorderIdx (ITree.node s2l ui s2r) := by simp
  have hui1 := hmem2.2.1 _ huimem
  have huifull := hmem1.2.2 _ hui1
  obtain ⟨hp0, hplen⟩ := hidx p (ctx_mem_plug hpfull)
  obtain ⟨hgp0, hgplen⟩ := hidx gp (ctx_mem_plug hgpfull)
  obtain ⟨hui0, huilen⟩ := hidx ui (ctx_mem_plug huifull)
  have hpui : ui ≠ p := hfresh1.2 ui hui1
  have hgpp : gp ≠ p := hfresh1.2 gp hgp1
  have huigp : ui ≠ gp := fun he => hfresh2.1 (he ▸ huimem)
  have hxmem : x ∈ inorderIdx (ITree.node SL x SR) := by simp
  have hxp : x ≠ p := fun he => hdisjs p hpfull (he ▸ hxmem)
  have hxgp : x ≠ gp := fun he => hdisjs gp hgpfull (he ▸ hxmem)
  have hxui : x ≠ ui := fun he => hdisjs ui huifull (he ▸ hxmem)
  -- the new state, pointwise
  set s1 := setColor s p NodeColor.BLACK with hs1
  set s2 := setColor s1 ui NodeColor.BLACK with hs2
  set s3 := setColor s2 gp NodeColor.RED with hs3
  have hlen3 : s3.nodes.length = s.nodes.length := by rw [hs3, hs2, hs1]; simp
  have hcol : ∀ j, j ≠ p → j ≠ ui → j ≠ gp → (getN s3 j).color = (getN s j).color := by
    intro j h1 h2 h3
    rw [hs3, color_setColor_other (Ne.symm h3), hs2, color_setColor_other (Ne.symm h2),
      hs1, color_setColor_other (Ne.symm h1)]
  have hshape : ∀ j, (getN s3 j).left = (getN s j).left ∧
      (getN s3 j).right = (getN s j).right ∧
      (getN s3 j).data = (getN s j).data ∧
      (getN s3 j).parent = (getN s j).parent := by
    intro j
    rw [hs3, hs2, hs1]
    refine ⟨?_, ?_, ?_, ?_⟩
    · rw [(setColor_shape _ _ _ _).1, (setColor_shape _ _ _ _).1, (setColor_shape _ _ _ _).1]
    · rw [(setColor_shape _ _ _ _).2.1, (setColor_shape _ _ _ _).2.1,
        (setColor_shape _ _ _ _).2.1]
    · rw [(setColor_shape _ _ _ _).2.2.1, (setColor_shape _ _ _ _).2.2.1,
        (setColor_shape _ _ _ _).2.2.1]
    · rw [(setColor_shape _ _ _ _).2.2.2, (setColor_shape _ _ _ _).2.2.2,
        (setColor_shape _ _ _ _).2.2.2]
  have hcgp : (getN s3 gp).color = NodeColor.RED := by
    rw [hs3]
    exact color_setColor_same (by rw [hs2, hs1]; simpa using hgplen) _
  have hcp : (getN s3 p).color = NodeColor.BLACK := by
    rw [hs3, color_setColor_other hgpp, hs2, color_setColor_other hpui, hs1,
      color_setColor_same hplen]
  have hcui : (getN s3 ui).color = NodeColor.BLACK := by
    rw [hs3, color_setColor_other (Ne.symm huigp), hs2]
    exact color_setColor_same (by rw [hs1]; simpa using huilen) _
  -- color agreement on the various regions
  have hag_sub : ∀ j ∈ inorderIdx (ITree.node SL x SR),
      (getN s3 j).color = (getN s j).color := by
    intro j hj
    exact hcol j (fun he => hdisjs p hpfull (he ▸ hj))
      (fun he => hdisjs ui huifull (he ▸ hj)) (fun he => hdisjs gp hgpfull (he ▸ hj))
  have hag_sib1 : ∀ j ∈ inorderIdx sib1, (getN s3 j).color = (getN s j).color := by
    intro j hj
    exact hcol j (fun he => hfresh1.1 (he ▸ hj)) (hsibdisj1 j hj ui hui1)
      (hsibdisj1 j hj gp hgp1)
  have hag_s2l : ∀ j ∈ inorderIdx s2l, (getN s3 j).color = (getN s j).color := by
    intro j hj
    have hjsib : j ∈ inorderIdx (ITree.node s2l ui s2r) := by simp [hj]
    exact hcol j (hfresh1.2 j (hmem2.2.1 _ hjsib)) (fun he => hui2l (he ▸ hj))
      (fun he => hfresh2.1 (he ▸ hjsib))
  have hag_s2r : ∀ j ∈ inorderIdx s2r, (getN s3 j).color = (getN s j).color := by
    intro j hj
    have hjsib : j ∈ inorderIdx (ITree.node s2l ui s2r) := by simp [hj]
    exact hcol j (hfresh1.2 j (hmem2.2.1 _ hjsib)) (fun he => hui2r (he ▸ hj))
      (fun he => hfresh2.1 (he ▸ hjsib))
  have hag_ctx2 : ∀ j ∈ ctxPreIdx ctx2 ++ ctxPostIdx ctx2,
      (getN s3 j).color = (getN s j).color := by
    intro j hj
    exact hcol j (hfresh1.2 j (hmem2.2.2 _ hj))
      (fun he => (hsibdisj2 ui huimem j hj) he.symm) (hfresh2.2 j hj)
  -- tree equality through `plug_append`
  have hTeq : plug ctx2 (plug [(b1, p, sib1), (b2, gp, ITree.node s2l ui s2r)]
      (ITree.node SL x SR)) =
      plug ((b1, p, sib1) :: (b2, gp, ITree.node s2l ui s2r) :: ctx2)
        (ITree.node SL x SR) := by
    rw [← plug_append]
    rfl
  refine ⟨?_, ?_, ?_, ?_, ?_, ?_, ?_, ?_, ?_, ?_, ?_⟩
  · -- extraction
    rw [hTeq]
    have hroot3 : s3.root_ = s.root_ := by rw [hs3, hs2, hs1]; simp
    rw [hroot3, hs3, hs2, hs1]
    exact Ext_setColor _ _ (Ext_setColor _ _ (Ext_setColor _ _ hext))
  · -- index ranges
    intro j hj
    rw [hTeq] at hj
    rw [hlen3]
    exact hidx j hj
  · -- no duplicates
    rw [hTeq]
    exact hnodup
  · -- parent coherence
    rw [hTeq, parentOKb_frame (fun j _ => (hshape j).2.2.2)]
    exact hparent
  · -- black sentinel
    rw [hcol 0 (Ne.symm hp0) (Ne.symm hui0) (Ne.symm hgp0)]
    exact hsent
  · -- nonempty subtree
    intro he
    have h2 := rootIdx_plug [(b1, p, sib1), (b2, gp, ITree.node s2l ui s2r)]
      (ITree.node SL x SR)
    rw [he] at h2
    simp only [rootIdx, plugRootIdx] at h2
    exact hgp0 h2.symm
  · -- the new current node is RED
    rw [rootIdx_plug]
    exact hcgp
  · -- no red-red inside the new subtree
    rw [noRedRedb_plug]
    simp only [Bool.and_eq_true]
    constructor
    · have htop : topColor s3 (ITree.node SL x SR) = NodeColor.RED := by
        rw [topColor_node, hcol x hxp hxui hxgp]
        exact hxred
      rw [htop, ctxRRb_cons_true]
      refine ⟨?_, ?_, ?_⟩
      · rw [noRedRedb_frame hag_sib1]
        exact hnrrsib1
      · intro hc
        rw [hcp] at hc
        cases hc
      · rw [hcp, ctxRRb_cons_true]
        rw [noRedRedb_node_true] at hnrrsib2
        refine ⟨?_, ?_, ?_⟩
        · rw [noRedRedb_node_true]
          refine ⟨fun hc => ?_, ?_, ?_⟩
          · rw [hcui] at hc
            cases hc
          · rw [noRedRedb_frame hag_s2l]
            exact hnrrsib2.2.1
          · rw [noRedRedb_frame hag_s2r]
            exact hnrrsib2.2.2
        · intro hc
          exact ⟨by rw [topColor_node]; exact hcui, rfl⟩
        · rfl
    · rw [noRedRedb_frame hag_sub]
      exact hrrsub
  · -- red-red freedom of the remaining context
    rw [ctxRRb_frame hag_ctx2]
    exact hrrctx2
  · -- black height
    rw [← hTeq] at hbh
    have hsome := bhOf_plug_isSome hbh
    cases hbhgp : bhOf s (plug [(b1, p, sib1), (b2, gp, ITree.node s2l ui s2r)]
        (ITree.node SL x SR)) with
    | none => rw [hbhgp] at hsome; cases hsome
    | some n =>
    have hsubsome : (bhOf s (ITree.node SL x SR)).isSome = true := by
      refine @bhOf_plug_isSome s [(b1, p, sib1), (b2, gp, ITree.node s2l ui s2r)] _ ?_
      rw [hbhgp]
      rfl
    cases hbhsub : bhOf s (ITree.node SL x SR) with
    | none => rw [hbhsub] at hsubsome; cases hsubsome
    | some a =>
    have e1 : bhOf s (plug [(b1, p, sib1), (b2, gp, ITree.node s2l ui s2r)]
        (ITree.node SL x SR)) = ctxBH s [(b1, p, sib1), (b2, gp, ITree.node s2l ui s2r)] a :=
      bhOf_plug hbhsub
    have e2 : (ctxBH s [(b1, p, sib1), (b2, gp, ITree.node s2l ui s2r)] a).isSome = true := by
      rw [← e1, hbhgp]
      rfl
    obtain ⟨hbhsib1, hrest1⟩ := ctxBH_cons_elim e2
    rw [hpr] at hrest1
    simp only [reduceCtorEq, if_false, Nat.add_zero] at hrest1
    obtain ⟨hbhsib2, hrest2⟩ := ctxBH_cons_elim hrest1
    -- the old value: n = a + 1
    have echain : ctxBH s [(b1, p, sib1), (b2, gp, ITree.node s2l ui s2r)] a =
        some (a + 1) := by
      rw [ctxBH_cons_intro b1 p _ hbhsib1, hpr]
      simp only [reduceCtorEq, if_false, Nat.add_zero]
      rw [ctxBH_cons_intro b2 gp ([] : List (Bool × Nat × ITree)) hbhsib2, hgpb]
      simp [ctxBH]
    have hna : n = a + 1 := by
      rw [e1, echain] at hbhgp
      injection hbhgp with h2
      exact h2.symm
    -- sib2 components
    obtain ⟨c, hbh2l, hbh2r, hceq⟩ := bhOf_node_elim hbhsib2
    rw [hured] at hceq
    simp only [reduceCtorEq, if_false, Nat.add_zero] at hceq
    -- new black heights
    have f2l : bhOf s3 s2l = some c := by rw [bhOf_frame hag_s2l]; exact hbh2l
    have f2r : bhOf s3 s2r = some c := by rw [bhOf_frame hag_s2r]; exact hbh2r
    have fsib2 : bhOf s3 (ITree.node s2l ui s2r) = some (a + 1) := by
      rw [bhOf_node_intro ui f2l f2r, hcui]
      simp [hceq]
    have fsub : bhOf s3 (ITree.node SL x SR) = some a := by
      rw [bhOf_frame hag_sub]
      exact hbhsub
    have fsib1 : bhOf s3 sib1 = some a := by
      rw [bhOf_frame hag_sib1]
      exact hbhsib1
    have egp3 : bhOf s3 (plug [(b1, p, sib1), (b2, gp, ITree.node s2l ui s2r)]
        (ITree.node SL x SR)) = some (a + 1) := by
      rw [bhOf_plug fsub, ctxBH_cons_intro b1 p _ fsib1]
      have hc1 : a + (if (getN s3 p).color = NodeColor.BLACK then 1 else 0) = a + 1 := by
        rw [hcp]
        simp
      rw [hc1, ctxBH_cons_intro b2 gp ([] : List (Bool × Nat × ITree)) fsib2]
      simp [ctxBH, hcgp]
    rw [bhOf_plug egp3, ctxBH_frame hag_ctx2]
    have : bhOf s (plug ctx2 (plug [(b1, p, sib1), (b2, gp, ITree.node s2l ui s2r)]
        (ITree.node SL x SR))) = ctxBH s ctx2 (a + 1) := by
      rw [bhOf_plug hbhgp, hna]
    rw [← this]
    exact hbh
  · -- root blackness
    by_cases hc2 : ctx2 = []
    · exact Or.inl hc2
    · right
      rw [rootIdx_plug]
      simp only [plugRootIdx, rootIdx]
      have hrmem := @plugRootIdx_mem ctx2 gp hc2
      have hronotp : plugRootIdx ctx2 gp ≠ p := hfresh1.2 _ (hmem2.2.2 _ hrmem)
      have hronotui : plugRootIdx ctx2 gp ≠ ui :=
        fun he => (hsibdisj2 ui huimem _ hrmem) he.symm
      have hronotgp : plugRootIdx ctx2 gp ≠ gp := hfresh2.2 _ hrmem
      rw [hcol _ hronotp hronotui hronotgp]
      rcases hroot with h | h
      · cases h
      · exact h

set_option maxHeartbeats 2000000 in
theorem insertFixUpLoop_ok : ∀ (fuel : Nat) (s : Set) (ctx : List (Bool × Nat × ITree))
    (sub : ITree), FixInv s ctx sub → ctx.length + 1 ≤ fuel →
    FixPost s (plug ctx sub) (insertFixUpLoop fuel s (rootIdx sub)) := by
  intro fuel
  induction fuel with
  | zero => intro s ctx sub _ hf; omega
  | succ fuel ih =>
    intro s ctx sub inv hf
    obtain ⟨hext, hidx, hnodup, hparent, hsent, hsubne, hxred, hrrsub, hrrctx, hbh, hroot⟩ := inv
    cases sub with
    | leaf => exact absurd rfl hsubne
    | node SL x SR =>
    simp only [rootIdx] at hxred hroot ⊢
    have hparent2 := hparent
    rw [parentOKb_plug, parentOKb_node] at hparent2
    obtain ⟨⟨hpx, hpSL, hpSR⟩, hpctx⟩ := hparent2
    simp only [insertFixUpLoop]
    cases ctx with
    | nil =>
      -- current node is the root: its parent is the black sentinel, exit
      have hpx0 : (getN s x).parent = 0 := hpx
      rw [hpx0, hsent]
      rw [if_neg (by simp)]
      exact ⟨s, ITree.node SL x SR, rfl, hext, rfl, fun j => rfl, rfl, rfl, rfl, rfl,
        hparent, hsent, hrrsub, hbh⟩
    | cons f1 ctx1 =>
      obtain ⟨b1, p, sib1⟩ := f1
      have hpxp : (getN s x).parent = p := hpx
      rw [hpxp]
      by_cases hpr : (getN s p).color = NodeColor.RED
      · -- parent RED: the loop body runs
        rw [if_pos hpr]
        -- the context must have at least two frames
        cases ctx1 with
        | nil =>
          exfalso
          rcases hroot with h | h
          · cases h
          · rw [plugRootIdx, plugRootIdx] at h
            rw [h] at hpr
            cases hpr
        | cons f2 ctx2 =>
          obtain ⟨b2, gp, sib2⟩ := f2
          -- decompositions
          simp only [ctxParentOKb, Bool.and_eq_true, beq_iff_eq, holeParentD_cons] at hpctx
          obtain ⟨⟨hpgp, hpsib1⟩, ⟨hgppar, hpsib2⟩, hpctx2⟩ := hpctx
          obtain ⟨hreal, hsubExt, hr0⟩ := Ext_plug_elim hext
          simp only [rootIdx] at hreal hsubExt hr0
          have hrrctxOrig := hrrctx
          rw [ctxRRb_cons_true] at hrrctx
          obtain ⟨hnrrsib1, himp1, hrrctx1⟩ := hrrctx
          obtain ⟨htops1, -⟩ := himp1 hpr
          rw [hpr, ctxRRb_cons_true] at hrrctx1
          obtain ⟨hnrrsib2, himp2, hrrctx2⟩ := hrrctx1
          have hgpb : (getN s gp).color = NodeColor.BLACK := by
            cases hgc : (getN s gp).color
            · rfl
            · exact absurd (himp2 hgc).2 (by simp)
          rw [hgpb] at hrrctx2
          rw [hpgp]
          -- duplicate-freedom and realization infrastructure
          obtain ⟨hnsub, hnctx, hdisjs⟩ := nodup_plug_parts hnodup
          have hfresh1 := ctx_head_fresh hnctx
          have hreal1 : ctxRealized s ((b2, gp, sib2) :: ctx2) p := by
            cases b1
            · exact hreal.2.2.2
            · exact hreal.2.2.2
          have hp0 : p ≠ 0 := by
            cases b1
            · exact hreal.1
            · exact hreal.1
          have hfuel2 : ctx2.length + 1 ≤ fuel := by
            simp only [List.length_cons] at hf
            omega
          have hfix : FixInv s ((b1, p, sib1) :: (b2, gp, sib2) :: ctx2)
              (ITree.node SL x SR) :=
            ⟨hext, hidx, hnodup, hparent, hsent, fun h => ITree.noConfusion h,
              hxred, hrrsub, hrrctxOrig, hbh, hroot⟩
          have hTeq : plug ctx2 (plug [(b1, p, sib1), (b2, gp, sib2)]
              (ITree.node SL x SR)) =
              plug ((b1, p, sib1) :: (b2, gp, sib2) :: ctx2) (ITree.node SL x SR) := by
            rw [← plug_append]
            rfl
          have hmem1 := @ctx_members_cons b1 p sib1 ((b2, gp, sib2) :: ctx2)
          have hmem2 := @ctx_members_cons b2 gp sib2 ctx2
          have hsibdisj1 := ctx_sib_disj hnctx
          have hnctx1 := nodup_ctx_tail hnctx
          have hfresh2 := ctx_head_fresh hnctx1
          have hsibdisj2 := ctx_sib_disj hnctx1
          have hpfull := hmem1.1
          have hgpfull := hmem1.2.2 _ hmem2.1
          obtain ⟨hp0', hplen⟩ := hidx p (ctx_mem_plug hpfull)
          obtain ⟨hgp0, hgplen⟩ := hidx gp (ctx_mem_plug hgpfull)
          have hgpp : gp ≠ p := hfresh1.2 gp hmem2.1
          have hxmem : x ∈ inorderIdx (ITree.node SL x SR) := by simp
          obtain ⟨hx0, hxlen⟩ := hidx x (sub_mem_plug hxmem)
          have hxp : x ≠ p := fun he => hdisjs p hpfull (he ▸ hxmem)
          have hxgp : x ≠ gp := fun he => hdisjs gp hgpfull (he ▸ hxmem)
          cases b2 with
          | true =>
            obtain ⟨hgp0, hfield2, hsib2Ext, hreal2⟩ := hreal1
            rw [if_pos hfield2.symm]
            have hu : (getN s gp).right = rootIdx sib2 := (Ext_rootIdx hsib2Ext).symm
            rw [hu]
            by_cases hured : (getN s (rootIdx sib2)).color = NodeColor.RED
            · -- recolor case
              rw [if_pos hured]
              cases sib2 with
              | leaf =>
                rw [rootIdx, hsent] at hured
                cases hured
              | node s2l ui s2r =>
              simp only [rootIdx] at hured ⊢
              have e1 : (getN (setColor (setColor s p NodeColor.BLACK) ui NodeColor.BLACK)
                  x).parent = p := by
                rw [(setColor_shape _ _ _ _).2.2.2, (setColor_shape _ _ _ _).2.2.2]
                exact hpxp
              rw [e1]
              have e2 : (getN (setColor (setColor s p NodeColor.BLACK) ui NodeColor.BLACK)
                  p).parent = gp := by
                rw [(setColor_shape _ _ _ _).2.2.2, (setColor_shape _ _ _ _).2.2.2]
                exact hpgp
              rw [e2]
              have e3 : (getN (setColor (setColor (setColor s p NodeColor.BLACK) ui
                  NodeColor.BLACK) gp NodeColor.RED) x).parent = p := by
                rw [(setColor_shape _ _ _ _).2.2.2]
                exact e1
              rw [e3]
              have e4 : (getN (setColor (setColor (setColor s p NodeColor.BLACK) ui
                  NodeColor.BLACK) gp NodeColor.RED) p).parent = gp := by
                rw [(setColor_shape _ _ _ _).2.2.2]
                exact e2
              rw [e4]
              have hInv3 := fixInv_recolor hfix hpr hured
              have hpost := ih _ ctx2 _ hInv3 hfuel2
              rw [show rootIdx (plug [(b1, p, sib1), (true, gp, ITree.node s2l ui s2r)]
                  (ITree.node SL x SR)) = gp from by
                rw [rootIdx_plug]
                rfl] at hpost
              obtain ⟨s', T', hrun, hExt', hio, hdata, hlen, hsize, hhead, htail,
                hpOK, hsent', hrr', hbh'⟩ := hpost
              refine ⟨s', T', hrun, hExt', ?_, ?_, ?_, ?_, ?_, ?_, hpOK, hsent', hrr', hbh'⟩
              · rw [hio, hTeq]
              · intro j
                rw [hdata j, (setColor_shape _ _ _ _).2.2.1, (setColor_shape _ _ _ _).2.2.1,
                  (setColor_shape _ _ _ _).2.2.1]
              · rw [hlen]
                simp
              · rw [hsize]
                rfl
              · rw [hhead]
                rfl
              · rw [htail]
                rfl
            · -- rotation case
              rw [if_neg hured]
              have htops2 : topColor s sib2 = NodeColor.BLACK :=
                topColor_black_of_not_red hured
              cases b1 with
              | true =>
                -- zig-zig: x is the left child of p
                obtain ⟨-, hfield1, hsib1Ext, -⟩ := hreal
                have hcond1 : ¬(x = (getN s p).right) := by
                  intro he
                  have hr1 : rootIdx sib1 = (getN s p).right := Ext_rootIdx hsib1Ext
                  cases sib1 with
                  | leaf =>
                    rw [rootIdx] at hr1
                    exact hx0 (he.trans hr1.symm)
                  | node l1 i1 r1 =>
                    rw [rootIdx] at hr1
                    have hi1mem : i1 ∈ inorderIdx (ITree.node l1 i1 r1) := by simp
                    have hi1full := hmem1.2.1 _ hi1mem
                    exact hdisjs i1 hi1full ((he.trans hr1.symm) ▸ hxmem)
                rw [if_neg hcond1]
                dsimp only
                rw [hpxp]
                rw [show (getN (setColor s p NodeColor.BLACK) x).parent = p from by
                  rw [(setColor_shape _ _ _ _).2.2.2]; exact hpxp]
                rw [show (getN (setColor s p NodeColor.BLACK) p).parent = gp from by
                  rw [(setColor_shape _ _ _ _).2.2.2]; exact hpgp]
                rw [show (getN (setColor (setColor s p NodeColor.BLACK) gp NodeColor.RED)
                    x).parent = p from by
                  rw [(setColor_shape _ _ _ _).2.2.2, (setColor_shape _ _ _ _).2.2.2]
                  exact hpxp]
                rw [show (getN (setColor (setColor s p NodeColor.BLACK) gp NodeColor.RED)
                    p).parent = gp from by
                  rw [(setColor_shape _ _ _ _).2.2.2, (setColor_shape _ _ _ _).2.2.2]
                  exact hpgp]
                set sc := setColor (setColor s p NodeColor.BLACK) gp NodeColor.RED with hsc
                have hlen_c : sc.nodes.length = s.nodes.length := by rw [hsc]; simp
                have hccol : ∀ j, j ≠ p → j ≠ gp →
                    (getN sc j).color = (getN s j).color := by
                  intro j h1 h2
                  rw [hsc, color_setColor_other (Ne.symm h2), color_setColor_other (Ne.symm h1)]
                have hcp_c : (getN sc p).color = NodeColor.BLACK := by
                  rw [hsc, color_setColor_other hgpp, color_setColor_same hplen]
                have hcgp_c : (getN sc gp).color = NodeColor.RED := by
                  rw [hsc]
                  exact color_setColor_same (by rw [length_setColor]; exact hgplen) _
                have hshape_c : ∀ j, (getN sc j).data = (getN s j).data := by
                  intro j
                  rw [hsc, (setColor_shape _ _ _ _).2.2.1, (setColor_shape _ _ _ _).2.2.1]
                have hext_c : Ext sc sc.root_ (plug ctx2
                    (ITree.node (ITree.node (ITree.node SL x SR) p sib1) gp sib2)) := by
                  rw [hsc]
                  exact Ext_setColor _ _ (Ext_setColor _ _ hext)
                have hidx_c : ∀ j ∈ inorderIdx (plug ctx2
                    (ITree.node (ITree.node (ITree.node SL x SR) p sib1) gp sib2)),
                    j ≠ 0 ∧ j < sc.nodes.length := by
                  intro j hj
                  rw [hlen_c]
                  exact hidx j hj
                have hnodup_c : (inorderIdx (plug ctx2
                    (ITree.node (ITree.node (ITree.node SL x SR) p sib1) gp sib2))).Nodup :=
                  hnodup
                have hparent_c : parentOKb sc (plug ctx2
                    (ITree.node (ITree.node (ITree.node SL x SR) p sib1) gp sib2)) 0
                    = true := by
                  rw [hsc, parentOKb_setColor, parentOKb_setColor]
                  exact hparent
                obtain ⟨hExtD, hpOKD, hdcD, hlenD, hsizeD, hheadD, htailD⟩ :=
                  right_rotate_zipper hext_c hidx_c hnodup_c hparent_c
                cases fuel with
                | zero => exact absurd hfuel2 (by omega)
                | succ fuel2 =>
                simp only [insertFixUpLoop]
                have hpK := hpOKD
                rw [parentOKb_plug, parentOKb_node] at hpK
                obtain ⟨⟨-, hpsubK, -⟩, -⟩ := hpK
                rw [parentOKb_node] at hpsubK
                obtain ⟨hpxd, -, -⟩ := hpsubK
                rw [hpxd]
                have hcpd : (getN (right_rotate sc gp) p).color = NodeColor.BLACK := by
                  rw [(hdcD p).2]
                  exact hcp_c
                rw [hcpd, if_neg (by simp)]
                have hag_subd : ∀ j ∈ inorderIdx (ITree.node SL x SR),
                    (getN (right_rotate sc gp) j).color = (getN s j).color := by
                  intro j hj
                  rw [(hdcD j).2]
                  exact hccol j (fun he => hdisjs p hpfull (he ▸ hj))
                    (fun he => hdisjs gp hgpfull (he ▸ hj))
                have hag_sib1d : ∀ j ∈ inorderIdx sib1,
                    (getN (right_rotate sc gp) j).color = (getN s j).color := by
                  intro j hj
                  rw [(hdcD j).2]
                  exact hccol j (fun he => hfresh1.1 (he ▸ hj)) (hsibdisj1 j hj gp hmem2.1)
                have hag_sib2d : ∀ j ∈ inorderIdx sib2,
                    (getN (right_rotate sc gp) j).color = (getN s j).color := by
                  intro j hj
                  rw [(hdcD j).2]
                  exact hccol j (hfresh1.2 j (hmem2.2.1 _ hj)) (fun he => hfresh2.1 (he ▸ hj))
                have hag_ctx2d : ∀ j ∈ ctxPreIdx ctx2 ++ ctxPostIdx ctx2,
                    (getN (right_rotate sc gp) j).color = (getN s j).color := by
                  intro j hj
                  rw [(hdcD j).2]
                  exact hccol j (hfresh1.2 j (hmem2.2.2 _ hj)) (hfresh2.2 j hj)
                refine ⟨right_rotate sc gp,
                  plug ctx2 (ITree.node (ITree.node SL x SR) p (ITree.node sib1 gp sib2)),
                  rfl, hExtD, ?_, ?_, ?_, ?_, ?_, ?_, hpOKD, ?_, ?_, ?_⟩
                · exact (inorder_rotate_eq ctx2 (ITree.node SL x SR) sib1 sib2 p gp).symm
                · intro j
                  rw [(hdcD j).1, hshape_c j]
                · rw [hlenD, hlen_c]
                · rw [hsizeD, hsc]
                  rfl
                · rw [hheadD, hsc]
                  rfl
                · rw [htailD, hsc]
                  rfl
                · rw [(hdcD 0).2, hccol 0 (Ne.symm hp0') (Ne.symm hgp0)]
                  exact hsent
                · rw [noRedRedb_plug]
                  simp only [Bool.and_eq_true]
                  constructor
                  · have htp : topColor (right_rotate sc gp)
                        (ITree.node (ITree.node SL x SR) p (ITree.node sib1 gp sib2)) =
                        NodeColor.BLACK := by
                      rw [topColor_node, (hdcD p).2]
                      exact hcp_c
                    rw [htp, ctxRRb_frame hag_ctx2d]
                    exact hrrctx2
                  · rw [noRedRedb_node_true]
                    refine ⟨fun hc => ?_, ?_, ?_⟩
                    · rw [(hdcD p).2, hcp_c] at hc
                      cases hc
                    · rw [noRedRedb_frame hag_subd]
                      exact hrrsub
                    · rw [noRedRedb_node_true]
                      refine ⟨fun hc => ⟨?_, ?_⟩, ?_, ?_⟩
                      · rw [topColor_frame hag_sib1d]
                        exact htops1
                      · rw [topColor_frame hag_sib2d]
                        exact htops2
                      · rw [noRedRedb_frame hag_sib1d]
                        exact hnrrsib1
                      · rw [noRedRedb_frame hag_sib2d]
                        exact hnrrsib2
                · obtain ⟨a, hSLa, hSRa, hsuba, hsib1a, hsib2a, hctxa⟩ :=
                    fix_bh_peel hbh hxred hpr hgpb
                  have fsub : bhOf (right_rotate sc gp) (ITree.node SL x SR) = some a := by
                    rw [bhOf_frame hag_subd]
                    exact hsuba
                  have fsib1 : bhOf (right_rotate sc gp) sib1 = some a := by
                    rw [bhOf_frame hag_sib1d]
                    exact hsib1a
                  have fsib2 : bhOf (right_rotate sc gp) sib2 = some a := by
                    rw [bhOf_frame hag_sib2d]
                    exact hsib2a
                  have fgpn : bhOf (right_rotate sc gp) (ITree.node sib1 gp sib2)
                      = some a := by
                    rw [bhOf_node_intro gp fsib1 fsib2,
                      show (getN (right_rotate sc gp) gp).color = NodeColor.RED from by
                        rw [(hdcD gp).2]; exact hcgp_c]
                    simp
                  have ftop : bhOf (right_rotate sc gp)
                      (ITree.node (ITree.node SL x SR) p (ITree.node sib1 gp sib2))
                      = some (a + 1) := by
                    rw [bhOf_node_intro p fsub fgpn,
                      show (getN (right_rotate sc gp) p).color = NodeColor.BLACK from by
                        rw [(hdcD p).2]; exact hcp_c]
                    simp
                  rw [bhOf_plug ftop, ctxBH_frame hag_ctx2d]
                  exact hctxa
              | false =>
                -- zig-zag: x is the right child of p, pre-rotate left at p
                obtain ⟨-, hfield1, hsib1Ext, -⟩ := hreal
                rw [if_pos hfield1.symm]
                dsimp only
                have hnsub2 := hnsub
                rw [inorderIdx_node, List.nodup_append] at hnsub2
                obtain ⟨hnSL, hnxSR, hdisjSLx⟩ := hnsub2
                rw [List.nodup_cons] at hnxSR
                obtain ⟨hxSR, hnSR⟩ := hnxSR
                have hxSL : x ∉ inorderIdx SL := fun hm => hdisjSLx hm (by simp)
                rw [noRedRedb_node_true] at hrrsub
                obtain ⟨himpx, hnrrSL, hnrrSR⟩ := hrrsub
                obtain ⟨htopSL, htopSR⟩ := himpx hxred
                have hext_a : Ext s s.root_ (plug ((true, gp, sib2) :: ctx2)
                    (ITree.node sib1 p (ITree.node SL x SR))) := hext
                have hidx_a : ∀ j ∈ inorderIdx (plug ((true, gp, sib2) :: ctx2)
                    (ITree.node sib1 p (ITree.node SL x SR))),
                    j ≠ 0 ∧ j < s.nodes.length := fun j hj => hidx j hj
                have hnodup_a : (inorderIdx (plug ((true, gp, sib2) :: ctx2)
                    (ITree.node sib1 p (ITree.node SL x SR)))).Nodup := hnodup
                have hparent_a : parentOKb s (plug ((true, gp, sib2) :: ctx2)
                    (ITree.node sib1 p (ITree.node SL x SR))) 0 = true := hparent
                obtain ⟨hExtA, hpOKA, hdcA, hlenA, hsizeA, hheadA, htailA⟩ :=
                  left_rotate_zipper hext_a hidx_a hnodup_a hparent_a
                have hpOKA2 := hpOKA
                rw [parentOKb_plug, parentOKb_node] at hpOKA2
                obtain ⟨⟨hpxA, hplA, -⟩, -⟩ := hpOKA2
                rw [parentOKb_node] at hplA
                obtain ⟨hppA, -, -⟩ := hplA
                rw [hppA]
                rw [show (getN (setColor (left_rotate s p) x NodeColor.BLACK) p).parent
                    = x from by
                  rw [(setColor_shape _ _ _ _).2.2.2]; exact hppA]
                rw [show (getN (setColor (left_rotate s p) x NodeColor.BLACK) x).parent
                    = gp from by
                  rw [(setColor_shape _ _ _ _).2.2.2]; exact hpxA]
                rw [show (getN (setColor (setColor (left_rotate s p) x NodeColor.BLACK) gp
                    NodeColor.RED) p).parent = x from by
                  rw [(setColor_shape _ _ _ _).2.2.2, (setColor_shape _ _ _ _).2.2.2]
                  exact hppA]
                rw [show (getN (setColor (setColor (left_rotate s p) x NodeColor.BLACK) gp
                    NodeColor.RED) x).parent = gp from by
                  rw [(setColor_shape _ _ _ _).2.2.2, (setColor_shape _ _ _ _).2.2.2]
                  exact hpxA]
                set sc := setColor (setColor (left_rotate s p) x NodeColor.BLACK) gp
                  NodeColor.RED with hsc
                have hlen_c : sc.nodes.length = s.nodes.length := by
                  rw [hsc, length_setColor, length_setColor, hlenA]
                have hccol : ∀ j, j ≠ x → j ≠ gp →
                    (getN sc j).color = (getN s j).color := by
                  intro j h1 h2
                  rw [hsc, color_setColor_other (Ne.symm h2),
                    color_setColor_other (Ne.symm h1), (hdcA j).2]
                have hcx_c : (getN sc x).color = NodeColor.BLACK := by
                  rw [hsc, color_setColor_other (Ne.symm hxgp)]
                  exact color_setColor_same (by rw [hlenA]; exact hxlen) _
                have hcgp_c : (getN sc gp).color = NodeColor.RED := by
                  rw [hsc]
                  exact color_setColor_same
                    (by rw [length_setColor, hlenA]; exact hgplen) _
                have hcp_c : (getN sc p).color = NodeColor.RED := by
                  rw [hccol p (Ne.symm hxp) (fun he => hgpp he.symm)]
                  exact hpr
                have hshape_c : ∀ j, (getN sc j).data = (getN s j).data := by
                  intro j
                  rw [hsc, (setColor_shape _ _ _ _).2.2.1, (setColor_shape _ _ _ _).2.2.1,
                    (hdcA j).1]
                have hioA := inorder_rotate_eq ((true, gp, sib2) :: ctx2) sib1 SL SR p x
                have hext_c : Ext sc sc.root_ (plug ctx2
                    (ITree.node (ITree.node (ITree.node sib1 p SL) x SR) gp sib2)) := by
                  rw [hsc]
                  exact Ext_setColor _ _ (Ext_setColor _ _ hExtA)
                have hidx_c : ∀ j ∈ inorderIdx (plug ctx2
                    (ITree.node (ITree.node (ITree.node sib1 p SL) x SR) gp sib2)),
                    j ≠ 0 ∧ j < sc.nodes.length := by
                  intro j hj
                  rw [hlen_c]
                  have hj0 : j ∈ inorderIdx (plug ((true, gp, sib2) :: ctx2)
                      (ITree.node (ITree.node sib1 p SL) x SR)) := hj
                  rw [hioA] at hj0
                  exact hidx j hj0
                have hnodup_c : (inorderIdx (plug ctx2
                    (ITree.node (ITree.node (ITree.node sib1 p SL) x SR) gp
                      sib2))).Nodup := by
                  show (inorderIdx (plug ((true, gp, sib2) :: ctx2)
                    (ITree.node (ITree.node sib1 p SL) x SR))).Nodup
                  rw [hioA]
                  exact hnodup
                have hparent_c : parentOKb sc (plug ctx2
                    (ITree.node (ITree.node (ITree.node sib1 p SL) x SR) gp sib2)) 0
                    = true := by
                  rw [hsc, parentOKb_setColor, parentOKb_setColor]
                  exact hpOKA
                obtain ⟨hExtD, hpOKD, hdcD, hlenD, hsizeD, hheadD, htailD⟩ :=
                  right_rotate_zipper hext_c hidx_c hnodup_c hparent_c
                cases fuel with
                | zero => exact absurd hfuel2 (by omega)
                | succ fuel2 =>
                simp only [insertFixUpLoop]
                have hpK := hpOKD
                rw [parentOKb_plug, parentOKb_node] at hpK
                obtain ⟨⟨-, hplK, -⟩, -⟩ := hpK
                rw [parentOKb_node] at hplK
                obtain ⟨hppd, -, -⟩ := hplK
                rw [hppd]
                have hcxd : (getN (right_rotate sc gp) x).color = NodeColor.BLACK := by
                  rw [(hdcD x).2]
                  exact hcx_c
                rw [hcxd, if_neg (by simp)]
                have hag : ∀ j, j ≠ x → j ≠ gp →
                    (getN (right_rotate sc gp) j).color = (getN s j).color := by
                  intro j h1 h2
                  rw [(hdcD j).2]
                  exact hccol j h1 h2
                have hsubmem : ∀ j, j ∈ inorderIdx SL ∨ j ∈ inorderIdx SR →
                    j ∈ inorderIdx (ITree.node SL x SR) := by
                  intro j hj
                  simp only [inorderIdx_node, List.mem_append, List.mem_cons]
                  tauto
                have hag_SLd : ∀ j ∈ inorderIdx SL,
                    (getN (right_rotate sc gp) j).color = (getN s j).color := by
                  intro j hj
                  exact hag j (fun he => hxSL (he ▸ hj))
                    (fun he => hdisjs gp hgpfull (he ▸ hsubmem j (Or.inl hj)))
                have hag_SRd : ∀ j ∈ inorderIdx SR,
                    (getN (right_rotate sc gp) j).color = (getN s j).color := by
                  intro j hj
                  exact hag j (fun he => hxSR (he ▸ hj))
                    (fun he => hdisjs gp hgpfull (he ▸ hsubmem j (Or.inr hj)))
                have hag_pd : (getN (right_rotate sc gp) p).color = (getN s p).color :=
                  hag p (Ne.symm hxp) (fun he => hgpp he.symm)
                have hag_sib1d : ∀ j ∈ inorderIdx sib1,
                    (getN (right_rotate sc gp) j).color = (getN s j).color := by
                  intro j hj
                  exact hag j (fun he => hdisjs j (hmem1.2.1 _ hj) (by rw [he]; exact hxmem))
                    (hsibdisj1 j hj gp hmem2.1)
                have hag_sib2d : ∀ j ∈ inorderIdx sib2,
                    (getN (right_rotate sc gp) j).color = (getN s j).color := by
                  intro j hj
                  exact hag j (fun he => hdisjs j (hmem1.2.2 _ (hmem2.2.1 _ hj))
                      (by rw [he]; exact hxmem))
                    (fun he => hfresh2.1 (he ▸ hj))
                have hag_ctx2d : ∀ j ∈ ctxPreIdx ctx2 ++ ctxPostIdx ctx2,
                    (getN (right_rotate sc gp) j).color = (getN s j).color := by
                  intro j hj
                  exact hag j (fun he => hdisjs j (hmem1.2.2 _ (hmem2.2.2 _ hj))
                      (by rw [he]; exact hxmem))
                    (hfresh2.2 j hj)
                refine ⟨right_rotate sc gp,
                  plug ctx2 (ITree.node (ITree.node sib1 p SL) x (ITree.node SR gp sib2)),
                  rfl, hExtD, ?_, ?_, ?_, ?_, ?_, ?_, hpOKD, ?_, ?_, ?_⟩
                · show inorderIdx (plug ctx2 (ITree.node (ITree.node sib1 p SL) x
                      (ITree.node SR gp sib2))) =
                    inorderIdx (plug ctx2 (ITree.node (ITree.node sib1 p
                      (ITree.node SL x SR)) gp sib2))
                  rw [inorder_plug, inorder_plug]
                  simp
                · intro j
                  rw [(hdcD j).1, hshape_c j]
                · rw [hlenD, hlen_c]
                · rw [hsizeD, hsc]
                  simp [hsizeA]
                · rw [hheadD, hsc]
                  simp [hheadA]
                · rw [htailD, hsc]
                  simp [htailA]
                · rw [(hdcD 0).2, hccol 0 (Ne.symm hx0) (Ne.symm hgp0)]
                  exact hsent
                · rw [noRedRedb_plug]
                  simp only [Bool.and_eq_true]
                  constructor
                  · have htp : topColor (right_rotate sc gp)
                        (ITree.node (ITree.node sib1 p SL) x (ITree.node SR gp sib2)) =
                        NodeColor.BLACK := by
                      rw [topColor_node, (hdcD x).2]
                      exact hcx_c
                    rw [htp, ctxRRb_frame hag_ctx2d]
                    exact hrrctx2
                  · rw [noRedRedb_node_true]
                    refine ⟨fun hc => ?_, ?_, ?_⟩
                    · rw [(hdcD x).2, hcx_c] at hc
                      cases hc
                    · rw [noRedRedb_node_true]
                      refine ⟨fun hc => ⟨?_, ?_⟩, ?_, ?_⟩
                      · rw [topColor_frame hag_sib1d]
                        exact htops1
                      · rw [topColor_frame hag_SLd]
                        exact htopSL
                      · rw [noRedRedb_frame hag_sib1d]
                        exact hnrrsib1
                      · rw [noRedRedb_frame hag_SLd]
                        exact hnrrSL
                    · rw [noRedRedb_node_true]
                      refine ⟨fun hc => ⟨?_, ?_⟩, ?_, ?_⟩
                      · rw [topColor_frame hag_SRd]
                        exact htopSR
                      · rw [topColor_frame hag_sib2d]
                        exact htops2
                      · rw [noRedRedb_frame hag_SRd]
                        exact hnrrSR
                      · rw [noRedRedb_frame hag_sib2d]
                        exact hnrrsib2
                · obtain ⟨a, hSLa, hSRa, hsuba, hsib1a, hsib2a, hctxa⟩ :=
                    fix_bh_peel hbh hxred hpr hgpb
                  have fSL : bhOf (right_rotate sc gp) SL = some a := by
                    rw [bhOf_frame hag_SLd]
                    exact hSLa
                  have fSR : bhOf (right_rotate sc gp) SR = some a := by
                    rw [bhOf_frame hag_SRd]
                    exact hSRa
                  have fsib1 : bhOf (right_rotate sc gp) sib1 = some a := by
                    rw [bhOf_frame hag_sib1d]
                    exact hsib1a
                  have fsib2 : bhOf (right_rotate sc gp) sib2 = some a := by
                    rw [bhOf_frame hag_sib2d]
                    exact hsib2a
                  have fleft : bhOf (right_rotate sc gp) (ITree.node sib1 p SL)
                      = some a := by
                    rw [bhOf_node_intro p fsib1 fSL,
                      show (getN (right_rotate sc gp) p).color = NodeColor.RED from by
                        rw [hag_pd]; exact hpr]
                    simp
                  have fright : bhOf (right_rotate sc gp) (ITree.node SR gp sib2)
                      = some a := by
                    rw [bhOf_node_intro gp fSR fsib2,
                      show (getN (right_rotate sc gp) gp).color = NodeColor.RED from by
                        rw [(hdcD gp).2]; exact hcgp_c]
                    simp
                  have ftop : bhOf (right_rotate sc gp)
                      (ITree.node (ITree.node sib1 p SL) x (ITree.node SR gp sib2))
                      = some (a + 1) := by
                    rw [bhOf_node_intro x fleft fright,
                      show (getN (right_rotate sc gp) x).color = NodeColor.BLACK from by
                        rw [(hdcD x).2]; exact hcx_c]
                    simp
                  rw [bhOf_plug ftop, ctxBH_frame hag_ctx2d]
                  exact hctxa
          | false =>
            obtain ⟨hgp0, hfield2, hsib2Ext, hreal2⟩ := hreal1
            have hcond : ¬(p = (getN s gp).left) := by
              intro he
              have hrootsib : rootIdx sib2 = (getN s gp).left := Ext_rootIdx hsib2Ext
              cases sib2 with
              | leaf =>
                rw [rootIdx] at hrootsib
                exact hp0 (he.trans hrootsib.symm)
              | node s2l ui s2r =>
                rw [rootIdx] at hrootsib
                have huimem : ui ∈ inorderIdx (ITree.node s2l ui s2r) := by simp
                have hui1 := (@ctx_members_cons false gp (ITree.node s2l ui s2r) ctx2).2.1
                  _ huimem
                exact hfresh1.2 ui hui1 (hrootsib.trans he.symm)
            rw [if_neg hcond]
            have hu : (getN s gp).left = rootIdx sib2 := (Ext_rootIdx hsib2Ext).symm
            rw [hu]
            by_cases hured : (getN s (rootIdx sib2)).color = NodeColor.RED
            · -- recolor case
              rw [if_pos hured]
              cases sib2 with
              | leaf =>
                rw [rootIdx, hsent] at hured
                cases hured
              | node s2l ui s2r =>
              simp only [rootIdx] at hured ⊢
              have e1 : (getN (setColor (setColor s p NodeColor.BLACK) ui NodeColor.BLACK)
                  x).parent = p := by
                rw [(setColor_shape _ _ _ _).2.2.2, (setColor_shape _ _ _ _).2.2.2]
                exact hpxp
              rw [e1]
              have e2 : (getN (setColor (setColor s p NodeColor.BLACK) ui NodeColor.BLACK)
                  p).parent = gp := by
                rw [(setColor_shape _ _ _ _).2.2.2, (setColor_shape _ _ _ _).2.2.2]
                exact hpgp
              rw [e2]
              have e3 : (getN (setColor (setColor (setColor s p NodeColor.BLACK) ui
                  NodeColor.BLACK) gp NodeColor.RED) x).parent = p := by
                rw [(setColor_shape _ _ _ _).2.2.2]
                exact e1
              rw [e3]
              have e4 : (getN (setColor (setColor (setColor s p NodeColor.BLACK) ui
                  NodeColor.BLACK) gp NodeColor.RED) p).parent = gp := by
                rw [(setColor_shape _ _ _ _).2.2.2]
                exact e2
              rw [e4]
              have hInv3 := fixInv_recolor hfix hpr hured
              have hpost := ih _ ctx2 _ hInv3 hfuel2
              rw [show rootIdx (plug [(b1, p, sib1), (false, gp, ITree.node s2l ui s2r)]
                  (ITree.node SL x SR)) = gp from by
                rw [rootIdx_plug]
                rfl] at hpost
              obtain ⟨s', T', hrun, hExt', hio, hdata, hlen, hsize, hhead, htail,
                hpOK, hsent', hrr', hbh'⟩ := hpost
              refine ⟨s', T', hrun, hExt', ?_, ?_, ?_, ?_, ?_, ?_, hpOK, hsent', hrr', hbh'⟩
              · rw [hio, hTeq]
              · intro j
                rw [hdata j, (setColor_shape _ _ _ _).2.2.1, (setColor_shape _ _ _ _).2.2.1,
                  (setColor_shape _ _ _ _).2.2.1]
              · rw [hlen]
                simp
              · rw [hsize]
                rfl
              · rw [hhead]
                rfl
              · rw [htail]
                rfl
            · -- rotation case
              rw [if_neg hured]
              have htops2 : topColor s sib2 = NodeColor.BLACK :=
                topColor_black_of_not_red hured
              cases b1 with
              | false =>
                -- zig-zig: x is the right child of p
                obtain ⟨-, hfield1, hsib1Ext, -⟩ := hreal
                have hcond1 : ¬(x = (getN s p).left) := by
                  intro he
                  have hr1 : rootIdx sib1 = (getN s p).left := Ext_rootIdx hsib1Ext
                  cases sib1 with
                  | leaf =>
                    rw [rootIdx] at hr1
                    exact hx0 (he.trans hr1.symm)
                  | node l1 i1 r1 =>
                    rw [rootIdx] at hr1
                    have hi1mem : i1 ∈ inorderIdx (ITree.node l1 i1 r1) := by simp
                    have hi1full := hmem1.2.1 _ hi1mem
                    exact hdisjs i1 hi1full ((he.trans hr1.symm) ▸ hxmem)
                rw [if_neg hcond1]
                dsimp only
                rw [hpxp]
                rw [show (getN (setColor s p NodeColor.BLACK) x).parent = p from by
                  rw [(setColor_shape _ _ _ _).2.2.2]; exact hpxp]
                rw [show (getN (setColor s p NodeColor.BLACK) p).parent = gp from by
                  rw [(setColor_shape _ _ _ _).2.2.2]; exact hpgp]
                rw [show (getN (setColor (setColor s p NodeColor.BLACK) gp NodeColor.RED)
                    x).parent = p from by
                  rw [(setColor_shape _ _ _ _).2.2.2, (setColor_shape _ _ _ _).2.2.2]
                  exact hpxp]
                rw [show (getN (setColor (setColor s p NodeColor.BLACK) gp NodeColor.RED)
                    p).parent = gp from by
                  rw [(setColor_shape _ _ _ _).2.2.2, (setColor_shape _ _ _ _).2.2.2]
                  exact hpgp]
                set sc := setColor (setColor s p NodeColor.BLACK) gp NodeColor.RED with hsc
                have hlen_c : sc.nodes.length = s.nodes.length := by rw [hsc]; simp
                have hccol : ∀ j, j ≠ p → j ≠ gp →
                    (getN sc j).color = (getN s j).color := by
                  intro j h1 h2
                  rw [hsc, color_setColor_other (Ne.symm h2), color_setColor_other (Ne.symm h1)]
                have hcp_c : (getN sc p).color = NodeColor.BLACK := by
                  rw [hsc, color_setColor_other hgpp, color_setColor_same hplen]
                have hcgp_c : (getN sc gp).color = NodeColor.RED := by
                  rw [hsc]
                  exact color_setColor_same (by rw [length_setColor]; exact hgplen) _
                have hshape_c : ∀ j, (getN sc j).data = (getN s j).data := by
                  intro j
                  rw [hsc, (setColor_shape _ _ _ _).2.2.1, (setColor_shape _ _ _ _).2.2.1]
                have hext_c : Ext sc sc.root_ (plug ctx2
                    (ITree.node sib2 gp (ITree.node sib1 p (ITree.node SL x SR)))) := by
                  rw [hsc]
                  exact Ext_setColor _ _ (Ext_setColor _ _ hext)
                have hidx_c : ∀ j ∈ inorderIdx (plug ctx2
                    (ITree.node sib2 gp (ITree.node sib1 p (ITree.node SL x SR)))),
                    j ≠ 0 ∧ j < sc.nodes.length := by
                  intro j hj
                  rw [hlen_c]
                  exact hidx j hj
                have hnodup_c : (inorderIdx (plug ctx2
                    (ITree.node sib2 gp (ITree.node sib1 p
                      (ITree.node SL x SR))))).Nodup := hnodup
                have hparent_c : parentOKb sc (plug ctx2
                    (ITree.node sib2 gp (ITree.node sib1 p (ITree.node SL x SR)))) 0
                    = true := by
                  rw [hsc, parentOKb_setColor, parentOKb_setColor]
                  exact hparent
                obtain ⟨hExtD, hpOKD, hdcD, hlenD, hsizeD, hheadD, htailD⟩ :=
                  left_rotate_zipper hext_c hidx_c hnodup_c hparent_c
                cases fuel with
                | zero => exact absurd hfuel2 (by omega)
                | succ fuel2 =>
                simp only [insertFixUpLoop]
                have hpK := hpOKD
                rw [parentOKb_plug, parentOKb_node] at hpK
                obtain ⟨⟨-, -, hpsubK⟩, -⟩ := hpK
                rw [parentOKb_node] at hpsubK
                obtain ⟨hpxd, -, -⟩ := hpsubK
                rw [hpxd]
                have hcpd : (getN (left_rotate sc gp) p).color = NodeColor.BLACK := by
                  rw [(hdcD p).2]
                  exact hcp_c
                rw [hcpd, if_neg (by simp)]
                have hag_subd : ∀ j ∈ inorderIdx (ITree.node SL x SR),
                    (getN (left_rotate sc gp) j).color = (getN s j).color := by
                  intro j hj
                  rw [(hdcD j).2]
                  exact hccol j (fun he => hdisjs p hpfull (he ▸ hj))
                    (fun he => hdisjs gp hgpfull (he ▸ hj))
                have hag_sib1d : ∀ j ∈ inorderIdx sib1,
                    (getN (left_rotate sc gp) j).color = (getN s j).color := by
                  intro j hj
                  rw [(hdcD j).2]
                  exact hccol j (fun he => hfresh1.1 (he ▸ hj)) (hsibdisj1 j hj gp hmem2.1)
                have hag_sib2d : ∀ j ∈ inorderIdx sib2,
                    (getN (left_rotate sc gp) j).color = (getN s j).color := by
                  intro j hj
                  rw [(hdcD j).2]
                  exact hccol j (hfresh1.2 j (hmem2.2.1 _ hj)) (fun he => hfresh2.1 (he ▸ hj))
                have hag_ctx2d : ∀ j ∈ ctxPreIdx ctx2 ++ ctxPostIdx ctx2,
                    (getN (left_rotate sc gp) j).color = (getN s j).color := by
                  intro j hj
                  rw [(hdcD j).2]
                  exact hccol j (hfresh1.2 j (hmem2.2.2 _ hj)) (hfresh2.2 j hj)
                refine ⟨left_rotate sc gp,
                  plug ctx2 (ITree.node (ITree.node sib2 gp sib1) p (ITree.node SL x SR)),
                  rfl, hExtD, ?_, ?_, ?_, ?_, ?_, ?_, hpOKD, ?_, ?_, ?_⟩
                · exact inorder_rotate_eq ctx2 sib2 sib1 (ITree.node SL x SR) gp p
                · intro j
                  rw [(hdcD j).1, hshape_c j]
                · rw [hlenD, hlen_c]
                · rw [hsizeD, hsc]
                  rfl
                · rw [hheadD, hsc]
                  rfl
                · rw [htailD, hsc]
                  rfl
                · rw [(hdcD 0).2, hccol 0 (Ne.symm hp0') (Ne.symm hgp0)]
                  exact hsent
                · rw [noRedRedb_plug]
                  simp only [Bool.and_eq_true]
                  constructor
                  · have htp : topColor (left_rotate sc gp)
                        (ITree.node (ITree.node sib2 gp sib1) p (ITree.node SL x SR)) =
                        NodeColor.BLACK := by
                      rw [topColor_node, (hdcD p).2]
                      exact hcp_c
                    rw [htp, ctxRRb_frame hag_ctx2d]
                    exact hrrctx2
                  · rw [noRedRedb_node_true]
                    refine ⟨fun hc => ?_, ?_, ?_⟩
                    · rw [(hdcD p).2, hcp_c] at hc
                      cases hc
                    · rw [noRedRedb_node_true]
                      refine ⟨fun hc => ⟨?_, ?_⟩, ?_, ?_⟩
                      · rw [topColor_frame hag_sib2d]
                        exact htops2
                      · rw [topColor_frame hag_sib1d]
                        exact htops1
                      · rw [noRedRedb_frame hag_sib2d]
                        exact hnrrsib2
                      · rw [noRedRedb_frame hag_sib1d]
                        exact hnrrsib1
                    · rw [noRedRedb_frame hag_subd]
                      exact hrrsub
                · obtain ⟨a, hSLa, hSRa, hsuba, hsib1a, hsib2a, hctxa⟩ :=
                    fix_bh_peel hbh hxred hpr hgpb
                  have fsub : bhOf (left_rotate sc gp) (ITree.node SL x SR) = some a := by
                    rw [bhOf_frame hag_subd]
                    exact hsuba
                  have fsib1 : bhOf (left_rotate sc gp) sib1 = some a := by
                    rw [bhOf_frame hag_sib1d]
                    exact hsib1a
                  have fsib2 : bhOf (left_rotate sc gp) sib2 = some a := by
                    rw [bhOf_frame hag_sib2d]
                    exact hsib2a
                  have fgpn : bhOf (left_rotate sc gp) (ITree.node sib2 gp sib1)
                      = some a := by
                    rw [bhOf_node_intro gp fsib2 fsib1,
                      show (getN (left_rotate sc gp) gp).color = NodeColor.RED from by
                        rw [(hdcD gp).2]; exact hcgp_c]
                    simp
                  have ftop : bhOf (left_rotate sc gp)
                      (ITree.node (ITree.node sib2 gp sib1) p (ITree.node SL x SR))
                      = some (a + 1) := by
                    rw [bhOf_node_intro p fgpn fsub,
                      show (getN (left_rotate sc gp) p).color = NodeColor.BLACK from by
                        rw [(hdcD p).2]; exact hcp_c]
                    simp
                  rw [bhOf_plug ftop, ctxBH_frame hag_ctx2d]
                  exact hctxa
              | true =>
                -- zig-zag: x is the left child of p, pre-rotate right at p
                obtain ⟨-, hfield1, hsib1Ext, -⟩ := hreal
                rw [if_pos hfield1.symm]
                dsimp only
                have hnsub2 := hnsub
                rw [inorderIdx_node, List.nodup_append] at hnsub2
                obtain ⟨hnSL, hnxSR, hdisjSLx⟩ := hnsub2
                rw [List.nodup_cons] at hnxSR
                obtain ⟨hxSR, hnSR⟩ := hnxSR
                have hxSL : x ∉ inorderIdx SL := fun hm => hdisjSLx hm (by simp)
                rw [noRedRedb_node_true] at hrrsub
                obtain ⟨himpx, hnrrSL, hnrrSR⟩ := hrrsub
                obtain ⟨htopSL, htopSR⟩ := himpx hxred
                have hext_a : Ext s s.root_ (plug ((false, gp, sib2) :: ctx2)
                    (ITree.node (ITree.node SL x SR) p sib1)) := hext
                have hidx_a : ∀ j ∈ inorderIdx (plug ((false, gp, sib2) :: ctx2)
                    (ITree.node (ITree.node SL x SR) p sib1)),
                    j ≠ 0 ∧ j < s.nodes.length := fun j hj => hidx j hj
                have hnodup_a : (inorderIdx (plug ((false, gp, sib2) :: ctx2)
                    (ITree.node (ITree.node SL x SR) p sib1))).Nodup := hnodup
                have hparent_a : parentOKb s (plug ((false, gp, sib2) :: ctx2)
                    (ITree.node (ITree.node SL x SR) p sib1)) 0 = true := hparent
                obtain ⟨hExtA, hpOKA, hdcA, hlenA, hsizeA, hheadA, htailA⟩ :=
                  right_rotate_zipper hext_a hidx_a hnodup_a hparent_a
                have hpOKA2 := hpOKA
                rw [parentOKb_plug, parentOKb_node] at hpOKA2
                obtain ⟨⟨hpxA, -, hprA⟩, -⟩ := hpOKA2
                rw [parentOKb_node] at hprA
                obtain ⟨hppA, -, -⟩ := hprA
                rw [hppA]
                rw [show (getN (setColor (right_rotate s p) x NodeColor.BLACK) p).parent
                    = x from by
                  rw [(setColor_shape _ _ _ _).2.2.2]; exact hppA]
                rw [show (getN (setColor (right_rotate s p) x NodeColor.BLACK) x).parent
                    = gp from by
                  rw [(setColor_shape _ _ _ _).2.2.2]; exact hpxA]
                rw [show (getN (setColor (setColor (right_rotate s p) x NodeColor.BLACK) gp
                    NodeColor.RED) p).parent = x from by
                  rw [(setColor_shape _ _ _ _).2.2.2, (setColor_shape _ _ _ _).2.2.2]
                  exact hppA]
                rw [show (getN (setColor (setColor (right_rotate s p) x NodeColor.BLACK) gp
                    NodeColor.RED) x).parent = gp from by
                  rw [(setColor_shape _ _ _ _).2.2.2, (setColor_shape _ _ _ _).2.2.2]
                  exact hpxA]
                set sc := setColor (setColor (right_rotate s p) x NodeColor.BLACK) gp
                  NodeColor.RED with hsc
                have hlen_c : sc.nodes.length = s.nodes.length := by
                  rw [hsc, length_setColor, length_setColor, hlenA]
                have hccol : ∀ j, j ≠ x → j ≠ gp →
                    (getN sc j).color = (getN s j).color := by
                  intro j h1 h2
                  rw [hsc, color_setColor_other (Ne.symm h2),
                    color_setColor_other (Ne.symm h1), (hdcA j).2]
                have hcx_c : (getN sc x).color = NodeColor.BLACK := by
                  rw [hsc, color_setColor_other (Ne.symm hxgp)]
                  exact color_setColor_same (by rw [hlenA]; exact hxlen) _
                have hcgp_c : (getN sc gp).color = NodeColor.RED := by
                  rw [hsc]
                  exact color_setColor_same
                    (by rw [length_setColor, hlenA]; exact hgplen) _
                have hcp_c : (getN sc p).color = NodeColor.RED := by
                  rw [hccol p (Ne.symm hxp) (fun he => hgpp he.symm)]
                  exact hpr
                have hshape_c : ∀ j, (getN sc j).data = (getN s j).data := by
                  intro j
                  rw [hsc, (setColor_shape _ _ _ _).2.2.1, (setColor_shape _ _ _ _).2.2.1,
                    (hdcA j).1]
                have hioA := inorder_rotate_eq ((false, gp, sib2) :: ctx2) SL SR sib1 x p
                have hext_c : Ext sc sc.root_ (plug ctx2
                    (ITree.node sib2 gp (ITree.node SL x (ITree.node SR p sib1)))) := by
                  rw [hsc]
                  exact Ext_setColor _ _ (Ext_setColor _ _ hExtA)
                have hidx_c : ∀ j ∈ inorderIdx (plug ctx2
                    (ITree.node sib2 gp (ITree.node SL x (ITree.node SR p sib1)))),
                    j ≠ 0 ∧ j < sc.nodes.length := by
                  intro j hj
                  rw [hlen_c]
                  have hj0 : j ∈ inorderIdx (plug ((false, gp, sib2) :: ctx2)
                      (ITree.node SL x (ITree.node SR p sib1))) := hj
                  rw [← hioA] at hj0
                  exact hidx j hj0
                have hnodup_c : (inorderIdx (plug ctx2
                    (ITree.node sib2 gp (ITree.node SL x
                      (ITree.node SR p sib1))))).Nodup := by
                  show (inorderIdx (plug ((false, gp, sib2) :: ctx2)
                    (ITree.node SL x (ITree.node SR p sib1)))).Nodup
                  rw [← hioA]
                  exact hnodup
                have hparent_c : parentOKb sc (plug ctx2
                    (ITree.node sib2 gp (ITree.node SL x (ITree.node SR p sib1)))) 0
                    = true := by
                  rw [hsc, parentOKb_setColor, parentOKb_setColor]
                  exact hpOKA
                obtain ⟨hExtD, hpOKD, hdcD, hlenD, hsizeD, hheadD, htailD⟩ :=
                  left_rotate_zipper hext_c hidx_c hnodup_c hparent_c
                cases fuel with
                | zero => exact absurd hfuel2 (by omega)
                | succ fuel2 =>
                simp only [insertFixUpLoop]
                have hpK := hpOKD
                rw [parentOKb_plug, parentOKb_node] at hpK
                obtain ⟨⟨-, -, hprK⟩, -⟩ := hpK
                rw [parentOKb_node] at hprK
                obtain ⟨hppd, -, -⟩ := hprK
                rw [hppd]
                have hcxd : (getN (left_rotate sc gp) x).color = NodeColor.BLACK := by
                  rw [(hdcD x).2]
                  exact hcx_c
                rw [hcxd, if_neg (by simp)]
                have hag : ∀ j, j ≠ x → j ≠ gp →
                    (getN (left_rotate sc gp) j).color = (getN s j).color := by
                  intro j h1 h2
                  rw [(hdcD j).2]
                  exact hccol j h1 h2
                have hsubmem : ∀ j, j ∈ inorderIdx SL ∨ j ∈ inorderIdx SR →
                    j ∈ inorderIdx (ITree.node SL x SR) := by
                  intro j hj
                  simp only [inorderIdx_node, List.mem_append, List.mem_cons]
                  tauto
                have hag_SLd : ∀ j ∈ inorderIdx SL,
                    (getN (left_rotate sc gp) j).color = (getN s j).color := by
                  intro j hj
                  exact hag j (fun he => hxSL (he ▸ hj))
                    (fun he => hdisjs gp hgpfull (he ▸ hsubmem j (Or.inl hj)))
                have hag_SRd : ∀ j ∈ inorderIdx SR,
                    (getN (left_rotate sc gp) j).color = (getN s j).color := by
                  intro j hj
                  exact hag j (fun he => hxSR (he ▸ hj))
                    (fun he => hdisjs gp hgpfull (he ▸ hsubmem j (Or.inr hj)))
                have hag_pd : (getN (left_rotate sc gp) p).color = (getN s p).color :=
                  hag p (Ne.symm hxp) (fun he => hgpp he.symm)
                have hag_sib1d : ∀ j ∈ inorderIdx sib1,
                    (getN (left_rotate sc gp) j).color = (getN s j).color := by
                  intro j hj
                  exact hag j (fun he => hdisjs j (hmem1.2.1 _ hj) (by rw [he]; exact hxmem))
                    (hsibdisj1 j hj gp hmem2.1)
                have hag_sib2d : ∀ j ∈ inorderIdx sib2,
                    (getN (left_rotate sc gp) j).color = (getN s j).color := by
                  intro j hj
                  exact hag j (fun he => hdisjs j (hmem1.2.2 _ (hmem2.2.1 _ hj))
                      (by rw [he]; exact hxmem))
                    (fun he => hfresh2.1 (he ▸ hj))
                have hag_ctx2d : ∀ j ∈ ctxPreIdx ctx2 ++ ctxPostIdx ctx2,
                    (getN (left_rotate sc gp) j).color = (getN s j).color := by
                  intro j hj
                  exact hag j (fun he => hdisjs j (hmem1.2.2 _ (hmem2.2.2 _ hj))
                      (by rw [he]; exact hxmem))
                    (hfresh2.2 j hj)
                refine ⟨left_rotate sc gp,
                  plug ctx2 (ITree.node (ITree.node sib2 gp SL) x (ITree.node SR p sib1)),
                  rfl, hExtD, ?_, ?_, ?_, ?_, ?_, ?_, hpOKD, ?_, ?_, ?_⟩
                · show inorderIdx (plug ctx2 (ITree.node (ITree.node sib2 gp SL) x
                      (ITree.node SR p sib1))) =
                    inorderIdx (plug ctx2 (ITree.node sib2 gp
                      (ITree.node (ITree.node SL x SR) p sib1)))
                  rw [inorder_plug, inorder_plug]
                  simp
                · intro j
                  rw [(hdcD j).1, hshape_c j]
                · rw [hlenD, hlen_c]
                · rw [hsizeD, hsc]
                  simp [hsizeA]
                · rw [hheadD, hsc]
                  simp [hheadA]
                · rw [htailD, hsc]
                  simp [htailA]
                · rw [(hdcD 0).2, hccol 0 (Ne.symm hx0) (Ne.symm hgp0)]
                  exact hsent
                · rw [noRedRedb_plug]
                  simp only [Bool.and_eq_true]
                  constructor
                  · have htp : topColor (left_rotate sc gp)
                        (ITree.node (ITree.node sib2 gp SL) x (ITree.node SR p sib1)) =
                        NodeColor.BLACK := by
                      rw [topColor_node, (hdcD x).2]
                      exact hcx_c
                    rw [htp, ctxRRb_frame hag_ctx2d]
                    exact hrrctx2
                  · rw [noRedRedb_node_true]
                    refine ⟨fun hc => ?_, ?_, ?_⟩
                    · rw [(hdcD x).2, hcx_c] at hc
                      cases hc
                    · rw [noRedRedb_node_true]
                      refine ⟨fun hc => ⟨?_, ?_⟩, ?_, ?_⟩
                      · rw [topColor_frame hag_sib2d]
                        exact htops2
                      · rw [topColor_frame hag_SLd]
                        exact htopSL
                      · rw [noRedRedb_frame hag_sib2d]
                        exact hnrrsib2
                      · rw [noRedRedb_frame hag_SLd]
                        exact hnrrSL
                    · rw [noRedRedb_node_true]
                      refine ⟨fun hc => ⟨?_, ?_⟩, ?_, ?_⟩
                      · rw [topColor_frame hag_SRd]
                        exact htopSR
                      · rw [topColor_frame hag_sib1d]
                        exact htops1
                      · rw [noRedRedb_frame hag_SRd]
                        exact hnrrSR
                      · rw [noRedRedb_frame hag_sib1d]
                        exact hnrrsib1
                · obtain ⟨a, hSLa, hSRa, hsuba, hsib1a, hsib2a, hctxa⟩ :=
                    fix_bh_peel hbh hxred hpr hgpb
                  have fSL : bhOf (left_rotate sc gp) SL = some a := by
                    rw [bhOf_frame hag_SLd]
                    exact hSLa
                  have fSR : bhOf (left_rotate sc gp) SR = some a := by
                    rw [bhOf_frame hag_SRd]
                    exact hSRa
                  have fsib1 : bhOf (left_rotate sc gp) sib1 = some a := by
                    rw [bhOf_frame hag_sib1d]
                    exact hsib1a
                  have fsib2 : bhOf (left_rotate sc gp) sib2 = some a := by
                    rw [bhOf_frame hag_sib2d]
                    exact hsib2a
                  have fleft : bhOf (left_rotate sc gp) (ITree.node sib2 gp SL)
                      = some a := by
                    rw [bhOf_node_intro gp fsib2 fSL,
                      show (getN (left_rotate sc gp) gp).color = NodeColor.RED from by
                        rw [(hdcD gp).2]; exact hcgp_c]
                    simp
                  have fright : bhOf (left_rotate sc gp) (ITree.node SR p sib1)
                      = some a := by
                    rw [bhOf_node_intro p fSR fsib1,
                      show (getN (left_rotate sc gp) p).color = NodeColor.RED from by
                        rw [hag_pd]; exact hpr]
                    simp
                  have ftop : bhOf (left_rotate sc gp)
                      (ITree.node (ITree.node sib2 gp SL) x (ITree.node SR p sib1))
                      = some (a + 1) := by
                    rw [bhOf_node_intro x fleft fright,
                      show (getN (left_rotate sc gp) x).color = NodeColor.BLACK from by
                        rw [(hdcD x).2]; exact hcx_c]
                    simp
                  rw [bhOf_plug ftop, ctxBH_frame hag_ctx2d]
                  exact hctxa
      · -- parent not RED: exit, returning the current state
        rw [if_neg hpr]
        refine ⟨s, plug ((b1, p, sib1) :: ctx1) (ITree.node SL x SR), rfl, hext, rfl,
          fun j => rfl, rfl, rfl, rfl, rfl, hparent, hsent, ?_, hbh⟩
        rw [noRedRedb_plug]
        simp only [Bool.and_eq_true]
        refine ⟨?_, hrrsub⟩
        rw [ctxRRb_cons_true] at hrrctx ⊢
        exact ⟨hrrctx.1, fun hc => absurd hc hpr, hrrctx.2.2⟩

/-! ### Linking the insert descent to a zipper -/

theorem ctxPre_append : ∀ (c1 c2 : List (Bool × Nat × ITree)),
    ctxPreIdx (c1 ++ c2) = ctxPreIdx c2 ++ ctxPreIdx c1 := by
  intro c1
  induction c1 with
  | nil => intro c2; simp [ctxPreIdx]
  | cons hd c1 ih =>
    intro c2
    obtain ⟨b, p, sib⟩ := hd
    cases b
    · rw [List.cons_append, ctxPreIdx, ctxPreIdx, ih, List.append_assoc]
    · rw [List.cons_append, ctxPreIdx, ctxPreIdx, ih]

theorem ctxPost_append : ∀ (c1 c2 : List (Bool × Nat × ITree)),
    ctxPostIdx (c1 ++ c2) = ctxPostIdx c1 ++ ctxPostIdx c2 := by
  intro c1
  induction c1 with
  | nil => intro c2; simp [ctxPostIdx]
  | cons hd c1 ih =>
    intro c2
    obtain ⟨b, p, sib⟩ := hd
    cases b
    · rw [List.cons_append, ctxPostIdx, ctxPostIdx, ih]
    · rw [List.cons_append, ctxPostIdx, ctxPostIdx, ih, List.append_assoc]

theorem holeParentD_append_one (ctx : List (Bool × Nat × ITree)) (b : Bool) (i : Nat)
    (sib : ITree) (y : Nat) :
    holeParentD (ctx ++ [(b, i, sib)]) y = holeParentD ctx i := by
  cases ctx with
  | nil => rfl
  | cons hd tl => obtain ⟨b2, p2, s2⟩ := hd; rfl

/-- When the insert descent falls off the tree, the search path is a
zipper around a leaf hole: everything before the hole is smaller than
`v`, everything after is larger, the reported parent is the hole parent,
and the innermost frame side matches the final comparison. -/
theorem fInsPos_zipper {s : Set} {v : Nat} : ∀ {t : ITree} {y0 : Nat},
    List.Pairwise (· < ·) (valsOf s t) →
    (fInsPos s v t y0).2 = false →
    ∃ ctx, t = plug ctx ITree.leaf ∧
      holeParentD ctx y0 = (fInsPos s v t y0).1 ∧
      (∀ j ∈ ctxPreIdx ctx, (getN s j).data < v) ∧
      (∀ j ∈ ctxPostIdx ctx, v < (getN s j).data) ∧
      (∀ b p sib ctx2, ctx = (b, p, sib) :: ctx2 →
        (b = true → v < (getN s p).data) ∧ (b = false → (getN s p).data < v)) := by
  intro t
  induction t with
  | leaf =>
    intro y0 _ _
    exact ⟨[], rfl, rfl, by simp [ctxPreIdx], by simp [ctxPostIdx],
      fun b p sib ctx2 h => by cases h⟩
  | node l i r ihl ihr =>
    intro y0 hsorted hfalse
    obtain ⟨hsl, hsr, hbl, hbr⟩ := sorted_node_dest hsorted
    rw [fInsPos] at hfalse ⊢
    by_cases h1 : v < (getN s i).data
    · rw [if_pos h1] at hfalse ⊢
      obtain ⟨ctx, hplug, hhole, hpre, hpost, hinner⟩ := ihl hsl hfalse
      refine ⟨ctx ++ [(true, i, r)], ?_, ?_, ?_, ?_, ?_⟩
      · rw [plug_append, ← hplug]
        rfl
      · rw [holeParentD_append_one]
        exact hhole
      · rw [ctxPre_append]
        intro j hj
        rw [List.mem_append] at hj
        rcases hj with hj | hj
        · simp [ctxPreIdx] at hj
        · exact hpre j hj
      · rw [ctxPost_append]
        intro j hj
        rw [List.mem_append] at hj
        rcases hj with hj | hj
        · exact hpost j hj
        · simp only [ctxPostIdx, List.mem_append, List.mem_cons] at hj
          rcases hj with (hj | hj) | hj
          · rw [hj]; exact h1
          · exact lt_trans h1 (hbr _ (by rw [valsOf]; exact List.mem_map_of_mem _ hj))
          · simp [ctxPostIdx] at hj
      · intro b p sib ctx2 heq
        cases hc : ctx with
        | nil =>
          rw [hc] at heq
          simp only [List.nil_append, List.cons.injEq, Prod.mk.injEq] at heq
          obtain ⟨⟨hb, hp, -⟩, -⟩ := heq
          subst hb
          subst hp
          exact ⟨fun _ => h1, fun hfb => by cases hfb⟩
        | cons hd tl =>
          rw [hc, List.cons_append, List.cons.injEq] at heq
          exact hinner b p sib tl (by rw [hc, heq.1])
    · rw [if_neg h1] at hfalse ⊢
      by_cases h2 : (getN s i).data < v
      · rw [if_pos h2] at hfalse ⊢
        obtain ⟨ctx, hplug, hhole, hpre, hpost, hinner⟩ := ihr hsr hfalse
        refine ⟨ctx ++ [(false, i, l)], ?_, ?_, ?_, ?_, ?_⟩
        · rw [plug_append, ← hplug]
          rfl
        · rw [holeParentD_append_one]
          exact hhole
        · rw [ctxPre_append]
          intro j hj
          rw [List.mem_append] at hj
          rcases hj with hj | hj
          · simp only [ctxPreIdx, List.nil_append, List.mem_append,
              List.mem_singleton] at hj
            rcases hj with hj | hj
            · exact lt_trans (hbl _ (by rw [valsOf]; exact List.mem_map_of_mem _ hj)) h2
            · rw [hj]; exact h2
          · exact hpre j hj
        · rw [ctxPost_append]
          intro j hj
          rw [List.mem_append] at hj
          rcases hj with hj | hj
          · exact hpost j hj
          · simp [ctxPostIdx] at hj
        · intro b p sib ctx2 heq
          cases hc : ctx with
          | nil =>
            rw [hc] at heq
            rw [List.nil_append] at heq
            injection heq with h3 h4
            injection h3 with hb hrest
            injection hrest with hp hsib
            subst hb
            subst hp
            exact ⟨fun hfb => Bool.noConfusion hfb, fun _ => h2⟩
          | cons hd tl =>
            rw [hc, List.cons_append, List.cons.injEq] at heq
            exact hinner b p sib tl (by rw [hc, heq.1])
      · rw [if_neg h2] at hfalse
        cases hfalse

/-! ### Arena extension -/

theorem getN_append_lt {s : Set} {nn : Node} {j : Nat} (h : j < s.nodes.length) :
    getN { s with nodes := s.nodes ++ [nn] } j = getN s j := by
  unfold getN
  rw [List.getD, List.getD, List.get?_append h]

theorem getN_append_self {s : Set} {nn : Node} :
    getN { s with nodes := s.nodes ++ [nn] } s.nodes.length = nn := by
  unfold getN
  rw [List.getD, List.get?_append_right (Nat.le_refl _)]
  simp

theorem ctxlen_le : ∀ (ctx : List (Bool × Nat × ITree)),
    ctx.length ≤ (ctxPreIdx ctx ++ ctxPostIdx ctx).length := by
  intro ctx
  induction ctx with
  | nil => simp [ctxPreIdx, ctxPostIdx]
  | cons hd ctx ih =>
    obtain ⟨b, p, sib⟩ := hd
    cases b <;>
      simp only [ctxPreIdx, ctxPostIdx, List.length_cons, List.length_append] <;>
      simp only [List.length_append, List.length_cons, List.length_singleton] at ih ⊢ <;>
      omega

/-- Repainting the root BLACK keeps red-red freedom. -/
theorem noRedRedb_paint_root {s : Set} {t : ITree}
    (hnrr : noRedRedb s t = true) (hnd : (inorderIdx t).Nodup)
    (hlt : rootIdx t < s.nodes.length) :
    noRedRedb (setColor s (rootIdx t) NodeColor.BLACK) t = true := by
  cases t with
  | leaf => rfl
  | node l i r =>
    rw [rootIdx] at hlt ⊢
    rw [inorderIdx_node, List.nodup_append] at hnd
    obtain ⟨-, hnd2, hdisj⟩ := hnd
    rw [List.nodup_cons] at hnd2
    have hil : i ∉ inorderIdx l := fun hm => hdisj hm (by simp)
    have hir : i ∉ inorderIdx r := hnd2.1
    rw [noRedRedb_node_true] at hnrr ⊢
    obtain ⟨-, hl, hr⟩ := hnrr
    have hagl : ∀ j ∈ inorderIdx l,
        (getN (setColor s i NodeColor.BLACK) j).color = (getN s j).color :=
      fun j hj => color_setColor_other (fun he => hil (by rw [he]; exact hj)) _
    have hagr : ∀ j ∈ inorderIdx r,
        (getN (setColor s i NodeColor.BLACK) j).color = (getN s j).color :=
      fun j hj => color_setColor_other (fun he => hir (by rw [he]; exact hj)) _
    refine ⟨fun hc => ?_, ?_, ?_⟩
    · rw [color_setColor_same hlt] at hc
      cases hc
    · rw [noRedRedb_frame hagl]
      exact hl
    · rw [noRedRedb_frame hagr]
      exact hr

/-- Repainting the root BLACK keeps the black height well defined. -/
theorem bhOf_paint_root_isSome {s : Set} {t : ITree}
    (hbh : (bhOf s t).isSome = true) (hnd : (inorderIdx t).Nodup) :
    (bhOf (setColor s (rootIdx t) NodeColor.BLACK) t).isSome = true := by
  cases t with
  | leaf => rfl
  | node l i r =>
    rw [rootIdx]
    rw [inorderIdx_node, List.nodup_append] at hnd
    obtain ⟨-, hnd2, hdisj⟩ := hnd
    rw [List.nodup_cons] at hnd2
    have hil : i ∉ inorderIdx l := fun hm => hdisj hm (by simp)
    have hir : i ∉ inorderIdx r := hnd2.1
    cases hb : bhOf s (ITree.node l i r) with
    | none => rw [hb] at hbh; cases hbh
    | some n =>
    obtain ⟨a, hla, hra, -⟩ := bhOf_node_elim hb
    have hagl : ∀ j ∈ inorderIdx l,
        (getN (setColor s i NodeColor.BLACK) j).color = (getN s j).color :=
      fun j hj => color_setColor_other (fun he => hil (by rw [he]; exact hj)) _
    have hagr : ∀ j ∈ inorderIdx r,
        (getN (setColor s i NodeColor.BLACK) j).color = (getN s j).color :=
      fun j hj => color_setColor_other (fun he => hir (by rw [he]; exact hj)) _
    rw [bhOf_node_intro i (by rw [bhOf_frame hagl]; exact hla)
      (by rw [bhOf_frame hagr]; exact hra)]
    rfl

theorem headD_append_cons (l1 : List Nat) (a : Nat) (l2 : List Nat) (d : Nat) :
    (l1 ++ a :: l2).headD d = l1.headD a := by
  cases l1 <;> rfl

theorem getLastD_append_cons : ∀ (l1 : List Nat) (a : Nat) (l2 : List Nat) (d : Nat),
    (l1 ++ a :: l2).getLastD d = l2.getLastD a := by
  intro l1
  induction l1 with
  | nil =>
    intro a l2 d
    rw [List.nil_append, List.getLastD_cons]
  | cons b l1 ih =>
    intro a l2 d
    rw [List.cons_append, List.getLastD_cons, ih]

/-- Running the fix-up from a freshly linked RED leaf re-establishes full
well-formedness, preserving the payload sequence and the bookkeeping
fields. -/
theorem insert_finish {s5 : Set} {ctx : List (Bool × Nat × ITree)} {zi : Nat}
    (hfix : FixInv s5 ctx (ITree.node ITree.leaf zi ITree.leaf))
    (hfuel : ctx.length + 1 ≤ s5.nodes.length)
    (hsorted5 : List.Pairwise (· < ·)
      (valsOf s5 (plug ctx (ITree.node ITree.leaf zi ITree.leaf))))
    (hsize5 : s5.size_ =
      (inorderIdx (plug ctx (ITree.node ITree.leaf zi ITree.leaf))).length)
    (hhead5 : s5.head_ =
      (inorderIdx (plug ctx (ITree.node ITree.leaf zi ITree.leaf))).headD 0)
    (htail5 : s5.tail_ =
      (inorderIdx (plug ctx (ITree.node ITree.leaf zi ITree.leaf))).getLastD 0) :
    ∃ s2 t2, insert_fix_up s5 zi s5.nodes.length = some s2 ∧ WFData s2 t2 ∧
      s2.size_ = s5.size_ ∧
      valsOf s2 t2 = valsOf s5 (plug ctx (ITree.node ITree.leaf zi ITree.leaf)) := by
  have hidx5 := hfix.hidx
  have hnodup5 := hfix.hnodup
  have hlen5 : 0 < s5.nodes.length := by omega
  have hpost := insertFixUpLoop_ok s5.nodes.length s5 ctx _ hfix hfuel
  rw [show rootIdx (ITree.node ITree.leaf zi ITree.leaf) = zi from rfl] at hpost
  obtain ⟨s', T', hrun, hExt', hio, hdata, hlen', hsize', hhead', htail', hpOK',
    hsent', hrr', hbh'⟩ := hpost
  rw [insert_fix_up, hrun, Option.map_some']
  have hroots : rootIdx T' = s'.root_ := Ext_rootIdx hExt'
  -- T' is not the leaf: its member list contains zi
  have hzimem : zi ∈ inorderIdx T' := by
    rw [hio]
    exact sub_mem_plug (by simp)
  have hTne : T' ≠ ITree.leaf := by
    intro he
    rw [he] at hzimem
    simp [inorderIdx] at hzimem
  have hrootmem : rootIdx T' ∈ inorderIdx T' := by
    cases T' with
    | leaf => exact absurd rfl hTne
    | node l i r => simp [rootIdx]
  have hidxT : ∀ j ∈ inorderIdx T', j ≠ 0 ∧ j < s'.nodes.length := by
    intro j hj
    rw [hlen']
    refine hidx5 j ?_
    rw [← hio]
    exact hj
  have hrootrange := hidxT _ hrootmem
  have hnodupT : (inorderIdx T').Nodup := by
    rw [hio]
    exact hnodup5
  have hvalseq : valsOf (setColor s' s'.root_ NodeColor.BLACK) T' =
      valsOf s5 (plug ctx (ITree.node ITree.leaf zi ITree.leaf)) := by
    rw [valsOf, valsOf, ← hio]
    refine List.map_congr_left ?_
    intro j _
    rw [(setColor_shape _ _ _ _).2.2.1, hdata j]
  refine ⟨setColor s' s'.root_ NodeColor.BLACK, T', rfl, ?_, ?_, hvalseq⟩
  · refine ⟨?_, ?_, ?_, ?_, ?_, ?_, ?_, ?_, ?_, ?_, ?_, ?_, ?_⟩
    · simp only [length_setColor]
      omega
    · refine Ext_to_extract (Ext_setColor _ _ hExt') ?_
      have hd := depthT_le_length T'
      have hlt : (inorderIdx T').length < s'.nodes.length :=
        inorder_length_lt hidxT hnodupT (by omega)
      simp only [length_setColor]
      omega
    · intro j hj
      simp only [length_setColor]
      exact hidxT j hj
    · exact hnodupT
    · rw [parentOKb_setColor]
      exact hpOK'
    · rw [hvalseq]
      exact hsorted5
    · simp only [size_setColor]
      rw [hsize', hsize5, hio]
    · simp only [head_setColor]
      rw [hhead', hhead5, hio]
    · simp only [tail_setColor]
      rw [htail', htail5, hio]
    · rw [color_setColor_other ?_]
      · exact hsent'
      · rw [← hroots]
        exact hrootrange.1
    · show (getN (setColor s' s'.root_ NodeColor.BLACK) s'.root_).color = NodeColor.BLACK
      rw [color_setColor_same]
      rw [← hroots]
      exact hrootrange.2
    · rw [show s'.root_ = rootIdx T' from hroots.symm]
      refine noRedRedb_paint_root hrr' hnodupT ?_
      exact hrootrange.2
    · rw [show s'.root_ = rootIdx T' from hroots.symm]
      exact bhOf_paint_root_isSome hbh' hnodupT
  · simp only [size_setColor]
    exact hsize'

/-- Linking a fresh RED node into the hole of the search-path zipper
establishes the fix-up invariant, and hence a well-formed result with the
value spliced into the payload sequence. -/
theorem insert_fixinv {s : Set} {v y : Nat} {ctx : List (Bool × Nat × ITree)} {s5 : Set}
    (w : WFData s (plug ctx ITree.leaf))
    (hhole : holeParentD ctx 0 = y)
    (hpre : ∀ j ∈ ctxPreIdx ctx, (getN s j).data < v)
    (hpost : ∀ j ∈ ctxPostIdx ctx, v < (getN s j).data)
    (hlen5 : s5.nodes.length = s.nodes.length + 1)
    (hroot5 : s5.root_ = plugRootIdx ctx s.nodes.length)
    (hsize5 : s5.size_ = s.size_ + 1)
    (hhead5 : s5.head_ = (ctxPreIdx ctx ++ s.nodes.length :: ctxPostIdx ctx).headD 0)
    (htail5 : s5.tail_ = (ctxPreIdx ctx ++ s.nodes.length :: ctxPostIdx ctx).getLastD 0)
    (hgzi : getN s5 s.nodes.length = ⟨v, NodeColor.RED, 0, 0, y⟩)
    (hgold : ∀ j, j < s.nodes.length → (getN s5 j).data = (getN s j).data ∧
      (getN s5 j).color = (getN s j).color ∧ (getN s5 j).parent = (getN s j).parent)
    (hglr : ∀ j, j < s.nodes.length → j ≠ y → (getN s5 j).left = (getN s j).left ∧
      (getN s5 j).right = (getN s j).right)
    (hlink : ∀ b sib ctx0, ctx = (b, y, sib) :: ctx0 →
      (b = true → (getN s5 y).left = s.nodes.length ∧
        (getN s5 y).right = (getN s y).right) ∧
      (b = false → (getN s5 y).right = s.nodes.length ∧
        (getN s5 y).left = (getN s y).left)) :
    ∃ s2 t2, insert_fix_up s5 s.nodes.length s5.nodes.length = some s2 ∧ WFData s2 t2 ∧
      s2.size_ = s.size_ + 1 ∧
      valsOf s2 t2 = (ctxPreIdx ctx).map (fun j => (getN s j).data) ++ v ::
        (ctxPostIdx ctx).map (fun j => (getN s j).data) := by
  obtain ⟨hlen, hext, hidx, hnodup, hparent, hsorted, hsize, hhead, htail, hsent,
    hrootb, hrr, hbh⟩ := w
  -- the old member list
  have hiot : inorderIdx (plug ctx ITree.leaf) = ctxPreIdx ctx ++ ctxPostIdx ctx := by
    rw [inorder_plug]
    simp [inorderIdx]
  have hionew : inorderIdx (plug ctx (ITree.node ITree.leaf s.nodes.length ITree.leaf)) =
      ctxPreIdx ctx ++ s.nodes.length :: ctxPostIdx ctx := by
    rw [inorder_plug]
    simp [inorderIdx]
  have hmem : ∀ j ∈ ctxPreIdx ctx ++ ctxPostIdx ctx, j ≠ 0 ∧ j < s.nodes.length := by
    intro j hj
    refine hidx j ?_
    rw [hiot]
    exact hj
  -- realization of the old context around the empty hole
  obtain ⟨hreal0, -, hr0⟩ := Ext_plug_elim ⟨s.nodes.length, hext⟩
  rw [show rootIdx ITree.leaf = 0 from rfl] at hreal0 hr0
  -- parent decomposition of the old tree
  have hparent0 := hparent
  rw [parentOKb_plug] at hparent0
  obtain ⟨-, hpctx0⟩ := hparent0
  -- red-red decomposition of the old tree
  have hrr0 := hrr
  rw [noRedRedb_plug, Bool.and_eq_true] at hrr0
  obtain ⟨hrrctx0, -⟩ := hrr0
  -- field agreement on the old slots
  have hg5 : ∀ j ∈ ctxPreIdx ctx ++ ctxPostIdx ctx,
      (getN s5 j).color = (getN s j).color := fun j hj => (hgold j (hmem j hj).2).2.1
  have hg5p : ∀ j ∈ ctxPreIdx ctx ++ ctxPostIdx ctx,
      (getN s5 j).parent = (getN s j).parent := fun j hj => (hgold j (hmem j hj).2).2.2
  -- the new extraction
  have hzine : s.nodes.length ≠ 0 := by omega
  have hExtHole : Ext s5 s.nodes.length
      (ITree.node ITree.leaf s.nodes.length ITree.leaf) := by
    refine Ext_node_intro hzine ?_ ?_
    · rw [hgzi]
      exact Ext_leaf s5
    · rw [hgzi]
      exact Ext_leaf s5
  have hreal5 : ctxRealized s5 ctx s.nodes.length := by
    cases hc : ctx with
    | nil => trivial
    | cons f1 ctx0 =>
      obtain ⟨b0, p0, sib0⟩ := f1
      have hyp0 : y = p0 := by rw [hc] at hhole; exact hhole.symm
      subst hyp0
      rw [hc] at hreal0 hnodup hiot hmem
      have hfr1 := ctx_head_fresh (by
        rw [hiot] at hnodup
        exact hnodup)
      have hymem1 := (@ctx_members_cons b0 y sib0 ctx0).1
      have hylt : y < s.nodes.length := (hmem y hymem1).2
      have hagsib : ∀ j ∈ inorderIdx sib0, (getN s5 j).left = (getN s j).left ∧
          (getN s5 j).right = (getN s j).right := by
        intro j hj
        have hjm := (@ctx_members_cons b0 y sib0 ctx0).2.1 _ hj
        exact hglr j (hmem j hjm).2 (fun he => hfr1.1 (by rw [← he]; exact hj))
      have hagrest : ∀ j ∈ ctxPreIdx ctx0 ++ ctxPostIdx ctx0,
          (getN s5 j).left = (getN s j).left ∧
          (getN s5 j).right = (getN s j).right := by
        intro j hj
        have hjm := (@ctx_members_cons b0 y sib0 ctx0).2.2 _ hj
        exact hglr j (hmem j hjm).2 (hfr1.2 j hj)
      cases b0 with
      | true =>
        obtain ⟨hy0, hfy, hsib, hrest⟩ := hreal0
        obtain ⟨hlk, -⟩ := hlink true sib0 ctx0 hc
        obtain ⟨hlkl, hlkr⟩ := hlk rfl
        exact ⟨hy0, hlkl, by rw [hlkr]; exact Ext_frame hsib hagsib,
          ctxRealized_frame hagrest hrest⟩
      | false =>
        obtain ⟨hy0, hfy, hsib, hrest⟩ := hreal0
        obtain ⟨-, hlk⟩ := hlink false sib0 ctx0 hc
        obtain ⟨hlkr, hlkl⟩ := hlk rfl
        exact ⟨hy0, hlkr, by rw [hlkl]; exact Ext_frame hsib hagsib,
          ctxRealized_frame hagrest hrest⟩
  have hext5 : Ext s5 s5.root_
      (plug ctx (ITree.node ITree.leaf s.nodes.length ITree.leaf)) := by
    rw [hroot5]
    exact Ext_plug_intro hreal5 hExtHole
  -- index facts for the new tree
  have hidx5 : ∀ j ∈ inorderIdx
      (plug ctx (ITree.node ITree.leaf s.nodes.length ITree.leaf)),
      j ≠ 0 ∧ j < s5.nodes.length := by
    intro j hj
    rw [hionew, List.mem_append, List.mem_cons] at hj
    rw [hlen5]
    rcases hj with hj | hj | hj
    · have := hmem j (List.mem_append.mpr (Or.inl hj))
      omega
    · omega
    · have := hmem j (List.mem_append.mpr (Or.inr hj))
      omega
  have hnodup5 : (inorderIdx
      (plug ctx (ITree.node ITree.leaf s.nodes.length ITree.leaf))).Nodup := by
    rw [hionew]
    rw [List.nodup_middle]
    rw [List.nodup_cons]
    constructor
    · intro hm
      have := hmem _ hm
      omega
    · rw [← hiot]
      exact hnodup
  -- parent coherence
  have hparent5 : parentOKb s5
      (plug ctx (ITree.node ITree.leaf s.nodes.length ITree.leaf)) 0 = true := by
    rw [parentOKb_plug]
    constructor
    · rw [parentOKb_node]
      refine ⟨?_, rfl, rfl⟩
      rw [hgzi]
      exact hhole.symm
    · rw [ctxParentOKb_frame hg5p]
      exact hpctx0
  -- the invariant
  have hfix : FixInv s5 ctx (ITree.node ITree.leaf s.nodes.length ITree.leaf) := by
    refine ⟨hext5, hidx5, hnodup5, hparent5, ?_, fun h => ITree.noConfusion h, ?_, ?_,
      ?_, ?_, ?_⟩
    · rw [(hgold 0 hlen).2.1]
      exact hsent
    · rw [show rootIdx (ITree.node ITree.leaf s.nodes.length ITree.leaf) =
        s.nodes.length from rfl, hgzi]
    · rw [noRedRedb_node_true]
      exact ⟨fun _ => ⟨rfl, rfl⟩, rfl, rfl⟩
    · rw [ctxRRb_frame hg5]
      rw [noRedRedb_plug, Bool.and_eq_true] at hrr
      exact hrr.1
    · have hsub : bhOf s5 (ITree.node ITree.leaf s.nodes.length ITree.leaf) =
          some 0 := by
        rw [bhOf_node_intro s.nodes.length (show bhOf s5 ITree.leaf = some 0 from rfl)
          (show bhOf s5 ITree.leaf = some 0 from rfl), hgzi]
        rfl
      rw [bhOf_plug hsub, ctxBH_frame hg5, ← bhOf_plug (show bhOf s ITree.leaf =
        some 0 from rfl)]
      exact hbh
    · cases hc : ctx with
      | nil => exact Or.inl rfl
      | cons f1 ctx0 =>
        right
        obtain ⟨b0, p0, sib0⟩ := f1
        rw [hc] at hr0
        have hroot5v : plugRootIdx ((b0, p0, sib0) :: ctx0)
            (rootIdx (ITree.node ITree.leaf s.nodes.length ITree.leaf)) = s.root_ :=
          hr0.symm
        rw [hroot5v]
        have hrootmem : s.root_ ∈ ctxPreIdx ctx ++ ctxPostIdx ctx := by
          rw [hr0, hc]
          exact plugRootIdx_mem (fun h => List.noConfusion h)
        rw [(hgold s.root_ (hmem _ hrootmem).2).2.1]
        exact hrootb
  -- fuel
  have hfuel : ctx.length + 1 ≤ s5.nodes.length := by
    have h1 := ctxlen_le ctx
    have h2 : (inorderIdx (plug ctx ITree.leaf)).length < s.nodes.length :=
      inorder_length_lt hidx hnodup hlen
    rw [hiot, List.length_append] at h2
    rw [List.length_append] at h1
    omega
  -- payload sequence of the new tree
  have hvals5 : valsOf s5 (plug ctx (ITree.node ITree.leaf s.nodes.length ITree.leaf)) =
      (ctxPreIdx ctx).map (fun j => (getN s j).data) ++ v ::
        (ctxPostIdx ctx).map (fun j => (getN s j).data) := by
    rw [valsOf, hionew, List.map_append, List.map_cons]
    congr 1
    · refine List.map_congr_left ?_
      intro j hj
      exact (hgold j (hmem j (List.mem_append.mpr (Or.inl hj))).2).1
    · congr 1
      · rw [hgzi]
      · refine List.map_congr_left ?_
        intro j hj
        exact (hgold j (hmem j (List.mem_append.mpr (Or.inr hj))).2).1
  have hsorted5 : List.Pairwise (· < ·)
      (valsOf s5 (plug ctx (ITree.node ITree.leaf s.nodes.length ITree.leaf))) := by
    rw [hvals5]
    have hold := hsorted
    rw [valsOf, hiot, List.map_append] at hold
    rw [List.pairwise_append] at hold ⊢
    obtain ⟨hp1, hp2, hp3⟩ := hold
    refine ⟨hp1, ?_, ?_⟩
    · rw [List.pairwise_cons]
      refine ⟨?_, hp2⟩
      intro a ha
      rw [List.mem_map] at ha
      obtain ⟨j, hj, hja⟩ := ha
      rw [← hja]
      exact hpost j hj
    · intro a ha b hb
      rw [List.mem_cons] at hb
      rw [List.mem_map] at ha
      obtain ⟨j, hj, hja⟩ := ha
      rcases hb with hb | hb
      · rw [← hja, hb]
        exact hpre j hj
      · exact hp3 a (by rw [← hja]; exact List.mem_map_of_mem _ hj) b hb
  -- size, head, tail
  have hsize5' : s5.size_ =
      (inorderIdx (plug ctx (ITree.node ITree.leaf s.nodes.length ITree.leaf))).length := by
    rw [hionew, hsize5, hsize, hiot]
    simp only [List.length_append, List.length_cons]
    omega
  have hhead5' : s5.head_ =
      (inorderIdx (plug ctx (ITree.node ITree.leaf s.nodes.length ITree.leaf))).headD
        0 := by
    rw [hionew, hhead5]
  have htail5' : s5.tail_ =
      (inorderIdx (plug ctx (ITree.node ITree.leaf s.nodes.length ITree.leaf))).getLastD
        0 := by
    rw [hionew, htail5]
  obtain ⟨s2, t2, hfin, hwf2, hsz2, hvals2⟩ :=
    insert_finish hfix hfuel hsorted5 hsize5' hhead5' htail5'
  refine ⟨s2, t2, hfin, hwf2, ?_, ?_⟩
  · rw [hsz2, hsize5]
  · rw [hvals2, hvals5]


/-! ### Insertion of an absent value -/

/-- `z = new Node(value, RED, terminal_, terminal_, y)`: the allocation
step of `Set::insert`, appending the fresh RED node to the arena. -/
def insertNode (s : Set) (v y : Nat) : Set :=
  { s with nodes := s.nodes ++ [⟨v, NodeColor.RED, 0, 0, y⟩] }

/-- `if (head_ == terminal_ || comparator_(value, head_->value)) head_ = z;` -/
def insertHead (s1 : Set) (v zi : Nat) : Set :=
  if s1.head_ = 0 ∨ v < (getN s1 s1.head_).data then { s1 with head_ := zi } else s1

/-- `if (tail_ == terminal_ || comparator_(tail_->value, value)) tail_ = z;` -/
def insertTail (s2 : Set) (v zi : Nat) : Set :=
  if s2.tail_ = 0 ∨ (getN s2 s2.tail_).data < v then { s2 with tail_ := zi } else s2

/-- Linking `z` below the final descent node `y` (as the new root when
`y` is the sentinel). -/
def insertAttach (s3 : Set) (v y zi : Nat) : Set :=
  if y = 0 then { s3 with root_ := zi }
  else if v < (getN s3 y).data then setLeft s3 y zi
  else setRight s3 y zi

/-- The complete state mutation of `Set::insert` between the failed
descent and the fix-up call (including `++size_`). -/
def insertLink (s : Set) (v y : Nat) : Set :=
  { insertAttach (insertTail (insertHead (insertNode s v y) v s.nodes.length)
      v s.nodes.length) v y s.nodes.length with
    size_ := (insertAttach (insertTail (insertHead (insertNode s v y) v s.nodes.length)
      v s.nodes.length) v y s.nodes.length).size_ + 1 }

/-- On a failed descent `Set::insert` is the link step followed by the
fix-up. -/
theorem insert_eq_link {s : Set} {v y : Nat}
    (h : insertLoop s v s.nodes.length 0 s.root_ = some (y, false)) :
    insert s v =
      insert_fix_up (insertLink s v y) s.nodes.length
        (insertLink s v y).nodes.length := by
  rw [insert, h]
  rfl

theorem getN_insertNode_lt {s : Set} {v y j : Nat} (h : j < s.nodes.length) :
    getN (insertNode s v y) j = getN s j := getN_append_lt h

theorem getN_insertNode_self {s : Set} {v y : Nat} :
    getN (insertNode s v y) s.nodes.length = ⟨v, NodeColor.RED, 0, 0, y⟩ :=
  getN_append_self

theorem length_insertNode (s : Set) (v y : Nat) :
    (insertNode s v y).nodes.length = s.nodes.length + 1 := by
  simp [insertNode]

theorem getLastD_mem : ∀ (l : List Nat) (a : Nat), l.getLastD a ∈ a :: l
  | [], a => List.mem_cons_self a []
  | b :: l, a => by
    rw [List.getLastD_cons]
    rcases List.mem_cons.mp (getLastD_mem l b) with h | h
    · rw [h]
      exact List.mem_cons.mpr (Or.inr (List.mem_cons_self b l))
    · exact List.mem_cons.mpr (Or.inr (List.mem_cons.mpr (Or.inr h)))

/-- Resolving the head-update conditional: the new head is the head of
the updated in-order sequence. -/
theorem insertHead_collapse {s1 : Set} {v zi : Nat} {pre post : List Nat}
    (hh : s1.head_ = (pre ++ post).headD 0)
    (hgpre : ∀ j ∈ pre, j ≠ 0 ∧ (getN s1 j).data < v)
    (hgpost : ∀ j ∈ post, v < (getN s1 j).data) :
    insertHead s1 v zi = { s1 with head_ := (pre ++ zi :: post).headD 0 } := by
  rw [insertHead]
  cases pre with
  | nil =>
    refine if_pos ?_
    cases post with
    | nil => exact Or.inl hh
    | cons q rest =>
      refine Or.inr ?_
      rw [show s1.head_ = q from hh]
      exact hgpost q (List.mem_cons_self q rest)
  | cons a rest =>
    have hh' : s1.head_ = a := hh
    have ha := hgpre a (List.mem_cons_self a rest)
    have hnc : ¬(s1.head_ = 0 ∨ v < (getN s1 s1.head_).data) := by
      rintro (h0 | hlt)
      · exact ha.1 (hh'.symm.trans h0)
      · rw [hh'] at hlt
        have h2 := ha.2
        omega
    refine (if_neg hnc).trans ?_
    show s1 = { s1 with head_ := ((a :: rest) ++ zi :: post).headD 0 }
    rw [show ((a :: rest) ++ zi :: post).headD 0 = s1.head_ from hh'.symm]

/-- Resolving the tail-update conditional: the new tail is the last
element of the updated in-order sequence. -/
theorem insertTail_collapse {s2 : Set} {v zi : Nat} {pre post : List Nat}
    (ht : s2.tail_ = (pre ++ post).getLastD 0)
    (hgpre : ∀ j ∈ pre, (getN s2 j).data < v)
    (hgpost : ∀ j ∈ post, j ≠ 0 ∧ v < (getN s2 j).data) :
    insertTail s2 v zi = { s2 with tail_ := (pre ++ zi :: post).getLastD 0 } := by
  rw [insertTail]
  cases post with
  | nil =>
    refine Eq.trans (if_pos ?_) ?_
    · cases hpre : pre with
      | nil =>
        refine Or.inl ?_
        rw [ht, hpre, List.nil_append, List.getLastD_nil]
      | cons p ps =>
        refine Or.inr ?_
        rw [show s2.tail_ = ps.getLastD p from by
          rw [ht, hpre, List.append_nil, List.getLastD_cons]]
        refine hgpre (ps.getLastD p) ?_
        rw [hpre]
        exact getLastD_mem ps p
    · rw [show (pre ++ zi :: ([] : List Nat)).getLastD 0 = zi from by
        rw [getLastD_append_cons, List.getLastD_nil]]
  | cons q rest =>
    have hq := hgpost (rest.getLastD q) (getLastD_mem rest q)
    have ht' : s2.tail_ = rest.getLastD q := by
      rw [ht, getLastD_append_cons]
    have hnc : ¬(s2.tail_ = 0 ∨ (getN s2 s2.tail_).data < v) := by
      rintro (h0 | hlt)
      · exact hq.1 (ht'.symm.trans h0)
      · rw [ht'] at hlt
        have h2 := hq.2
        omega
    refine (if_neg hnc).trans ?_
    show s2 = { s2 with tail_ := (pre ++ zi :: q :: rest).getLastD 0 }
    rw [getLastD_append_cons, List.getLastD_cons, ← ht']


/-- Linking a fresh node below the descent node `p0` (the inner-frame
parent of the search-path zipper) and running the fix-up produces a
well-formed state with `v` spliced into the payload sequence. -/
theorem insertLink_fixup_ok {s : Set} {v p0 HD TL : Nat} {b0 : Bool} {sib0 : ITree}
    {ctx0 : List (Bool × Nat × ITree)}
    (w : WFData s (plug ((b0, p0, sib0) :: ctx0) ITree.leaf))
    (hpre : ∀ j ∈ ctxPreIdx ((b0, p0, sib0) :: ctx0), (getN s j).data < v)
    (hpost : ∀ j ∈ ctxPostIdx ((b0, p0, sib0) :: ctx0), v < (getN s j).data)
    (hinner : (b0 = true → v < (getN s p0).data) ∧
      (b0 = false → (getN s p0).data < v))
    (hHD : HD = (ctxPreIdx ((b0, p0, sib0) :: ctx0) ++
      s.nodes.length :: ctxPostIdx ((b0, p0, sib0) :: ctx0)).headD 0)
    (hTL : TL = (ctxPreIdx ((b0, p0, sib0) :: ctx0) ++
      s.nodes.length :: ctxPostIdx ((b0, p0, sib0) :: ctx0)).getLastD 0) :
    ∃ s2 t2,
      insert_fix_up (insertLink s v p0) s.nodes.length
          (insertLink s v p0).nodes.length = some s2 ∧
        WFData s2 t2 ∧ s2.size_ = s.size_ + 1 ∧
        valsOf s2 t2 =
          (ctxPreIdx ((b0, p0, sib0) :: ctx0)).map (fun j => (getN s j).data) ++
            v :: (ctxPostIdx ((b0, p0, sib0) :: ctx0)).map (fun j => (getN s j).data) := by
  have hiot : inorderIdx (plug ((b0, p0, sib0) :: ctx0) ITree.leaf) =
      ctxPreIdx ((b0, p0, sib0) :: ctx0) ++ ctxPostIdx ((b0, p0, sib0) :: ctx0) := by
    rw [inorder_plug]
    simp [inorderIdx]
  have hmem : ∀ j ∈ ctxPreIdx ((b0, p0, sib0) :: ctx0) ++
      ctxPostIdx ((b0, p0, sib0) :: ctx0), j ≠ 0 ∧ j < s.nodes.length := by
    intro j hj
    refine w.hidx j ?_
    rw [hiot]
    exact hj
  obtain ⟨-, -, hr0⟩ := Ext_plug_elim
    (⟨s.nodes.length, w.hext⟩ : Ext s s.root_
      (plug ((b0, p0, sib0) :: ctx0) ITree.leaf))
  have hprange := hmem p0 ctx_members_cons.1
  have hgpre1 : ∀ j ∈ ctxPreIdx ((b0, p0, sib0) :: ctx0),
      j ≠ 0 ∧ (getN (insertNode s v p0) j).data < v := by
    intro j hj
    have hm := hmem j (List.mem_append.mpr (Or.inl hj))
    refine ⟨hm.1, ?_⟩
    rw [getN_insertNode_lt hm.2]
    exact hpre j hj
  have hgpost1 : ∀ j ∈ ctxPostIdx ((b0, p0, sib0) :: ctx0),
      j ≠ 0 ∧ v < (getN (insertNode s v p0) j).data := by
    intro j hj
    have hm := hmem j (List.mem_append.mpr (Or.inr hj))
    refine ⟨hm.1, ?_⟩
    rw [getN_insertNode_lt hm.2]
    exact hpost j hj
  have hH : insertHead (insertNode s v p0) v s.nodes.length =
      { insertNode s v p0 with head_ := HD } := by
    rw [hHD]
    exact insertHead_collapse
      (by show s.head_ = _
          rw [w.hhead, hiot])
      hgpre1 (fun j hj => (hgpost1 j hj).2)
  have hT : insertTail { insertNode s v p0 with head_ := HD } v s.nodes.length =
      { { insertNode s v p0 with head_ := HD } with tail_ := TL } := by
    rw [hTL]
    exact insertTail_collapse
      (by show s.tail_ = _
          rw [w.htail, hiot])
      (fun j hj => (hgpre1 j hj).2) hgpost1
  have hlST : ({ { insertNode s v p0 with head_ := HD } with
      tail_ := TL } : Set).nodes.length = s.nodes.length + 1 :=
    length_insertNode s v p0
  have hplt : p0 < ({ { insertNode s v p0 with head_ := HD } with
      tail_ := TL } : Set).nodes.length := by
    rw [hlST]
    omega
  have hgstp : getN { { insertNode s v p0 with head_ := HD } with tail_ := TL } p0 =
      getN s p0 := getN_insertNode_lt hprange.2
  cases b0 with
  | true =>
    have hdv : v < (getN s p0).data := hinner.1 rfl
    have hA : insertAttach { { insertNode s v p0 with head_ := HD } with tail_ := TL }
        v p0 s.nodes.length =
        setLeft { { insertNode s v p0 with head_ := HD } with tail_ := TL } p0
          s.nodes.length := by
      rw [insertAttach, if_neg hprange.1]
      exact if_pos (by rw [hgstp]; exact hdv)
    have hIL : insertLink s v p0 =
        { setLeft { { insertNode s v p0 with head_ := HD } with tail_ := TL } p0
            s.nodes.length with size_ := s.size_ + 1 } := by
      rw [insertLink, hH, hT, hA]
      rfl
    have hlen5 : ({ setLeft { { insertNode s v p0 with head_ := HD } with
        tail_ := TL } p0 s.nodes.length with
        size_ := s.size_ + 1 } : Set).nodes.length = s.nodes.length + 1 := by
      show (setLeft { { insertNode s v p0 with head_ := HD } with tail_ := TL } p0
        s.nodes.length).nodes.length = s.nodes.length + 1
      rw [length_setLeft]
      exact length_insertNode s v p0
    have hroot5 : ({ setLeft { { insertNode s v p0 with head_ := HD } with
        tail_ := TL } p0 s.nodes.length with size_ := s.size_ + 1 } : Set).root_ =
        plugRootIdx ((true, p0, sib0) :: ctx0) s.nodes.length := hr0
    have hsize5 : ({ setLeft { { insertNode s v p0 with head_ := HD } with
        tail_ := TL } p0 s.nodes.length with size_ := s.size_ + 1 } : Set).size_ =
        s.size_ + 1 := rfl
    have hhead5 : ({ setLeft { { insertNode s v p0 with head_ := HD } with
        tail_ := TL } p0 s.nodes.length with size_ := s.size_ + 1 } : Set).head_ =
        (ctxPreIdx ((true, p0, sib0) :: ctx0) ++
          s.nodes.length :: ctxPostIdx ((true, p0, sib0) :: ctx0)).headD 0 := hHD
    have htail5 : ({ setLeft { { insertNode s v p0 with head_ := HD } with
        tail_ := TL } p0 s.nodes.length with size_ := s.size_ + 1 } : Set).tail_ =
        (ctxPreIdx ((true, p0, sib0) :: ctx0) ++
          s.nodes.length :: ctxPostIdx ((true, p0, sib0) :: ctx0)).getLastD 0 := hTL
    have hgzi : getN ({ setLeft { { insertNode s v p0 with head_ := HD } with
        tail_ := TL } p0 s.nodes.length with size_ := s.size_ + 1 } : Set)
        s.nodes.length = ⟨v, NodeColor.RED, 0, 0, p0⟩ := by
      have h1 := getN_setLeft_other
        (s := { { insertNode s v p0 with head_ := HD } with tail_ := TL })
        (show p0 ≠ s.nodes.length from by omega) s.nodes.length
      exact h1.trans getN_insertNode_self
    have hgold : ∀ j, j < s.nodes.length →
        (getN ({ setLeft { { insertNode s v p0 with head_ := HD } with
          tail_ := TL } p0 s.nodes.length with
          size_ := s.size_ + 1 } : Set) j).data = (getN s j).data ∧
        (getN ({ setLeft { { insertNode s v p0 with head_ := HD } with
          tail_ := TL } p0 s.nodes.length with
          size_ := s.size_ + 1 } : Set) j).color = (getN s j).color ∧
        (getN ({ setLeft { { insertNode s v p0 with head_ := HD } with
          tail_ := TL } p0 s.nodes.length with
          size_ := s.size_ + 1 } : Set) j).parent = (getN s j).parent := by
      intro j hj
      have hsh := setLeft_shape { { insertNode s v p0 with head_ := HD } with
        tail_ := TL } p0 s.nodes.length j
      have hIN := getN_insertNode_lt (v := v) (y := p0) hj
      refine ⟨?_, ?_, ?_⟩
      · exact hsh.2.1.trans (congrArg Node.data hIN)
      · exact hsh.2.2.1.trans (congrArg Node.color hIN)
      · exact hsh.2.2.2.trans (congrArg Node.parent hIN)
    have hglr : ∀ j, j < s.nodes.length → j ≠ p0 →
        (getN ({ setLeft { { insertNode s v p0 with head_ := HD } with
          tail_ := TL } p0 s.nodes.length with
          size_ := s.size_ + 1 } : Set) j).left = (getN s j).left ∧
        (getN ({ setLeft { { insertNode s v p0 with head_ := HD } with
          tail_ := TL } p0 s.nodes.length with
          size_ := s.size_ + 1 } : Set) j).right = (getN s j).right := by
      intro j hj hjp
      have h1 := getN_setLeft_other
        (s := { { insertNode s v p0 with head_ := HD } with tail_ := TL })
        (show p0 ≠ j from fun he => hjp he.symm) s.nodes.length
      have hIN := getN_insertNode_lt (v := v) (y := p0) hj
      have h2 := h1.trans hIN
      exact ⟨congrArg Node.left h2, congrArg Node.right h2⟩
    have hlink : ∀ b sib ctx2, (true, p0, sib0) :: ctx0 = (b, p0, sib) :: ctx2 →
        (b = true → (getN ({ setLeft { { insertNode s v p0 with head_ := HD } with
            tail_ := TL } p0 s.nodes.length with
            size_ := s.size_ + 1 } : Set) p0).left = s.nodes.length ∧
          (getN ({ setLeft { { insertNode s v p0 with head_ := HD } with
            tail_ := TL } p0 s.nodes.length with
            size_ := s.size_ + 1 } : Set) p0).right = (getN s p0).right) ∧
        (b = false → (getN ({ setLeft { { insertNode s v p0 with head_ := HD } with
            tail_ := TL } p0 s.nodes.length with
            size_ := s.size_ + 1 } : Set) p0).right = s.nodes.length ∧
          (getN ({ setLeft { { insertNode s v p0 with head_ := HD } with
            tail_ := TL } p0 s.nodes.length with
            size_ := s.size_ + 1 } : Set) p0).left = (getN s p0).left) := by
      intro b sib ctx2 heq
      injection heq with h1 h2
      have hb : true = b := congrArg Prod.fst h1
      subst hb
      refine ⟨fun _ => ⟨?_, ?_⟩, fun hfb => Bool.noConfusion hfb⟩
      · have h1 := getN_setLeft_same hplt s.nodes.length
        exact congrArg Node.left h1
      · have hsh := setLeft_shape { { insertNode s v p0 with head_ := HD } with
          tail_ := TL } p0 s.nodes.length p0
        exact hsh.1.trans (congrArg Node.right hgstp)
    obtain ⟨s2, t2, hfix, hwf2, hsz2, hvals2⟩ :=
      insert_fixinv w
        (show holeParentD ((true, p0, sib0) :: ctx0) 0 = p0 from rfl)
        hpre hpost hlen5 hroot5 hsize5 hhead5 htail5 hgzi hgold hglr hlink
    refine ⟨s2, t2, ?_, hwf2, hsz2, hvals2⟩
    rw [hIL]
    exact hfix
  | false =>
    have hdv : (getN s p0).data < v := hinner.2 rfl
    have hA : insertAttach { { insertNode s v p0 with head_ := HD } with tail_ := TL }
        v p0 s.nodes.length =
        setRight { { insertNode s v p0 with head_ := HD } with tail_ := TL } p0
          s.nodes.length := by
      rw [insertAttach, if_neg hprange.1]
      refine if_neg ?_
      rw [hgstp]
      omega
    have hIL : insertLink s v p0 =
        { setRight { { insertNode s v p0 with head_ := HD } with tail_ := TL } p0
            s.nodes.length with size_ := s.size_ + 1 } := by
      rw [insertLink, hH, hT, hA]
      rfl
    have hlen5 : ({ setRight { { insertNode s v p0 with head_ := HD } with
        tail_ := TL } p0 s.nodes.length with
        size_ := s.size_ + 1 } : Set).nodes.length = s.nodes.length + 1 := by
      show (setRight { { insertNode s v p0 with head_ := HD } with tail_ := TL } p0
        s.nodes.length).nodes.length = s.nodes.length + 1
      rw [length_setRight]
      exact length_insertNode s v p0
    have hroot5 : ({ setRight { { insertNode s v p0 with head_ := HD } with
        tail_ := TL } p0 s.nodes.length with size_ := s.size_ + 1 } : Set).root_ =
        plugRootIdx ((false, p0, sib0) :: ctx0) s.nodes.length := hr0
    have hsize5 : ({ setRight { { insertNode s v p0 with head_ := HD } with
        tail_ := TL } p0 s.nodes.length with size_ := s.size_ + 1 } : Set).size_ =
        s.size_ + 1 := rfl
    have hhead5 : ({ setRight { { insertNode s v p0 with head_ := HD } with
        tail_ := TL } p0 s.nodes.length with size_ := s.size_ + 1 } : Set).head_ =
        (ctxPreIdx ((false, p0, sib0) :: ctx0) ++
          s.nodes.length :: ctxPostIdx ((false, p0, sib0) :: ctx0)).headD 0 := hHD
    have htail5 : ({ setRight { { insertNode s v p0 with head_ := HD } with
        tail_ := TL } p0 s.nodes.length with size_ := s.size_ + 1 } : Set).tail_ =
        (ctxPreIdx ((false, p0, sib0) :: ctx0) ++
          s.nodes.length :: ctxPostIdx ((false, p0, sib0) :: ctx0)).getLastD 0 := hTL
    have hgzi : getN ({ setRight { { insertNode s v p0 with head_ := HD } with
        tail_ := TL } p0 s.nodes.length with size_ := s.size_ + 1 } : Set)
        s.nodes.length = ⟨v, NodeColor.RED, 0, 0, p0⟩ := by
      have h1 := getN_setRight_other
        (s := { { insertNode s v p0 with head_ := HD } with tail_ := TL })
        (show p0 ≠ s.nodes.length from by omega) s.nodes.length
      exact h1.trans getN_insertNode_self
    have hgold : ∀ j, j < s.nodes.length →
        (getN ({ setRight { { insertNode s v p0 with head_ := HD } with
          tail_ := TL } p0 s.nodes.length with
          size_ := s.size_ + 1 } : Set) j).data = (getN s j).data ∧
        (getN ({ setRight { { insertNode s v p0 with head_ := HD } with
          tail_ := TL } p0 s.nodes.length with
          size_ := s.size_ + 1 } : Set) j).color = (getN s j).color ∧
        (getN ({ setRight { { insertNode s v p0 with head_ := HD } with
          tail_ := TL } p0 s.nodes.length with
          size_ := s.size_ + 1 } : Set) j).parent = (getN s j).parent := by
      intro j hj
      have hsh := setRight_shape { { insertNode s v p0 with head_ := HD } with
        tail_ := TL } p0 s.nodes.length j
      have hIN := getN_insertNode_lt (v := v) (y := p0) hj
      refine ⟨?_, ?_, ?_⟩
      · exact hsh.2.1.trans (congrArg Node.data hIN)
      · exact hsh.2.2.1.trans (congrArg Node.color hIN)
      · exact hsh.2.2.2.trans (congrArg Node.parent hIN)
    have hglr : ∀ j, j < s.nodes.length → j ≠ p0 →
        (getN ({ setRight { { insertNode s v p0 with head_ := HD } with
          tail_ := TL } p0 s.nodes.length with
          size_ := s.size_ + 1 } : Set) j).left = (getN s j).left ∧
        (getN ({ setRight { { insertNode s v p0 with head_ := HD } with
          tail_ := TL } p0 s.nodes.length with
          size_ := s.size_ + 1 } : Set) j).right = (getN s j).right := by
      intro j hj hjp
      have h1 := getN_setRight_other
        (s := { { insertNode s v p0 with head_ := HD } with tail_ := TL })
        (show p0 ≠ j from fun he => hjp he.symm) s.nodes.length
      have hIN := getN_insertNode_lt (v := v) (y := p0) hj
      have h2 := h1.trans hIN
      exact ⟨congrArg Node.left h2, congrArg Node.right h2⟩
    have hlink : ∀ b sib ctx2, (false, p0, sib0) :: ctx0 = (b, p0, sib) :: ctx2 →
        (b = true → (getN ({ setRight { { insertNode s v p0 with head_ := HD } with
            tail_ := TL } p0 s.nodes.length with
            size_ := s.size_ + 1 } : Set) p0).left = s.nodes.length ∧
          (getN ({ setRight { { insertNode s v p0 with head_ := HD } with
            tail_ := TL } p0 s.nodes.length with
            size_ := s.size_ + 1 } : Set) p0).right = (getN s p0).right) ∧
        (b = false → (getN ({ setRight { { insertNode s v p0 with head_ := HD } with
            tail_ := TL } p0 s.nodes.length with
            size_ := s.size_ + 1 } : Set) p0).right = s.nodes.length ∧
          (getN ({ setRight { { insertNode s v p0 with head_ := HD } with
            tail_ := TL } p0 s.nodes.length with
            size_ := s.size_ + 1 } : Set) p0).left = (getN s p0).left) := by
      intro b sib ctx2 heq
      injection heq with h1 h2
      have hb : false = b := congrArg Prod.fst h1
      subst hb
      refine ⟨fun hft => Bool.noConfusion hft, fun _ => ⟨?_, ?_⟩⟩
      · have h1 := getN_setRight_same hplt s.nodes.length
        exact congrArg Node.right h1
      · have hsh := setRight_shape { { insertNode s v p0 with head_ := HD } with
          tail_ := TL } p0 s.nodes.length p0
        exact hsh.1.trans (congrArg Node.left hgstp)
    obtain ⟨s2, t2, hfix, hwf2, hsz2, hvals2⟩ :=
      insert_fixinv w
        (show holeParentD ((false, p0, sib0) :: ctx0) 0 = p0 from rfl)
        hpre hpost hlen5 hroot5 hsize5 hhead5 htail5 hgzi hgold hglr hlink
    refine ⟨s2, t2, ?_, hwf2, hsz2, hvals2⟩
    rw [hIL]
    exact hfix

/-- Inserting an absent value succeeds, preserves well-formedness, grows
the size by exactly one, and splices `v` into the sorted payload
sequence. -/
theorem insert_wf {s : Set} (w : WFData s (treeOf s)) {v : Nat}
    (habs : v ∉ contents s) :
    ∃ s2 l1 l2, insert s v = some s2 ∧ WFData s2 (treeOf s2) ∧
      s2.size_ = s.size_ + 1 ∧ contents s = l1 ++ l2 ∧
      contents s2 = l1 ++ v :: l2 := by
  have hfb : (fInsPos s v (treeOf s) 0).2 = false := by
    cases hb : (fInsPos s v (treeOf s) 0).2
    · rfl
    · exact absurd ((fInsPos_found_iff w.hsorted).mp hb) habs
  obtain ⟨ctx, hplug, hhole0, hpre, hpost, hinner⟩ := fInsPos_zipper w.hsorted hfb
  rcases hp : fInsPos s v (treeOf s) 0 with ⟨y, b⟩
  have hbf : b = false := by rw [hp] at hfb; exact hfb
  subst hbf
  have hhole : holeParentD ctx 0 = y := by rw [hp] at hhole0; exact hhole0
  have hLoop : insertLoop s v s.nodes.length 0 s.root_ = some (y, false) := by
    rw [insertLoop_eq_fInsPos w.hext, hp]
  have w' : WFData s (plug ctx ITree.leaf) := hplug ▸ w
  have hiot : inorderIdx (plug ctx ITree.leaf) =
      ctxPreIdx ctx ++ ctxPostIdx ctx := by
    rw [inorder_plug]
    simp [inorderIdx]
  have hvalsS : contents s = (ctxPreIdx ctx).map (fun j => (getN s j).data) ++
      (ctxPostIdx ctx).map (fun j => (getN s j).data) := by
    rw [contents, hplug, valsOf, hiot, List.map_append]
  rcases ctx with _ | ⟨⟨b0, p0, sib0⟩, ctx0⟩
  · -- the tree was empty: the new node becomes the root
    have hy : 0 = y := hhole
    subst hy
    have hhead0 : s.head_ = 0 := w'.hhead
    have htail0 : s.tail_ = 0 := w'.htail
    have hH : insertHead (insertNode s v 0) v s.nodes.length =
        { insertNode s v 0 with head_ := s.nodes.length } := by
      rw [insertHead]
      exact if_pos (Or.inl (show (insertNode s v 0).head_ = 0 from hhead0))
    have hT : insertTail { insertNode s v 0 with head_ := s.nodes.length } v
        s.nodes.length =
        { insertNode s v 0 with
          head_ := s.nodes.length, tail_ := s.nodes.length } := by
      rw [insertTail]
      exact if_pos (Or.inl (show ({ insertNode s v 0 with
        head_ := s.nodes.length } : Set).tail_ = 0 from htail0))
    have hA : insertAttach { insertNode s v 0 with
        head_ := s.nodes.length, tail_ := s.nodes.length } v 0 s.nodes.length =
        { insertNode s v 0 with
          head_ := s.nodes.length, tail_ := s.nodes.length,
          root_ := s.nodes.length } := by
      rw [insertAttach]
      exact if_pos rfl
    have hIL : insertLink s v 0 =
        { insertNode s v 0 with
          head_ := s.nodes.length, tail_ := s.nodes.length,
          root_ := s.nodes.length, size_ := s.size_ + 1 } := by
      rw [insertLink, hH, hT, hA]
      rfl
    have hlen5 : ({ insertNode s v 0 with
        head_ := s.nodes.length, tail_ := s.nodes.length,
        root_ := s.nodes.length, size_ := s.size_ + 1 } : Set).nodes.length = s.nodes.length + 1 :=
      length_insertNode s v 0
    have hroot5 : ({ insertNode s v 0 with
        head_ := s.nodes.length, tail_ := s.nodes.length,
        root_ := s.nodes.length, size_ := s.size_ + 1 } : Set).root_ = plugRootIdx [] s.nodes.length := rfl
    have hsize5 : ({ insertNode s v 0 with
        head_ := s.nodes.length, tail_ := s.nodes.length,
        root_ := s.nodes.length, size_ := s.size_ + 1 } : Set).size_ = s.size_ + 1 := rfl
    have hhead5 : ({ insertNode s v 0 with
        head_ := s.nodes.length, tail_ := s.nodes.length,
        root_ := s.nodes.length, size_ := s.size_ + 1 } : Set).head_ =
        (ctxPreIdx [] ++ s.nodes.length :: ctxPostIdx []).headD 0 := rfl
    have htail5 : ({ insertNode s v 0 with
        head_ := s.nodes.length, tail_ := s.nodes.length,
        root_ := s.nodes.length, size_ := s.size_ + 1 } : Set).tail_ =
        (ctxPreIdx [] ++ s.nodes.length :: ctxPostIdx []).getLastD 0 := rfl
    have hgzi : getN ({ insertNode s v 0 with
        head_ := s.nodes.length, tail_ := s.nodes.length,
        root_ := s.nodes.length, size_ := s.size_ + 1 } : Set) s.nodes.length =
        ⟨v, NodeColor.RED, 0, 0, 0⟩ := getN_insertNode_self
    have hgold : ∀ j, j < s.nodes.length →
        (getN ({ insertNode s v 0 with
          head_ := s.nodes.length, tail_ := s.nodes.length,
          root_ := s.nodes.length, size_ := s.size_ + 1 } : Set) j).data = (getN s j).data ∧
        (getN ({ insertNode s v 0 with
          head_ := s.nodes.length, tail_ := s.nodes.length,
          root_ := s.nodes.length, size_ := s.size_ + 1 } : Set) j).color = (getN s j).color ∧
        (getN ({ insertNode s v 0 with
          head_ := s.nodes.length, tail_ := s.nodes.length,
          root_ := s.nodes.length, size_ := s.size_ + 1 } : Set) j).parent = (getN s j).parent := by
      intro j hj
      have h1 : getN ({ insertNode s v 0 with
          head_ := s.nodes.length, tail_ := s.nodes.length,
          root_ := s.nodes.length, size_ := s.size_ + 1 } : Set) j = getN s j := getN_insertNode_lt hj
      rw [h1]
      exact ⟨rfl, rfl, rfl⟩
    have hglr : ∀ j, j < s.nodes.length → j ≠ 0 →
        (getN ({ insertNode s v 0 with
          head_ := s.nodes.length, tail_ := s.nodes.length,
          root_ := s.nodes.length, size_ := s.size_ + 1 } : Set) j).left = (getN s j).left ∧
        (getN ({ insertNode s v 0 with
          head_ := s.nodes.length, tail_ := s.nodes.length,
          root_ := s.nodes.length, size_ := s.size_ + 1 } : Set) j).right = (getN s j).right := by
      intro j hj _
      have h1 : getN ({ insertNode s v 0 with
          head_ := s.nodes.length, tail_ := s.nodes.length,
          root_ := s.nodes.length, size_ := s.size_ + 1 } : Set) j = getN s j := getN_insertNode_lt hj
      rw [h1]
      exact ⟨rfl, rfl⟩
    obtain ⟨s2, t2, hfix, hwf2, hsz2, hvals2⟩ :=
      insert_fixinv w' hhole hpre hpost hlen5 hroot5 hsize5 hhead5 htail5 hgzi
        hgold hglr (fun b sib ctx0 h => List.noConfusion h)
    have ht2 : treeOf s2 = t2 := by
      simp only [treeOf, hwf2.hext, Option.getD_some]
    refine ⟨s2, _, _, ?_, ?_, hsz2, hvalsS, ?_⟩
    · rw [insert_eq_link hLoop, hIL]
      exact hfix
    · rw [ht2]
      exact hwf2
    · rw [contents, ht2]
      exact hvals2
  · -- the new node hangs below the last descent node p0
    have hy : p0 = y := hhole
    subst hy
    obtain ⟨s2, t2, hfix, hwf2, hsz2, hvals2⟩ :=
      insertLink_fixup_ok w' hpre hpost (hinner b0 p0 sib0 ctx0 rfl) rfl rfl
    have ht2 : treeOf s2 = t2 := by
      simp only [treeOf, hwf2.hext, Option.getD_some]
    refine ⟨s2, _, _, ?_, ?_, hsz2, hvalsS, ?_⟩
    · rw [insert_eq_link hLoop]
      exact hfix
    · rw [ht2]
      exact hwf2
    · rw [contents, ht2]
      exact hvals2


/-! ### Duplicate insertion and the size counter (C6) -/

/-- **C6 counterexample.** On the well-formed set `{1}` with `v = 1`,
`insert 1; insert 1` returns the state unchanged both times, so `size`
stays at `1` instead of growing by one — refuting "after
`insert(v); insert(v)`, `size()` is exactly 1 greater than before". -/
theorem insert_insert_size_counterexample :
    wfB (stateOf [1]) = true ∧
      insert (stateOf [1]) 1 = some (stateOf [1]) ∧
      ¬ (stateOf [1]).size_ = (stateOf [1]).size_ + 1 := by
  decide

/-- **C6 (amended).** For every well-formed set and every value `v`,
`insert v; insert v` succeeds with the second insert a no-op on the
state the first one produced; the final `size` is exactly one greater
than before iff `v` was absent, and unchanged when `v` was already
present (the duplicate insert is a no-op). -/
theorem insert_insert_size_amended {s : Set} (h : wfB s = true) (v : Nat) :
    ∃ s1, insert s v = some s1 ∧ insert s1 v = some s1 ∧
      ((v ∉ contents s → s1.size_ = s.size_ + 1) ∧
       (v ∈ contents s → s1.size_ = s.size_)) := by
  have w := wfB_dest h
  by_cases hm : v ∈ contents s
  · exact ⟨s, insert_present_noop w hm, insert_present_noop w hm,
      fun hn => absurd hm hn, fun _ => rfl⟩
  · obtain ⟨s2, l1, l2, hins, hwf2, hsz, hcs, hcs2⟩ := insert_wf w hm
    have hm2 : v ∈ contents s2 := by
      rw [hcs2]
      exact List.mem_append.mpr (Or.inr (List.mem_cons_self _ _))
    exact ⟨s2, hins, insert_present_noop hwf2 hm2, fun _ => hsz,
      fun hin => absurd hin hm⟩

/-- **C6 amended witness.** -/
theorem insert_insert_size_amended_witness :
    wfB (stateOf [1]) = true ∧
      (∃ s1, insert (stateOf [1]) 2 = some s1 ∧ insert s1 2 = some s1 ∧
        ((2 ∉ contents (stateOf [1]) → s1.size_ = (stateOf [1]).size_ + 1) ∧
         (2 ∈ contents (stateOf [1]) → s1.size_ = (stateOf [1]).size_))) :=
  ⟨by decide, insert_insert_size_amended (by decide) 2⟩

end RB
